import Mathlib

/-!
Verification of the CDC (change-data-capture) core of the `source-postgres`
connector, as implemented in `src/source-postgres/capture.go` and
`src/source-postgres/backfill.go`.

The Go code is shallowly embedded: pure functions become Lean functions, the
stateful capture loop becomes explicit state passing over a `Capture` record,
the replication channel becomes a list of events consumed sequentially, and
fallible Go code returns `Except String`.  Components of the repository that
are referenced from `capture.go` but whose sources are not present under
`src/` (the FoundationDB-style tuple codec, the `resultSet` buffer, the
replication stream abstraction, the watermark writer and the chunk scanner
driver plumbing) are modelled from the specification; each such definition
carries a doc comment starting with `Modelled from the spec:`.
-/

namespace SourcePostgres

/-- The dynamic (`interface\x7b\x7d`) values carried in row fields, restricted to
the shapes that `translateRecordField` in `capture.go` dispatches on. -/
inductive Value where
  /-- a nil / SQL NULL value -/
  | null : Value
  | bool (b : Bool) : Value
  | int (n : Int) : Value
  /-- a plain Go string (already wire-serializable, passed through) -/
  | str (s : String) : Value
  /-- a `*net.IPNet`, carried as its canonical `String()` form -/
  | ipnet (txt : String) : Value
  /-- a `net.HardwareAddr`, carried as its canonical `String()` form -/
  | hwaddr (txt : String) : Value
  /-- a `[16]uint8` UUID value (sixteen bytes, each < 256) -/
  | uuid (bytes : List Nat) : Value
  /-- a value implementing `json.Marshaler` (passed through untouched) -/
  | jsonm (raw : String) : Value
  /-- a `pgtype.TextEncoder` whose `EncodeText` yields the given text -/
  | textenc (txt : String) : Value
  deriving Repr, DecidableEq

/-- A row's field map.  Go's `map[string]interface\x7b\x7d` is modelled as an
association list with at most one binding per key (lookup takes the first). -/
abbrev Fields := List (String × Value)

/-- Map lookup, `fields[k]` in Go (returning the zero value `none` if absent). -/
def getF : Fields → String → Option Value
  | [], _ => none
  | (k, v) :: rest, key => if k = key then some v else getF rest key

/-- Map assignment, `fields[k] = v` in Go. -/
def setF : Fields → String → Value → Fields
  | [], k, v => [(k, v)]
  | (k0, v0) :: rest, k, v =>
    if k0 = k then (k0, v) :: rest else (k0, v0) :: setF rest k v

/-- Generic string-keyed association lookup (Go map indexing). -/
def lookupS {α : Type} (key : String) : List (String × α) → Option α
  | [] => none
  | (k, v) :: rest => if k = key then some v else lookupS key rest

/-- Generic string-keyed association insert-or-replace (Go map assignment). -/
def setS {α : Type} (key : String) (val : α) : List (String × α) → List (String × α)
  | [] => [(key, val)]
  | (k, v) :: rest =>
    if k = key then (k, val) :: rest else (k, v) :: setS key val rest

/-- `defaultSchemaName` from `capture.go`. -/
def defaultSchemaName : String := "public"

/-- `strings.ToLower`, written over the character list so that it reduces
structurally. -/
def strToLower (s : String) : String := String.mk (s.data.map Char.toLower)

/-- `joinStreamID` from `capture.go`: combine a namespace and a stream name
into a fully-qualified lowercased identifier, defaulting the namespace to
`public`. -/
def joinStreamID (ns stream : String) : String :=
  strToLower ((if ns = "" then defaultSchemaName else ns) ++ "." ++ stream)

/-- The `tableModeBackfill` constant from `capture.go`. -/
def tableModeBackfill : String := "Backfill"

/-- The `tableModeActive` constant from `capture.go`. -/
def tableModeActive : String := "Active"

/-- The `tableModeIgnore` constant from `capture.go`. -/
def tableModeIgnore : String := "Ignore"

/-- `TableState` from `capture.go`: the serializable per-table capture state.
`scanned = none` models a nil `Scanned []byte` (the JSON `omitempty` absent
case). -/
structure TableState where
  mode : String
  scanKey : List String
  scanned : Option (List Nat)
  deriving Repr, DecidableEq

/-- `PersistentState` from `capture.go`.  `Streams` is modelled as an
association list (a nil Go map is represented by the empty list). -/
structure PersistentState where
  currentLSN : Nat
  streams : List (String × TableState)
  deriving Repr, DecidableEq

/-- Insertion of a string into a `≤`-sorted list (helper for `sort.Strings`). -/
def insertSorted (s : String) : List String → List String
  | [] => [s]
  | x :: xs => if s ≤ x then s :: x :: xs else x :: insertSorted s xs

/-- `sort.Strings`: insertion sort on strings. -/
def sortStrings : List String → List String
  | [] => []
  | x :: xs => insertSorted x (sortStrings xs)

/-- `pendingStreams` from `capture.go`: the IDs of all streams which still
need to be backfilled, in sorted order. -/
def pendingStreams (ps : PersistentState) : List String :=
  sortStrings ((ps.streams.filter (fun p => p.2.mode = tableModeBackfill)).map Prod.fst)

/-- A replication change event (`changeEvent` in the repository).  `lsn`
models the log position the replication stream has reached once the event is
delivered; namespace is called `ns` (a Lean keyword otherwise). -/
structure changeEvent where
  type : String
  ns : String
  table : String
  fields : Fields
  lsn : Nat
  deriving Repr, DecidableEq

/-- The stream id of a change event. -/
def eventStreamID (evt : changeEvent) : String := joinStreamID evt.ns evt.table

/-- Configuration fields of `Config` consumed by the capture core. -/
structure Config where
  watermarksTable : String
  slotName : String
  maxLifespanSeconds : Rat
  pollTimeoutSeconds : Rat
  deriving Repr, DecidableEq

/-- One configured catalog stream (`airbyte.ConfiguredStream`): the stream's
namespace, name, and the catalog-level primary-key override (an array of
arrays of column names). -/
structure CatalogStream where
  ns : String
  name : String
  primaryKey : List (List String)
  deriving Repr, DecidableEq

/-- `airbyte.ConfiguredCatalog`: the configured streams plus the `Tail`
flag. -/
structure ConfiguredCatalog where
  tail : Bool
  streams : List CatalogStream
  deriving Repr, DecidableEq

/-- The mutable part of the `capture` struct from `capture.go` that the pure
loop logic touches: the persistent state and the
`changesSinceLastCheckpoint` counter. -/
structure Capture where
  state : PersistentState
  changesSinceLastCheckpoint : Nat
  deriving Repr, DecidableEq

/-- A message written to the downstream encoder: either a Record (namespace,
stream, data) or a State checkpoint carrying the full persistent state.
The Go `EmittedAt` wall-clock timestamp is metadata outside the model. -/
inductive Message where
  | record (ns stream : String) (data : Fields) : Message
  | state (ps : PersistentState) : Message
  deriving Repr, DecidableEq

/-- `emitRecord` from `capture.go`: bump `changesSinceLastCheckpoint` and
produce a Record message. -/
def emitRecord (c : Capture) (ns stream : String) (data : Fields) : Capture × Message :=
  ({ c with changesSinceLastCheckpoint := c.changesSinceLastCheckpoint + 1 },
   Message.record ns stream data)

/-- `emitState` from `capture.go`: reset `changesSinceLastCheckpoint` and
produce a State message with the given state. -/
def emitState (c : Capture) (ps : PersistentState) : Capture × Message :=
  ({ c with changesSinceLastCheckpoint := 0 }, Message.state ps)

/-- Hex digit character for a value < 16 (lowercase, mirroring Go `%02x`). -/
def hexDigit (n : Nat) : Char :=
  if n < 10 then Char.ofNat (48 + n) else Char.ofNat (87 + n)

/-- Two-digit lowercase hex of a byte, Go `fmt.Sprintf("%02x", b)`. -/
def byteHex (b : Nat) : String :=
  String.mk [hexDigit (b / 16 % 16), hexDigit (b % 16)]

/-- The hyphenated-hex rendering of a 16-byte UUID built by
`translateRecordField` (a hyphen before indices 4, 6, 8 and 10). -/
def uuidHex (bytes : List Nat) : String :=
  (bytes.enum.map (fun p =>
    (if p.1 = 4 ∨ p.1 = 6 ∨ p.1 = 8 ∨ p.1 = 10 then "-" else "") ++ byteHex p.2)).foldl
    (· ++ ·) ""

/-- `translateRecordField` from `capture.go`: translate a driver value into a
wire-serializable scalar.  In this value model the `pgtype.TextEncoder`
branch cannot fail, so the function is total. -/
def translateRecordField : Value → Value
  | Value.ipnet txt => Value.str txt
  | Value.hwaddr txt => Value.str txt
  | Value.uuid bytes => Value.str (uuidHex bytes)
  | Value.jsonm raw => Value.jsonm raw
  | Value.textenc txt => Value.str txt
  | v => v

/-- `handleChangeEvent` from `capture.go`: add the `_change_type` field, then
translate every field, then emit the record. -/
def handleChangeEvent (c : Capture) (evt : changeEvent) : Capture × Message :=
  let fs := setF evt.fields "_change_type" (Value.str evt.type)
  let fs := fs.map (fun p => (p.1, translateRecordField p.2))
  emitRecord c evt.ns evt.table fs

/-- Modelled from the spec: §4.A tuple codec (the FoundationDB-style
serialization used by `encodeRowKey`, whose source is not under `src/`).
Each element carries a leading type tag; string-like payloads are terminated
so distinct tuples are never prefixes of one another.  Per the spec the exact
byte format is internal: the external contract is opaque byte sequences
compared by unsigned lexicographic order. -/
def strBytes (s : String) : List Nat :=
  s.data.map (fun c => c.toNat + 1) ++ [0]

/-- Modelled from the spec: §4.A — encoding of one scalar element, with a
leading type tag (see `strBytes`). -/
def encodeValue : Value → List Nat
  | Value.null => [0]
  | Value.bool b => [1, cond b 1 0]
  | Value.int n => if 0 ≤ n then [2, 1, n.toNat] else [2, 0, (-n).toNat]
  | Value.str s => 3 :: strBytes s
  | Value.uuid bytes => 4 :: bytes ++ [0]
  | Value.ipnet txt => 5 :: strBytes txt
  | Value.hwaddr txt => 6 :: strBytes txt
  | Value.jsonm raw => 7 :: strBytes raw
  | Value.textenc txt => 8 :: strBytes txt

/-- Modelled from the spec: §4.A — encoding of a tuple of scalars. -/
def encodeTuple (vs : List Value) : List Nat :=
  (vs.map encodeValue).flatten

/-- Modelled from the spec: §4.G step 2 — `encodeRowKey` (source not under
`src/`): extract the scan-key columns from an event's fields and encode them
per §4.A; a missing key column is an error. -/
def encodeRowKey (scanKey : List String) (fields : Fields) : Except String (List Nat) :=
  match scanKey with
  | [] => Except.ok []
  | col :: rest =>
    match getF fields col with
    | none => Except.error ("missing key column " ++ col)
    | some v =>
      match encodeRowKey rest fields with
      | Except.error e => Except.error e
      | Except.ok tail => Except.ok (encodeValue v ++ tail)

/-- Modelled from the spec: §4.A — `compareTuples` (source not under `src/`),
the `bytes.Compare`-style unsigned lexicographic comparison of encoded
tuples, returning -1, 0 or 1.  A nil `Scanned` compares as the empty byte
string. -/
def compareTuples : List Nat → List Nat → Int
  | [], [] => 0
  | [], _ :: _ => -1
  | _ :: _, [] => 1
  | x :: xs, y :: ys =>
    if x < y then -1 else if y < x then 1 else compareTuples xs ys

/-- Modelled from the spec: §4.B — one buffered backfill chunk: the scan key
schema, the buffered rows keyed (and sorted ascending) by encoded scan-key
tuple, and the `complete` marker recorded at `Buffer` time. -/
structure backfillChunk where
  scanKey : List String
  rows : List (List Nat × changeEvent)
  complete : Bool
  deriving Repr, DecidableEq

/-- Modelled from the spec: §4.B — the result-set buffer, holding one backfill
chunk per stream currently being backfilled (a nil Go `*resultSet` is the
empty list). -/
abbrev resultSet := List (String × backfillChunk)

/-- Sorted insert-or-overwrite of a keyed row into a chunk's row list. -/
def insertRow (key : List Nat) (evt : changeEvent) :
    List (List Nat × changeEvent) → List (List Nat × changeEvent)
  | [] => [(key, evt)]
  | (k0, e0) :: rest =>
    if compareTuples key k0 < 0 then (key, evt) :: (k0, e0) :: rest
    else if compareTuples key k0 = 0 then (key, evt) :: rest
    else (k0, e0) :: insertRow key evt rest

/-- Removal of a keyed row from a chunk's row list. -/
def removeRow (key : List Nat) : List (List Nat × changeEvent) → List (List Nat × changeEvent)
  | [] => []
  | (k0, e0) :: rest =>
    if compareTuples key k0 = 0 then removeRow key rest
    else (k0, e0) :: removeRow key rest

/-- Modelled from the spec: §4.B — keying a scanned chunk's events by their
encoded scan-key tuples. -/
def bufferRows (scanKey : List String) : List changeEvent →
    Except String (List (List Nat × changeEvent))
  | [] => Except.ok []
  | evt :: rest =>
    match encodeRowKey scanKey evt.fields with
    | Except.error e => Except.error e
    | Except.ok key =>
      match bufferRows scanKey rest with
      | Except.error e => Except.error e
      | Except.ok rows => Except.ok (insertRow key evt rows)

/-- Modelled from the spec: §4.B — `resultSet.Buffer(stream, scan_key, rows)`:
install the chunk for a stream and record whether it was complete (row count
strictly below the chunk size `n`). -/
def rsBuffer (n : Nat) (rs : resultSet) (streamID : String) (scanKey : List String)
    (evts : List changeEvent) : Except String resultSet :=
  match bufferRows scanKey evts with
  | Except.error e => Except.error e
  | Except.ok rows =>
    Except.ok (setS streamID { scanKey := scanKey, rows := rows, complete := evts.length < n } rs)

/-- The largest buffered key of a chunk (its rows are sorted ascending). -/
def chunkLastKey (ch : backfillChunk) : Option (List Nat) :=
  (ch.rows.map Prod.fst).getLast?

/-- Modelled from the spec: §4.B — `resultSet.Patch(stream, event)`: if no
chunk is buffered for the stream drop the event; otherwise overwrite
(Insert/Update) or remove (Delete) the buffered row whose encoded key matches,
silently dropping events beyond the buffered key range. -/
def rsPatch (rs : resultSet) (streamID : String) (evt : changeEvent) : Except String resultSet :=
  match lookupS streamID rs with
  | none => Except.ok rs
  | some ch =>
    match encodeRowKey ch.scanKey evt.fields with
    | Except.error e => Except.error e
    | Except.ok key =>
      match chunkLastKey ch with
      | none => Except.ok rs
      | some lastKey =>
        if compareTuples key lastKey ≤ 0 then
          let rows :=
            if evt.type = "Delete" then removeRow key ch.rows else insertRow key evt ch.rows
          Except.ok (setS streamID { ch with rows := rows } rs)
        else Except.ok rs

/-- Modelled from the spec: §4.B — `resultSet.Streams()`: the buffered stream
ids. -/
def rsStreams (rs : resultSet) : List String := rs.map Prod.fst

/-- Modelled from the spec: §4.B — `resultSet.Changes(stream)`: the buffered
rows of the stream in encoded-key order. -/
def rsChanges (rs : resultSet) (streamID : String) : List changeEvent :=
  match lookupS streamID rs with
  | none => []
  | some ch => ch.rows.map Prod.snd

/-- Modelled from the spec: §4.B — `resultSet.Complete(stream)`. -/
def rsComplete (rs : resultSet) (streamID : String) : Bool :=
  match lookupS streamID rs with
  | none => false
  | some ch => ch.complete

/-- Modelled from the spec: §4.B / §4.G step 4 — `resultSet.Scanned(stream)`:
the last (largest) buffered row key, i.e. the last row key a flush of this
chunk emits. -/
def rsScanned (rs : resultSet) (streamID : String) : Option (List Nat) :=
  match lookupS streamID rs with
  | none => none
  | some ch => chunkLastKey ch

/-- Update the `TableState` of one stream in place (Go mutates the pointer
stored in the `Streams` map; an absent stream is left untouched). -/
def updateTS (streams : List (String × TableState)) (streamID : String)
    (f : TableState → TableState) : List (String × TableState) :=
  streams.map (fun p => if p.1 = streamID then (p.1, f p.2) else p)

/-- The result of one `streamToWatermark` drain: the updated capture state
and result set, the emitted messages, and the replication events left
unconsumed on the channel. -/
abbrev DrainResult := Capture × resultSet × List Message × List changeEvent

/-- `streamToWatermark` from `capture.go` with its `watermarkReached` flag
made an explicit parameter: consume replication events until the first
Commit after a change event on the watermarks table carrying the expected
watermark value.  Events on Ignore/unknown tables are dropped, events on
Active tables are emitted, and events on Backfill tables are emitted when
their row key is at or before the stream's `Scanned` position and patched
into the result set otherwise.  An exhausted channel (closed on shutdown)
ends the drain successfully. -/
def streamToWatermarkAux (cfg : Config) (wm : String) :
    Bool → Capture → resultSet → List changeEvent → Except String DrainResult
  | _, c, results, [] => Except.ok (c, results, [], [])
  | reached, c, results, evt :: rest =>
    if evt.type = "Commit" then
      let c1 := { c with state := { c.state with currentLSN := evt.lsn } }
      if reached then Except.ok (c1, results, [], rest)
      else streamToWatermarkAux cfg wm reached c1 results rest
    else
      let sid := eventStreamID evt
      let reached1 :=
        if sid = cfg.watermarksTable ∧ getF evt.fields "watermark" = some (Value.str wm) then
          true
        else reached
      match lookupS sid c.state.streams with
      | none => streamToWatermarkAux cfg wm reached1 c results rest
      | some ts =>
        if ts.mode = tableModeIgnore then
          streamToWatermarkAux cfg wm reached1 c results rest
        else if ts.mode = tableModeActive then
          let (c1, m) := handleChangeEvent c evt
          match streamToWatermarkAux cfg wm reached1 c1 results rest with
          | Except.error e => Except.error e
          | Except.ok (c2, r2, ms, rem) => Except.ok (c2, r2, m :: ms, rem)
        else if ts.mode = tableModeBackfill then
          match encodeRowKey ts.scanKey evt.fields with
          | Except.error e => Except.error e
          | Except.ok rowKey =>
            if compareTuples rowKey (ts.scanned.getD []) ≤ 0 then
              let (c1, m) := handleChangeEvent c evt
              match streamToWatermarkAux cfg wm reached1 c1 results rest with
              | Except.error e => Except.error e
              | Except.ok (c2, r2, ms, rem) => Except.ok (c2, r2, m :: ms, rem)
            else
              match rsPatch results sid evt with
              | Except.error e => Except.error e
              | Except.ok results1 => streamToWatermarkAux cfg wm reached1 c results1 rest
        else Except.error ("table " ++ sid ++ " in invalid mode " ++ ts.mode)

/-- `streamToWatermark` entered with `watermarkReached = false` as in the
source. -/
def streamToWatermark (cfg : Config) (wm : String) (c : Capture) (results : resultSet)
    (events : List changeEvent) : Except String DrainResult :=
  streamToWatermarkAux cfg wm false c results events

/-- The `for _, evt := range evts` emission loop of `emitBuffered`. -/
def emitEvents (acc : Capture × List Message) : List changeEvent → Capture × List Message
  | [] => acc
  | evt :: rest =>
    let (c1, m) := handleChangeEvent acc.1 evt
    emitEvents (c1, acc.2 ++ [m]) rest

/-- The `TableState` update a flush applies to a stream: mode `Active` and
`Scanned` cleared when the chunk was complete, `Scanned` advanced to the
chunk's last row key otherwise. -/
def flushRule (results : resultSet) (streamID : String) (ts : TableState) : TableState :=
  if rsComplete results streamID then { ts with mode := tableModeActive, scanned := none }
  else { ts with scanned := rsScanned results streamID }

/-- The per-stream body of `emitBuffered` from `capture.go`: emit the
buffered rows of one stream through `handleChangeEvent`, then update its
`TableState` per `flushRule`. -/
def flushStream (results : resultSet) (acc : Capture × List Message) (streamID : String) :
    Capture × List Message :=
  let c := (emitEvents acc (rsChanges results streamID)).1
  let msgs := (emitEvents acc (rsChanges results streamID)).2
  let streams1 :=
    if rsComplete results streamID then
      updateTS c.state.streams streamID
        (fun ts => { ts with mode := tableModeActive, scanned := none })
    else
      updateTS c.state.streams streamID
        (fun ts => { ts with scanned := rsScanned results streamID })
  ({ c with state := { c.state with streams := streams1 } }, msgs)

/-- The `for _, streamID := range results.Streams()` loop of
`emitBuffered`. -/
def flushAll (results : resultSet) (acc : Capture × List Message) :
    List String → Capture × List Message
  | [] => acc
  | streamID :: rest => flushAll results (flushStream results acc streamID) rest

/-- `emitBuffered` from `capture.go`: flush every buffered stream, then emit
one State checkpoint with the updated persistent state. -/
def emitBuffered (c : Capture) (results : resultSet) : Capture × List Message :=
  let c1 := (flushAll results (c, []) (rsStreams results)).1
  let msgs := (flushAll results (c, []) (rsStreams results)).2
  ((emitState c1 c1.state).1, msgs ++ [(emitState c1 c1.state).2])

/-- Modelled from the spec: §4.C — the backfill scan as an abstract
deterministic query: given a stream id, its scan key and the resume position,
the database returns the next chunk of rows as Insert events. -/
abbrev ScanOracle := String → List String → Option (List Nat) → List changeEvent

/-- `backfillStreams` from `capture.go`: scan one chunk for every pending
stream (in the given, sorted order) and install each into a fresh result
set. -/
def backfillStreams (oracle : ScanOracle) (n : Nat) (c : Capture) :
    List String → resultSet → Except String resultSet
  | [], results => Except.ok results
  | streamID :: rest, results =>
    match lookupS streamID c.state.streams with
    | none => Except.error ("no state for stream " ++ streamID)
    | some ts =>
      match rsBuffer n results streamID ts.scanKey (oracle streamID ts.scanKey ts.scanned) with
      | Except.error e => Except.error e
      | Except.ok results1 => backfillStreams oracle n c rest results1

/-- Phase 2 of `streamChanges` from `capture.go`: stream changes forever; on
each Commit emit a State checkpoint at the commit's position only when at
least one record was emitted since the last checkpoint; emit row events only
for Active tables. -/
def phase2 (cfg : Config) : Capture → List changeEvent → Capture × List Message
  | c, [] => (c, [])
  | c, evt :: rest =>
    if evt.type = "Commit" then
      if 0 < c.changesSinceLastCheckpoint then
        let c1 : Capture := { c with state := { c.state with currentLSN := evt.lsn } }
        let c2 := (emitState c1 c1.state).1
        ((phase2 cfg c2 rest).1, (emitState c1 c1.state).2 :: (phase2 cfg c2 rest).2)
      else phase2 cfg c rest
    else
      match lookupS (eventStreamID evt) c.state.streams with
      | some ts =>
        if ts.mode = tableModeActive then
          ((phase2 cfg (handleChangeEvent c evt).1 rest).1,
            (handleChangeEvent c evt).2 :: (phase2 cfg (handleChangeEvent c evt).1 rest).2)
        else phase2 cfg c rest
      | none => phase2 cfg c rest

/-- The Phase-1 `for pendingStreams() != nil` loop of `streamChanges`:
drain to the watermark, flush the buffered result set (which emits a State
checkpoint), scan the next chunk of every pending stream, write the next
watermark, repeat.  `wms` supplies the fresh watermark UUIDs (one per
`writeWatermark` call, `wmIdx` counting the calls made so far) and `fuel`
bounds the number of iterations so the model is total. -/
def streamLoop (cfg : Config) (oracle : ScanOracle) (n : Nat) (wms : Nat → String) :
    Nat → Capture → resultSet → Nat → String → List changeEvent →
    Except String (Capture × List Message × List changeEvent)
  | fuel, c, results, wmIdx, wm, events =>
    if pendingStreams c.state = [] then Except.ok (c, [], events)
    else
      match fuel with
      | 0 => Except.error "fuel exhausted"
      | fuel' + 1 =>
        match streamToWatermark cfg wm c results events with
        | Except.error e => Except.error e
        | Except.ok (c1, results1, msgs1, events1) =>
          let c2 := (emitBuffered c1 results1).1
          let msgs2 := (emitBuffered c1 results1).2
          match backfillStreams oracle n c2 (pendingStreams c2.state) [] with
          | Except.error e => Except.error e
          | Except.ok results2 =>
            match streamLoop cfg oracle n wms fuel' c2 results2 (wmIdx + 1) (wms wmIdx) events1 with
            | Except.error e => Except.error e
            | Except.ok (c3, msgs3, events3) =>
              Except.ok (c3, msgs1 ++ msgs2 ++ msgs3, events3)

/-- `streamChanges` from `capture.go` as a function of the replication event
list: if any stream is pending, write the first watermark and run the
Phase-1 loop, then stream the remaining events in Phase 2. -/
def streamChanges (cfg : Config) (oracle : ScanOracle) (n : Nat) (wms : Nat → String)
    (fuel : Nat) (c : Capture) (events : List changeEvent) :
    Except String (Capture × List Message) :=
  match
    (if pendingStreams c.state = [] then Except.ok (c, [], events)
     else streamLoop cfg oracle n wms fuel c [] 1 (wms 0) events) with
  | Except.error e => Except.error e
  | Except.ok (c1, msgs1, events1) =>
    Except.ok ((phase2 cfg c1 events1).1, msgs1 ++ (phase2 cfg c1 events1).2)

/-- `strings.Join(xs, ",")` — the comparison form `updateState` uses for scan
keys. -/
def joinComma (xs : List String) : String := String.intercalate "," xs

/-- The catalog primary-key extraction loop of `updateState`: each element of
the catalog's `PrimaryKey` array must be a single column name. -/
def catalogKey : List (List String) → Except String (List String)
  | [] => Except.ok []
  | col :: rest =>
    match col with
    | [c] =>
      match catalogKey rest with
      | Except.error e => Except.error e
      | Except.ok cs => Except.ok (c :: cs)
    | _ => Except.error "primary key element invalid"

/-- The first loop of `updateState` from `capture.go`: for each configured
stream pick the catalog primary key if present (else the database one),
error when no key exists, create a fresh Backfill `TableState` for unknown
streams, and error when the key does not match the already-initialized scan
key (keys are compared comma-joined, as in the source). -/
def updateStreams (dbKeys : List (String × List String)) :
    List CatalogStream → List (String × TableState) → Bool →
    Except String (List (String × TableState) × Bool)
  | [], streams, dirty => Except.ok (streams, dirty)
  | cs :: rest, streams, dirty =>
    let sid := joinStreamID cs.ns cs.name
    match catalogKey cs.primaryKey with
    | Except.error e => Except.error e
    | Except.ok catKey =>
      let primaryKey := if catKey ≠ [] then catKey else (lookupS sid dbKeys).getD []
      if primaryKey = [] then
        Except.error ("stream " ++ sid ++ ": primary key unspecified and none found")
      else
        match lookupS sid streams with
        | none =>
          updateStreams dbKeys rest
            (streams ++ [(sid, { mode := tableModeBackfill, scanKey := primaryKey, scanned := none })])
            true
        | some ts =>
          if joinComma ts.scanKey ≠ joinComma primaryKey then
            Except.error ("stream " ++ sid ++ ": primary key does not match initialized scan key")
          else updateStreams dbKeys rest streams dirty

/-- `updateState` from `capture.go`: reconcile the persistent state against
the configured catalog and the database primary keys, forget streams no
longer configured, and emit the state when it was altered.  A nil `Streams`
map is modelled by the empty list. -/
def updateState (catalog : ConfiguredCatalog) (dbKeys : List (String × List String))
    (c : Capture) : Except String (Capture × List Message) :=
  match updateStreams dbKeys catalog.streams c.state.streams false with
  | Except.error e => Except.error e
  | Except.ok (streams1, dirty1) =>
    let kept := streams1.filter
      (fun p => catalog.streams.any (fun cs => joinStreamID cs.ns cs.name = p.1))
    let dirty := dirty1 || kept.length ≠ streams1.length
    let c1 := { c with state := { c.state with streams := kept } }
    if dirty then
      let (c2, m) := emitState c1 c1.state
      Except.ok (c2, [m])
    else Except.ok (c1, [])

/-- The capture process from `RunCapture` after the connections are opened:
`updateState` followed by `streamChanges`, starting (as the Go `capture`
struct does) with a zero `changesSinceLastCheckpoint`. -/
def runCapture (catalog : ConfiguredCatalog) (dbKeys : List (String × List String))
    (cfg : Config) (oracle : ScanOracle) (n : Nat) (wms : Nat → String) (fuel : Nat)
    (ps : PersistentState) (events : List changeEvent) :
    Except String (Capture × List Message) :=
  match updateState catalog dbKeys { state := ps, changesSinceLastCheckpoint := 0 } with
  | Except.error e => Except.error e
  | Except.ok (c1, msgs1) =>
    match streamChanges cfg oracle n wms fuel c1 events with
    | Except.error e => Except.error e
    | Except.ok (c2, msgs2) => Except.ok (c2, msgs1 ++ msgs2)

/-- A Go error as `RunCapture` sees it: a possibly wrapped chain whose base
is `context.Canceled`, `context.DeadlineExceeded` or some other failure;
`errors.Is` unwraps the chain. -/
inductive GoErr where
  | canceled : GoErr
  | deadlineExceeded : GoErr
  | wrapped (msg : String) (inner : GoErr) : GoErr
  | other (msg : String) : GoErr
  deriving Repr, DecidableEq

/-- `errors.Is(err, context.Canceled)`. -/
def errIsCanceled : GoErr → Bool
  | GoErr.canceled => true
  | GoErr.wrapped _ inner => errIsCanceled inner
  | _ => false

/-- `errors.Is(err, context.DeadlineExceeded)`. -/
def errIsDeadline : GoErr → Bool
  | GoErr.deadlineExceeded => true
  | GoErr.wrapped _ inner => errIsDeadline inner
  | _ => false

/-- The shutdown filter at the end of `RunCapture` in `capture.go`: given the
error the core change streaming returned (`none` for a clean finish), return
nil for a deadline error when `max_lifespan` was configured, return nil for a
cancellation error when not in tailing mode, and propagate anything else
unchanged. -/
def runCaptureReturn (cfg : Config) (catalog : ConfiguredCatalog) :
    Option GoErr → Option GoErr
  | none => none
  | some err =>
    if errIsDeadline err ∧ cfg.maxLifespanSeconds ≠ 0 then none
    else if errIsCanceled err ∧ catalog.tail = false then none
    else some err

/-- `backfillChunkSize` from `backfill.go`: the module-level chunk size
variable, 4096 unless lowered (the tests shrink it to exercise chunking). -/
def backfillChunkSize : Nat := 4096

/-- The `(foo, bar, baz)` / `($1, $2, $3)` string pair built by the first
loop of `buildScanQuery` in `backfill.go`, accumulating over the key columns
with their 0-based index. -/
def scanQueryParts : List String → Nat → String × String
  | [], _ => ("", "")
  | colName :: rest, idx =>
    let sep := if 0 < idx then ", " else ""
    let (pkey, args) := scanQueryParts rest (idx + 1)
    (sep ++ colName ++ pkey, sep ++ "$" ++ toString (idx + 1) ++ args)

/-- `buildScanQuery` from `backfill.go`, with the chunk-size variable made an
explicit parameter `n`. -/
def buildScanQuery (start : Bool) (keyColumns : List String)
    (schemaName tableName : String) (n : Nat) : String :=
  let pkey := (scanQueryParts keyColumns 0).1
  let args := (scanQueryParts keyColumns 0).2
  let query := "SELECT * FROM " ++ schemaName ++ "." ++ tableName
  let query := if start = false then query ++ " WHERE (" ++ pkey ++ ") > (" ++ args ++ ")" else query
  query ++ " ORDER BY (" ++ pkey ++ ")" ++ " LIMIT " ++ toString n ++ ";"

/-- `strings.SplitN(streamID, ".", 2)`: the schema part (before the first
dot). -/
def splitSchema (streamID : String) : String :=
  match streamID.splitOn "." with
  | [] => streamID
  | part :: _ => part

/-- `strings.SplitN(streamID, ".", 2)`: the table part (after the first
dot). -/
def splitTable (streamID : String) : String :=
  match streamID.splitOn "." with
  | [] => ""
  | [_] => ""
  | _ :: rest => String.intercalate "." rest

/-- The row-to-event translation of `ScanTableChunk` in `backfill.go`: every
returned database row becomes a change event of type `Insert` on the scanned
schema and table. -/
def scanTableChunk (streamID : String) (rows : List Fields) : List changeEvent :=
  rows.map (fun fields =>
    { type := "Insert", ns := splitSchema streamID, table := splitTable streamID,
      fields := fields, lsn := 0 })

/-- Modelled from the spec: §4.E — the change event a `writeWatermark` upsert
produces on the replication log: an Insert on the watermarks table carrying
the slot name and the fresh watermark UUID. -/
def watermarkEvent (ns tbl slot wm : String) (lsn : Nat) : changeEvent :=
  { type := "Insert", ns := ns, table := tbl,
    fields := [("slot", Value.str slot), ("watermark", Value.str wm)], lsn := lsn }

/-- A bare transaction commit event at the given log position. -/
def commitEvent (lsn : Nat) : changeEvent :=
  { type := "Commit", ns := "", table := "", fields := [], lsn := lsn }

/-- The replication traffic of a capture running against an otherwise
unchanged database: each watermark write (`wms start`, `wms (start+1)`, …)
appears in the log as its Insert followed by the transaction commit, and
nothing else, for `k` watermark writes. -/
def quiescentEvents (ns tbl slot : String) (wms : Nat → String) : Nat → Nat → List changeEvent
  | _, 0 => []
  | start, k + 1 =>
    watermarkEvent ns tbl slot (wms start) (2 * start + 1) ::
      commitEvent (2 * start + 2) ::
        quiescentEvents ns tbl slot wms (start + 1) k

/-- Whether a message is a Record. -/
def isRecord : Message → Bool
  | Message.record _ _ _ => true
  | Message.state _ => false

/-- The Record messages (the emitted rows) of an output stream. -/
def recordsOf (msgs : List Message) : List Message := msgs.filter isRecord

/-- The watermarks table is inert for the capture state: either it has no
`TableState` at all or it is explicitly ignored.  This is the deployment
requirement of §4.G that the watermarks table never be a captured stream. -/
def wtInert (cfg : Config) (ps : PersistentState) : Bool :=
  match lookupS cfg.watermarksTable ps.streams with
  | none => true
  | some ts => ts.mode = tableModeIgnore

/-- A change event that marks the watermark `wm` as observed in
`streamToWatermark`: a non-Commit event on the configured watermarks table
whose `watermark` field equals `wm`. -/
def isWatermarkEvt (cfg : Config) (wm : String) (e : changeEvent) : Prop :=
  ¬e.type = "Commit" ∧ eventStreamID e = cfg.watermarksTable ∧
    getF e.fields "watermark" = some (Value.str wm)

instance (cfg : Config) (wm : String) (e : changeEvent) :
    Decidable (isWatermarkEvt cfg wm e) := by
  unfold isWatermarkEvt; infer_instance

/-- The computation succeeded (did not return a Go error). -/
def exceptOk {ε α : Type} : Except ε α → Prop
  | Except.ok _ => True
  | Except.error _ => False

instance {ε α : Type} (r : Except ε α) : Decidable (exceptOk r) := by
  cases r with
  | ok a => exact isTrue trivial
  | error e => exact isFalse id

/-- A drain can process the event without an error: either it is a Commit,
or its stream is unknown, or the stream's mode is one of the three valid
modes with an encodable row key in the Backfill case. -/
def eventOK (streams : List (String × TableState)) (e : changeEvent) : Prop :=
  e.type = "Commit" ∨
    match lookupS (eventStreamID e) streams with
    | none => True
    | some ts =>
      ts.mode = tableModeIgnore ∨ ts.mode = tableModeActive ∨
        (ts.mode = tableModeBackfill ∧ exceptOk (encodeRowKey ts.scanKey e.fields))

instance (streams : List (String × TableState)) (e : changeEvent) :
    Decidable (eventOK streams e) := by
  unfold eventOK
  cases lookupS (eventStreamID e) streams with
  | none => exact inferInstance
  | some ts => exact inferInstance

/-- The event's row key is encodable against whatever chunk is buffered for
its stream, so `resultSet.Patch` cannot fail on it. -/
def chunkKeysOK (results : resultSet) (e : changeEvent) : Prop :=
  match lookupS (eventStreamID e) results with
  | none => True
  | some ch => exceptOk (encodeRowKey ch.scanKey e.fields)

instance (results : resultSet) (e : changeEvent) : Decidable (chunkKeysOK results e) := by
  unfold chunkKeysOK
  cases lookupS (eventStreamID e) results with
  | none => exact inferInstance
  | some ch => exact inferInstance

/-- Every watermark-matching event in the list is followed by no further
Commit inside the list: together with the existence of a matching event this
says the next Commit after the list is the first Commit that follows the
watermark observation. -/
def noCommitSinceWatermark (cfg : Config) (wm : String) : List changeEvent → Prop
  | [] => True
  | e :: rest =>
    (isWatermarkEvt cfg wm e → ∀ x ∈ rest, ¬x.type = "Commit") ∧
      noCommitSinceWatermark cfg wm rest

instance noCommitSinceWatermarkDec (cfg : Config) (wm : String) :
    (l : List changeEvent) → Decidable (noCommitSinceWatermark cfg wm l)
  | [] => isTrue trivial
  | e :: rest => by
    unfold noCommitSinceWatermark
    have := noCommitSinceWatermarkDec cfg wm rest
    infer_instance

/-- Wrap a successful drain result by prefixing emitted messages (how one
processed event composes with the rest of the drain). -/
def mapMsgs (pfx : List Message) : Except String DrainResult → Except String DrainResult
  | Except.error e => Except.error e
  | Except.ok (c, rs, ms, rem) => Except.ok (c, rs, pfx ++ ms, rem)

/-- The effective primary key `updateState` derives for one catalog stream:
the catalog override when present, else the database primary key. -/
def effectiveKey (dbKeys : List (String × List String)) (cs : CatalogStream)
    (catKey : List String) : List String :=
  if catKey ≠ [] then catKey
  else (lookupS (joinStreamID cs.ns cs.name) dbKeys).getD []

/-- A configured stream on which `updateState` must fail: either its
effective primary key is empty (no key in the catalog and none in the
database), or the key does not match (comma-joined, as the source compares)
the scan key already persisted for the stream. -/
def streamConflict (dbKeys : List (String × List String))
    (init : List (String × TableState)) (cs : CatalogStream) : Prop :=
  match catalogKey cs.primaryKey with
  | Except.error _ => False
  | Except.ok catKey =>
    match lookupS (joinStreamID cs.ns cs.name) init with
    | none => effectiveKey dbKeys cs catKey = []
    | some ts =>
      effectiveKey dbKeys cs catKey = [] ∨
        ¬joinComma ts.scanKey = joinComma (effectiveKey dbKeys cs catKey)

instance (dbKeys : List (String × List String)) (init : List (String × TableState))
    (cs : CatalogStream) : Decidable (streamConflict dbKeys init cs) := by
  unfold streamConflict
  cases catalogKey cs.primaryKey with
  | error e => exact inferInstance
  | ok catKey =>
    cases lookupS (joinStreamID cs.ns cs.name) init with
    | none => exact inferInstance
    | some ts => exact inferInstance

/-- The §3 invariant of C4: a table state in Active mode carries no
`scanned` position. -/
def invA (ps : PersistentState) : Prop :=
  ∀ p ∈ ps.streams, p.2.mode = tableModeActive → p.2.scanned = none

/-- The `Streams` map has no duplicate stream ids (automatic for a Go map;
needed here because the map is modelled as an association list). -/
def keysNodup (ps : PersistentState) : Prop := (ps.streams.map Prod.fst).Nodup

/-- The watermarks table is never a tracked (non-Ignore) stream: any
`Streams` entry for it is in Ignore mode.  This is the §4.G deployment
requirement that watermark events are consumed internally only. -/
def wtNotTracked (cfg : Config) (ps : PersistentState) : Prop :=
  ∀ p ∈ ps.streams, p.1 = cfg.watermarksTable → p.2.mode = tableModeIgnore

/-- The scan oracle is faithful to `ScanTableChunk`: every row event it
returns for a stream carries that stream's namespace and table. -/
def oracleWF (oracle : ScanOracle) : Prop :=
  ∀ sid key resume, ∀ e ∈ oracle sid key resume, joinStreamID e.ns e.table = sid

/-- Every row buffered for a stream carries that stream's namespace and
table (established by the scan, preserved by patches). -/
def chunkEventsWF (results : resultSet) : Prop :=
  ∀ p ∈ results, ∀ row ∈ p.2.rows, joinStreamID row.2.ns row.2.table = p.1

/-! Concrete fixtures used by the closed witness and counterexample
theorems below. -/

/-- A concrete configuration with watermarks table `public.wm`. -/
def cfgW : Config :=
  { watermarksTable := "public.wm", slotName := "s", maxLifespanSeconds := 0,
    pollTimeoutSeconds := 0 }

/-- A concrete Backfill table state, scanned up to `enc(3)`. -/
def tsBF : TableState := { mode := "Backfill", scanKey := ["id"], scanned := some [2, 1, 3] }

/-- A concrete capture state tracking the single stream `public.t`. -/
def capBF : Capture :=
  { state := { currentLSN := 0, streams := [("public.t", tsBF)] },
    changesSinceLastCheckpoint := 0 }

/-- A replication event inside the already-backfilled region of `public.t`. -/
def evtLow : changeEvent :=
  { type := "Update", ns := "public", table := "t",
    fields := [("id", Value.int 2), ("v", Value.str "x")], lsn := 9 }

/-- A replication event beyond the backfilled region of `public.t`. -/
def evtHigh : changeEvent :=
  { type := "Insert", ns := "public", table := "t",
    fields := [("id", Value.int 5), ("v", Value.str "y")], lsn := 9 }

/-- A catalog configuring `public.t` with the two-column primary key
`[a, b]`. -/
def catAB : ConfiguredCatalog :=
  { tail := true, streams := [{ ns := "public", name := "t", primaryKey := [["a"], ["b"]] }] }

/-- A `TableState` whose scan key is the single column literally named
`a,b` (a quoted identifier containing a comma). -/
def tsComma : TableState := { mode := "Backfill", scanKey := ["a,b"], scanned := none }

/-- A capture whose persisted scan key for `public.t` is `tsComma`. -/
def capComma : Capture :=
  { state := { currentLSN := 0, streams := [("public.t", tsComma)] },
    changesSinceLastCheckpoint := 0 }

/-- A catalog configuring `public.t` with primary key `zz`, conflicting with
the scan key `id` persisted in `capBF`. -/
def catZZ : ConfiguredCatalog :=
  { tail := true, streams := [{ ns := "public", name := "t", primaryKey := [["zz"]] }] }

/-- A capture with no persisted streams. -/
def capEmpty : Capture :=
  { state := { currentLSN := 0, streams := [] }, changesSinceLastCheckpoint := 0 }

/-- Spec-side template piece: the `(<scan_key>)` column list of §4.C, the key
columns joined by a comma and a space. -/
def specKeyTuple : List String → String
  | [] => ""
  | [c] => c
  | c :: rest => c ++ ", " ++ specKeyTuple rest

/-- Spec-side template piece: the `(<resume>)` placeholder list of §4.C,
`$k, $(k+1), …` numbering one placeholder per key column starting at `k`. -/
def specResumePlaceholders : List String → Nat → String
  | [], _ => ""
  | [_], k => "$" ++ toString k
  | _ :: rest, k => "$" ++ toString k ++ ", " ++ specResumePlaceholders rest (k + 1)

/-- The tail of the column list as `buildScanQuery`'s loop renders it (every
element prefixed by a comma separator). -/
def tailKeys : List String → String
  | [] => ""
  | c :: rest => ", " ++ c ++ tailKeys rest

/-- The tail of the placeholder list as `buildScanQuery`'s loop renders it,
numbering from `k`. -/
def tailArgs : List String → Nat → String
  | [], _ => ""
  | _ :: rest, k => ", $" ++ toString k ++ tailArgs rest (k + 1)

/-- A catalog configuring the single stream `public.t` with primary key
`id`. -/
def catT : ConfiguredCatalog :=
  { tail := true, streams := [{ ns := "public", name := "t", primaryKey := [["id"]] }] }

/-- A concrete watermark UUID supply. -/
def wmsT : Nat → String
  | 0 => "w0" | 1 => "w1" | 2 => "w2" | 3 => "w3" | _ => "wx"

/-- A scan oracle over a one-row table `public.t`: the first chunk returns
the single row, every resumed chunk is empty. -/
def oracleT : ScanOracle := fun sid _key resume =>
  if sid = "public.t" ∧ resume = none then
    [{ type := "Insert", ns := "public", table := "t",
       fields := [("id", Value.int 1), ("v", Value.str "a")], lsn := 0 }]
  else []

/-- An initial persistent state with no tracked streams. -/
def psEmpty : PersistentState := { currentLSN := 0, streams := [] }

/-- Two cycles of quiescent replication traffic for slot `s`. -/
def eventsT : List changeEvent := quiescentEvents "public" "wm" "s" wmsT 0 2

/-- The state after the first watermark cycle: `public.t` still in Backfill. -/
def psT1 : PersistentState :=
  { currentLSN := 0,
    streams := [("public.t", { mode := "Backfill", scanKey := ["id"], scanned := none })] }

/-- The state at the first flush checkpoint. -/
def psT2 : PersistentState :=
  { currentLSN := 2,
    streams := [("public.t", { mode := "Backfill", scanKey := ["id"], scanned := none })] }

/-- The state after the backfill of `public.t` completed: Active, no scan
position. -/
def psT3 : PersistentState :=
  { currentLSN := 4,
    streams := [("public.t", { mode := "Active", scanKey := ["id"], scanned := none })] }

/-- The backfilled row of `public.t` as it is emitted downstream. -/
def rowT : Fields :=
  [("id", Value.int 1), ("v", Value.str "a"), ("_change_type", Value.str "Insert")]

/-- The final capture state of the concrete `public.t` run. -/
def capTEnd : Capture := { state := psT3, changesSinceLastCheckpoint := 0 }

/-- The full message output of the concrete `public.t` run. -/
def msgsT : List Message :=
  [Message.state psT1, Message.state psT2, Message.record "public" "t" rowT,
   Message.state psT3]

/-- A catalog that (mis)configures the watermarks table `public.wm` itself as
a captured stream. -/
def catWT : ConfiguredCatalog :=
  { tail := true, streams := [{ ns := "public", name := "wm", primaryKey := [["slot"]] }] }

/-- A scan oracle over the one-row watermarks table `public.wm`. -/
def oracleWT : ScanOracle := fun sid _key resume =>
  if sid = "public.wm" ∧ resume = none then
    [{ type := "Insert", ns := "public", table := "wm",
       fields := [("slot", Value.str "s"), ("watermark", Value.str "w0")], lsn := 0 }]
  else []

/-- Three cycles of quiescent replication traffic for slot `s`. -/
def eventsWT : List changeEvent := quiescentEvents "public" "wm" "s" wmsT 0 3

/-- Whether a message is a Record on the given stream id. -/
def recordOn (sid : String) : Message → Bool
  | Message.record ns stream _ => decide (joinStreamID ns stream = sid)
  | Message.state _ => false

/-- The record data `handleChangeEvent` emits for an event (independent of
the capture state): the `_change_type`-extended, translated field map. -/
def recordData (evt : changeEvent) : Fields :=
  (setF evt.fields "_change_type" (Value.str evt.type)).map
    (fun p => (p.1, translateRecordField p.2))

/-- The Record messages the emission of an event list produces. -/
def recordMsgs (evts : List changeEvent) : List Message :=
  evts.map (fun e => Message.record e.ns e.table (recordData e))

/-- The Record messages `emitBuffered` emits when flushing the given
streams, a pure function of the result set. -/
def flushMsgs (results : resultSet) : List String → List Message
  | [] => []
  | sid :: rest => recordMsgs (rsChanges results sid) ++ flushMsgs results rest

/-- The stream-table updates `emitBuffered` applies when flushing the given
streams, a pure function of the result set and the prior map. -/
def flushStreams (results : resultSet) (streams : List (String × TableState)) :
    List String → List (String × TableState)
  | [] => streams
  | sid :: rest => flushStreams results (updateTS streams sid (flushRule results sid)) rest

/-- Replication traffic of an otherwise unchanged database: every event is a
transaction Commit or an event on the watermarks table. -/
def wtOnly (cfg : Config) (events : List changeEvent) : Prop :=
  ∀ e ∈ events, e.type = "Commit" ∨ eventStreamID e = cfg.watermarksTable

/-- The watermarks table is untracked in a streams map: any entry for it is
in Ignore mode. -/
def wtUntracked (cfg : Config) (streams : List (String × TableState)) : Prop :=
  ∀ p ∈ streams, p.1 = cfg.watermarksTable → p.2.mode = tableModeIgnore

/-- Two streams maps with the same keys in the same order and the same scan
key per stream — the part of a `TableState` that `updateState` reconciles
against the catalog, which flushing never alters. -/
def scanShapeEq (a b : List (String × TableState)) : Prop :=
  a.map Prod.fst = b.map Prod.fst ∧
  ∀ sid ts, lookupS sid a = some ts →
    ∃ ts2, lookupS sid b = some ts2 ∧ ts2.scanKey = ts.scanKey

/-- One configured stream is consistently reconciled against a streams map:
its catalog key parses, its effective primary key is nonempty, and the
persisted scan key matches it comma-joined. -/
def streamReconciled (dbKeys : List (String × List String))
    (streams : List (String × TableState)) (cs : CatalogStream) : Prop :=
  ∃ catKey, catalogKey cs.primaryKey = Except.ok catKey ∧
    ¬effectiveKey dbKeys cs catKey = [] ∧
    ∃ ts, lookupS (joinStreamID cs.ns cs.name) streams = some ts ∧
      joinComma ts.scanKey = joinComma (effectiveKey dbKeys cs catKey)

/-- A streams map on which `updateState` is a no-op: every configured stream
is consistently reconciled against it and every entry belongs to a
configured stream. -/
def reconciled (catalog : ConfiguredCatalog) (dbKeys : List (String × List String))
    (streams : List (String × TableState)) : Prop :=
  (∀ cs ∈ catalog.streams, streamReconciled dbKeys streams cs) ∧
  (∀ p ∈ streams, ∃ cs ∈ catalog.streams, joinStreamID cs.ns cs.name = p.1)

theorem stringLitDollar (t : String) : ", " ++ ("$" ++ t) = ", $" ++ t := by
  rw [← String.append_assoc]; rfl

theorem scanQueryParts_tail (rest : List String) :
    ∀ j, scanQueryParts rest (j + 1) = (tailKeys rest, tailArgs rest (j + 2)) := by
  induction rest with
  | nil => intro j; rfl
  | cons c r ih =>
    intro j
    simp only [scanQueryParts, tailKeys, tailArgs, ih (j + 1), if_pos (Nat.succ_pos j)]
    refine Prod.ext ?_ ?_
    · simp [String.append_assoc]
    · simp only [String.append_assoc, stringLitDollar]

theorem specKeyTuple_eq_tail (c : String) (rest : List String) :
    specKeyTuple (c :: rest) = c ++ tailKeys rest := by
  induction rest generalizing c with
  | nil => simp [specKeyTuple, tailKeys]
  | cons d r ih =>
    simp only [specKeyTuple, tailKeys, ih d, String.append_assoc]

theorem specResumePlaceholders_eq_tail (c : String) (rest : List String) :
    ∀ k, specResumePlaceholders (c :: rest) k = "$" ++ toString k ++ tailArgs rest (k + 1) := by
  induction rest generalizing c with
  | nil => intro k; simp [specResumePlaceholders, tailArgs]
  | cons d r ih =>
    intro k
    simp only [specResumePlaceholders, tailArgs, ih d (k + 1), String.append_assoc,
      stringLitDollar]

theorem scanQueryParts_eq_spec (keys : List String) :
    (scanQueryParts keys 0).1 = specKeyTuple keys ∧
      (scanQueryParts keys 0).2 = specResumePlaceholders keys 1 := by
  cases keys with
  | nil => exact ⟨rfl, rfl⟩
  | cons c rest =>
    have h := scanQueryParts_tail rest 0
    simp only [scanQueryParts, h, specKeyTuple_eq_tail, specResumePlaceholders_eq_tail]
    constructor
    · simp [String.empty_append]
    · simp [String.empty_append, String.append_assoc]

/-- C6: for every key-column list, schema and table name the backfill scanner
builds exactly the starting query
`SELECT * FROM schema.table ORDER BY (scan_key) LIMIT n;` when no resume key
is given and the resuming query
`SELECT * FROM schema.table WHERE (scan_key) > (placeholders) ORDER BY (scan_key) LIMIT n;`
otherwise, where `n` is the chunk-size variable, whose default value is
4096. -/
theorem c6_buildScanQuery_shape (keys : List String) (schema table : String) (n : Nat) :
    buildScanQuery true keys schema table n =
      "SELECT * FROM " ++ schema ++ "." ++ table ++ " ORDER BY (" ++ specKeyTuple keys ++
        ") LIMIT " ++ toString n ++ ";" ∧
    buildScanQuery false keys schema table n =
      "SELECT * FROM " ++ schema ++ "." ++ table ++ " WHERE (" ++ specKeyTuple keys ++
        ") > (" ++ specResumePlaceholders keys 1 ++ ") ORDER BY (" ++ specKeyTuple keys ++
        ") LIMIT " ++ toString n ++ ";" ∧
    backfillChunkSize = 4096 := by
  obtain ⟨h1, h2⟩ := scanQueryParts_eq_spec keys
  refine ⟨?_, ?_, rfl⟩
  · simp only [buildScanQuery, h1]
    simp [String.append_assoc]
  · simp only [buildScanQuery, h1, h2]
    simp [String.append_assoc]

theorem getF_map_translate (l : Fields) (k : String) :
    getF (l.map (fun p => (p.1, translateRecordField p.2))) k =
      (getF l k).map translateRecordField := by
  induction l with
  | nil => rfl
  | cons p rest ih =>
    by_cases h : p.1 = k
    · simp [getF, h]
    · simp [getF, h, ih]

theorem getF_setF (l : Fields) (k : String) (v : Value) : getF (setF l k v) k = some v := by
  induction l with
  | nil => simp [setF, getF]
  | cons p rest ih =>
    by_cases h : p.1 = k
    · simp [setF, getF, h]
    · simp [setF, getF, h, ih]

/-- C10: rows produced by the chunk scanner always carry event type
`Insert`, and every record emitted downstream through `handleChangeEvent`
carries a `_change_type` data field equal to the event's type (the field is
added to the field map before translation, and translation passes strings
through). -/
theorem c10_change_type_field (streamID : String) (rows : List Fields)
    (c : Capture) (evt : changeEvent) :
    (∀ e ∈ scanTableChunk streamID rows, e.type = "Insert") ∧
    (∃ data, (handleChangeEvent c evt).2 = Message.record evt.ns evt.table data ∧
      getF data "_change_type" = some (Value.str evt.type)) := by
  constructor
  · intro e he
    simp only [scanTableChunk, List.mem_map] at he
    obtain ⟨fields, _, rfl⟩ := he
    rfl
  · refine ⟨(setF evt.fields "_change_type" (Value.str evt.type)).map
      (fun p : String × Value => (p.1, translateRecordField p.2)), rfl, ?_⟩
    rw [getF_map_translate, getF_setF]
    rfl

/-- Closed witness for `c10_change_type_field` at a concrete scan result and
a concrete Update event. -/
theorem c10_change_type_field_witness :
    (∀ e ∈ scanTableChunk "public.t" [[("id", Value.int 1)]], e.type = "Insert") ∧
    (∃ data,
      (handleChangeEvent { state := { currentLSN := 0, streams := [] }, changesSinceLastCheckpoint := 0 }
        { type := "Update", ns := "public", table := "t",
          fields := [("id", Value.int 1)], lsn := 3 }).2 =
        Message.record "public" "t" data ∧
      getF data "_change_type" = some (Value.str "Update")) :=
  c10_change_type_field "public.t" [[("id", Value.int 1)]]
    { state := { currentLSN := 0, streams := [] }, changesSinceLastCheckpoint := 0 }
    { type := "Update", ns := "public", table := "t",
      fields := [("id", Value.int 1)], lsn := 3 }

/-- C5: in Phase-2 streaming, a Commit event produces a State checkpoint
whose `current_log_position` is the commit's position precisely when at
least one record has been emitted since the last checkpoint; a commit with
no emitted records since the last checkpoint produces no message at all. -/
theorem c5_commit_checkpoint (cfg : Config) (c : Capture) (evt : changeEvent)
    (rest : List changeEvent) (hc : evt.type = "Commit") :
    (0 < c.changesSinceLastCheckpoint →
      phase2 cfg c (evt :: rest) =
        (let cAdv : Capture :=
          { state := { c.state with currentLSN := evt.lsn }, changesSinceLastCheckpoint := 0 }
        ((phase2 cfg cAdv rest).1,
          Message.state { c.state with currentLSN := evt.lsn } :: (phase2 cfg cAdv rest).2))) ∧
    (c.changesSinceLastCheckpoint = 0 →
      phase2 cfg c (evt :: rest) = phase2 cfg c rest) := by
  constructor
  · intro hpos
    simp [phase2, hc, emitState, hpos]
  · intro hzero
    simp [phase2, hc, hzero]

/-- Closed witness for `c5_commit_checkpoint`: a commit after one emitted
record produces exactly the advanced-position checkpoint, and the same
commit with a fresh counter produces nothing. -/
theorem c5_commit_checkpoint_witness :
    (let cfg : Config :=
      { watermarksTable := "public.wm", slotName := "s", maxLifespanSeconds := 0,
        pollTimeoutSeconds := 0 }
    let c : Capture := { state := { currentLSN := 1, streams := [] }, changesSinceLastCheckpoint := 1 }
    let evt : changeEvent := commitEvent 7
    phase2 cfg c [evt] =
      ({ state := { currentLSN := 7, streams := [] }, changesSinceLastCheckpoint := 0 },
        [Message.state { currentLSN := 7, streams := [] }]) ∧
    phase2 cfg { c with changesSinceLastCheckpoint := 0 } [evt] =
      phase2 cfg { c with changesSinceLastCheckpoint := 0 } []) := by
  have h := c5_commit_checkpoint
    { watermarksTable := "public.wm", slotName := "s", maxLifespanSeconds := 0,
      pollTimeoutSeconds := 0 }
    { state := { currentLSN := 1, streams := [] }, changesSinceLastCheckpoint := 1 }
    (commitEvent 7) [] (by rfl)
  have h2 := c5_commit_checkpoint
    { watermarksTable := "public.wm", slotName := "s", maxLifespanSeconds := 0,
      pollTimeoutSeconds := 0 }
    { state := { currentLSN := 1, streams := [] }, changesSinceLastCheckpoint := 0 }
    (commitEvent 7) [] (by rfl)
  exact ⟨h.1 (by decide), h2.2 (by rfl)⟩

/-- C9 counterexample: with tailing mode configured (`catalog.Tail = true`)
and no `max_lifespan`, a top-level cancellation error from the core is
propagated by `RunCapture` rather than turned into a clean nil exit, so the
claim that cancellation always yields a clean exit is false. -/
theorem c9_cancellation_cex :
    errIsCanceled GoErr.canceled = true ∧
    runCaptureReturn
      { watermarksTable := "public.wm", slotName := "s", maxLifespanSeconds := 0,
        pollTimeoutSeconds := 0 }
      { tail := true, streams := [] } (some GoErr.canceled) = some GoErr.canceled := by
  constructor
  · rfl
  · rfl

/-- C9 (amended): `RunCapture` returns nil for a deadline error when
`max_lifespan` is configured and for a cancellation error when not in
tailing mode (which covers the poll-timeout watchdog, which only exists in
non-tailing mode); every error that is neither of those — including
cancellation in tailing mode — is propagated unchanged, and a clean core
finish returns nil. -/
theorem c9_shutdown_filter (cfg : Config) (catalog : ConfiguredCatalog) (err : GoErr) :
    (errIsDeadline err = true → cfg.maxLifespanSeconds ≠ 0 →
      runCaptureReturn cfg catalog (some err) = none) ∧
    (errIsCanceled err = true → catalog.tail = false →
      runCaptureReturn cfg catalog (some err) = none) ∧
    (¬(errIsDeadline err = true ∧ cfg.maxLifespanSeconds ≠ 0) →
      ¬(errIsCanceled err = true ∧ catalog.tail = false) →
      runCaptureReturn cfg catalog (some err) = some err) ∧
    runCaptureReturn cfg catalog none = none := by
  refine ⟨?_, ?_, ?_, rfl⟩
  · intro hd hm
    simp [runCaptureReturn, hd, hm]
  · intro hcN htail
    by_cases hdl : errIsDeadline err = true ∧ cfg.maxLifespanSeconds ≠ 0
    · simp [runCaptureReturn, hdl.1, hdl.2]
    · simp only [runCaptureReturn, if_neg hdl]
      simp [hcN, htail]
  · intro h1 h2
    simp [runCaptureReturn, if_neg h1, if_neg h2]

/-- Closed witness for `c9_shutdown_filter`: a wrapped deadline error under a
configured lifespan exits clean, a wrapped cancellation in non-tailing mode
exits clean, and an unrelated error propagates unchanged. -/
theorem c9_shutdown_filter_witness :
    runCaptureReturn
      { watermarksTable := "w", slotName := "s", maxLifespanSeconds := 5, pollTimeoutSeconds := 0 }
      { tail := true, streams := [] }
      (some (GoErr.wrapped "outer" GoErr.deadlineExceeded)) = none ∧
    runCaptureReturn
      { watermarksTable := "w", slotName := "s", maxLifespanSeconds := 0, pollTimeoutSeconds := 0 }
      { tail := false, streams := [] }
      (some (GoErr.wrapped "outer" GoErr.canceled)) = none ∧
    runCaptureReturn
      { watermarksTable := "w", slotName := "s", maxLifespanSeconds := 5, pollTimeoutSeconds := 0 }
      { tail := false, streams := [] }
      (some (GoErr.other "connection lost")) = some (GoErr.other "connection lost") := by
  refine ⟨?_, ?_, ?_⟩
  · exact (c9_shutdown_filter
      { watermarksTable := "w", slotName := "s", maxLifespanSeconds := 5, pollTimeoutSeconds := 0 }
      { tail := true, streams := [] }
      (GoErr.wrapped "outer" GoErr.deadlineExceeded)).1 (by rfl) (by norm_num)
  · exact ((c9_shutdown_filter
      { watermarksTable := "w", slotName := "s", maxLifespanSeconds := 0, pollTimeoutSeconds := 0 }
      { tail := false, streams := [] }
      (GoErr.wrapped "outer" GoErr.canceled)).2).1 (by rfl) (by rfl)
  · exact ((c9_shutdown_filter
      { watermarksTable := "w", slotName := "s", maxLifespanSeconds := 5, pollTimeoutSeconds := 0 }
      { tail := false, streams := [] }
      (GoErr.other "connection lost")).2.2).1 (by intro h; exact absurd h.1 (by decide))
      (by intro h; exact absurd h.1 (by decide))

/-- C2: while draining to the watermark, a non-Commit event on a stream in
Backfill mode is emitted directly exactly when its encoded scan-key row key
compares at or below the stream's `Scanned` position; otherwise it is handed
to `resultSet.Patch`, which leaves the result set unchanged (dropping the
event) when no chunk is buffered for that stream. -/
theorem c2_drain_emit_or_patch (cfg : Config) (wm : String) (reached : Bool)
    (c : Capture) (results : resultSet) (evt : changeEvent) (rest : List changeEvent)
    (ts : TableState) (rowKey : List Nat)
    (hC : ¬evt.type = "Commit")
    (hTS : lookupS (eventStreamID evt) c.state.streams = some ts)
    (hMode : ts.mode = tableModeBackfill)
    (hKey : encodeRowKey ts.scanKey evt.fields = Except.ok rowKey) :
    (let reached1 :=
      if eventStreamID evt = cfg.watermarksTable ∧
          getF evt.fields "watermark" = some (Value.str wm) then true
      else reached
    (compareTuples rowKey (ts.scanned.getD []) ≤ 0 →
      streamToWatermarkAux cfg wm reached c results (evt :: rest) =
        match streamToWatermarkAux cfg wm reached1 (handleChangeEvent c evt).1 results rest with
        | Except.error e => Except.error e
        | Except.ok (c2, r2, ms, rem) =>
          Except.ok (c2, r2, (handleChangeEvent c evt).2 :: ms, rem)) ∧
    (¬compareTuples rowKey (ts.scanned.getD []) ≤ 0 →
      streamToWatermarkAux cfg wm reached c results (evt :: rest) =
        match rsPatch results (eventStreamID evt) evt with
        | Except.error e => Except.error e
        | Except.ok results1 => streamToWatermarkAux cfg wm reached1 c results1 rest) ∧
    (lookupS (eventStreamID evt) results = none →
      rsPatch results (eventStreamID evt) evt = Except.ok results)) := by
  refine ⟨?_, ?_, ?_⟩
  · intro hle
    simp only [streamToWatermarkAux, if_neg hC, hTS, hMode, hKey]
    rw [if_neg (by decide), if_neg (by decide), if_pos (by decide), if_pos hle]
  · intro hgt
    simp only [streamToWatermarkAux, if_neg hC, hTS, hMode, hKey]
    rw [if_neg (by decide), if_neg (by decide), if_pos (by decide), if_neg hgt]
  · intro hnone
    simp [rsPatch, hnone]

/-- Closed witness for `c2_drain_emit_or_patch`: on a Backfill stream with
`scanned = enc(3)`, the event for row 2 is emitted directly while the event
for row 5 is patched and — with no chunk buffered — dropped. -/
theorem c2_drain_emit_or_patch_witness :
    streamToWatermarkAux cfgW "w" false capBF [] [evtLow] =
      Except.ok ({ capBF with changesSinceLastCheckpoint := 1 }, [],
        [Message.record "public" "t"
          [("id", Value.int 2), ("v", Value.str "x"), ("_change_type", Value.str "Update")]],
        []) ∧
    streamToWatermarkAux cfgW "w" false capBF [] [evtHigh] = Except.ok (capBF, [], [], []) ∧
    rsPatch [] "public.t" evtHigh = Except.ok [] := by
  have h1 := c2_drain_emit_or_patch cfgW "w" false capBF [] evtLow [] tsBF [2, 1, 2]
    (by decide) (by rfl) (by rfl) (by rfl)
  have h2 := c2_drain_emit_or_patch cfgW "w" false capBF [] evtHigh [] tsBF [2, 1, 5]
    (by decide) (by rfl) (by rfl) (by rfl)
  exact ⟨h1.1 (by decide), h2.2.1 (by decide), h2.2.2 (by decide)⟩

theorem mapMsgs_nil (r : Except String DrainResult) : mapMsgs [] r = r := by
  cases r with
  | error e => rfl
  | ok q => rcases q with ⟨c, rs, ms, rem⟩; rfl

theorem lookupS_setS {α : Type} (k k2 : String) (v : α) (l : List (String × α)) :
    lookupS k2 (setS k v l) = if k = k2 then some v else lookupS k2 l := by
  induction l with
  | nil => simp [setS, lookupS]
  | cons p rest ih =>
    by_cases hk : p.1 = k
    · by_cases h2 : k = k2
      · simp [setS, lookupS, hk, h2]
      · simp [setS, lookupS, hk, h2]
    · have h2s : ∀ h : ¬k = k2, ¬k2 = k := fun h hh => h hh.symm
      by_cases h2 : k = k2
      · by_cases h3 : p.1 = k2
        · exact absurd (h3.trans h2.symm) hk
        · subst h2
          simp [setS, lookupS, hk, h3, ih]
      · by_cases h3 : p.1 = k2
        · simp [setS, lookupS, hk, h2, h3, h2s h2, ih]
        · simp [setS, lookupS, hk, h2, h3, h2s h2, ih]

/-- Processing one non-Commit event in the drain: the loop recurses with the
watermark flag updated, the capture's streams untouched, the result set
changed only by a patch that preserves every chunk's scan key, and the
event's own emission (if any) prefixed to the remaining messages. -/
theorem drain_step (cfg : Config) (wm : String) (reached : Bool) (c : Capture)
    (results : resultSet) (e : changeEvent) (rest : List changeEvent)
    (hnc : ¬e.type = "Commit") (hok : eventOK c.state.streams e)
    (hck : chunkKeysOK results e) :
    ∃ c1 results1 pfx,
      c1.state.streams = c.state.streams ∧
      (∀ e2, chunkKeysOK results e2 → chunkKeysOK results1 e2) ∧
      streamToWatermarkAux cfg wm reached c results (e :: rest) =
        mapMsgs pfx (streamToWatermarkAux cfg wm
          (if eventStreamID e = cfg.watermarksTable ∧
              getF e.fields "watermark" = some (Value.str wm) then true else reached)
          c1 results1 rest) := by
  rcases hok with hC | hok
  · exact absurd hC hnc
  cases hl : lookupS (eventStreamID e) c.state.streams with
  | none =>
    refine ⟨c, results, [], rfl, fun _ h => h, ?_⟩
    simp only [streamToWatermarkAux, if_neg hnc, hl, mapMsgs_nil]
  | some ts =>
    rw [hl] at hok
    rcases hok with hIgn | hAct | ⟨hBF, hEnc⟩
    · refine ⟨c, results, [], rfl, fun _ h => h, ?_⟩
      simp only [streamToWatermarkAux, if_neg hnc, hl, if_pos hIgn, mapMsgs_nil]
    · refine ⟨(handleChangeEvent c e).1, results, [(handleChangeEvent c e).2], rfl,
        fun _ h => h, ?_⟩
      simp only [streamToWatermarkAux, if_neg hnc, hl,
        if_neg (by rw [hAct]; decide : ¬ts.mode = tableModeIgnore), if_pos hAct]
      cases hr : streamToWatermarkAux cfg wm
          (if eventStreamID e = cfg.watermarksTable ∧
              getF e.fields "watermark" = some (Value.str wm) then true else reached)
          (handleChangeEvent c e).1 results rest with
      | error err => simp [mapMsgs]
      | ok q => rcases q with ⟨c2, r2, ms, rem⟩; simp [mapMsgs]
    · cases hk : encodeRowKey ts.scanKey e.fields with
      | error err => rw [hk] at hEnc; exact absurd hEnc id
      | ok rowKey =>
        by_cases hcmp : compareTuples rowKey (ts.scanned.getD []) ≤ 0
        · refine ⟨(handleChangeEvent c e).1, results, [(handleChangeEvent c e).2], rfl,
            fun _ h => h, ?_⟩
          simp only [streamToWatermarkAux, if_neg hnc, hl,
            if_neg (by rw [hBF]; decide : ¬ts.mode = tableModeIgnore),
            if_neg (by rw [hBF]; decide : ¬ts.mode = tableModeActive),
            if_pos hBF, hk, if_pos hcmp]
          cases hr : streamToWatermarkAux cfg wm
              (if eventStreamID e = cfg.watermarksTable ∧
                  getF e.fields "watermark" = some (Value.str wm) then true else reached)
              (handleChangeEvent c e).1 results rest with
          | error err => simp [mapMsgs]
          | ok q => rcases q with ⟨c2, r2, ms, rem⟩; simp [mapMsgs]
        · have hbase := fun (results1 : resultSet) (hpatch : rsPatch results (eventStreamID e) e = Except.ok results1) =>
            show streamToWatermarkAux cfg wm reached c results (e :: rest) =
              mapMsgs [] (streamToWatermarkAux cfg wm
                (if eventStreamID e = cfg.watermarksTable ∧
                    getF e.fields "watermark" = some (Value.str wm) then true else reached)
                c results1 rest) by
            simp only [streamToWatermarkAux, if_neg hnc, hl,
              if_neg (by rw [hBF]; decide : ¬ts.mode = tableModeIgnore),
              if_neg (by rw [hBF]; decide : ¬ts.mode = tableModeActive),
              if_pos hBF, hk, if_neg hcmp, hpatch, mapMsgs_nil]
          cases hlr : lookupS (eventStreamID e) results with
          | none =>
            refine ⟨c, results, [], rfl, fun _ h => h, ?_⟩
            exact hbase results (by simp [rsPatch, hlr])
          | some ch =>
            have hckc : exceptOk (encodeRowKey ch.scanKey e.fields) := by
              unfold chunkKeysOK at hck
              rw [hlr] at hck
              exact hck
            cases hk2 : encodeRowKey ch.scanKey e.fields with
            | error err => rw [hk2] at hckc; exact absurd hckc id
            | ok key2 =>
              cases hlk : chunkLastKey ch with
              | none =>
                refine ⟨c, results, [], rfl, fun _ h => h, ?_⟩
                exact hbase results (by simp [rsPatch, hlr, hk2, hlk])
              | some lastKey =>
                by_cases hin : compareTuples key2 lastKey ≤ 0
                · set rows1 :=
                    if e.type = "Delete" then removeRow key2 ch.rows else insertRow key2 e ch.rows
                    with hrows1
                  refine ⟨c, setS (eventStreamID e) { ch with rows := rows1 } results, [],
                    rfl, ?_, ?_⟩
                  · intro e2 h2
                    unfold chunkKeysOK at h2 ⊢
                    rw [lookupS_setS]
                    by_cases hsid : eventStreamID e = eventStreamID e2
                    · rw [if_pos hsid]
                      rw [← hsid, hlr] at h2
                      exact h2
                    · rw [if_neg hsid]
                      exact h2
                  · exact hbase _ (by simp [rsPatch, hlr, hk2, hlk, if_pos hin, hrows1])
                · refine ⟨c, results, [], rfl, fun _ h => h, ?_⟩
                  exact hbase results (by simp [rsPatch, hlr, hk2, hlk, if_neg hin])

/-- Once the watermark has been observed, the drain consumes the remaining
non-Commit events and returns at the very next Commit, leaving exactly the
events after that Commit unconsumed. -/
theorem drain_reached_consumes (cfg : Config) (wm : String) (cm : changeEvent)
    (post : List changeEvent) (hcm : cm.type = "Commit") :
    ∀ (xs : List changeEvent) (c : Capture) (results : resultSet),
      (∀ e ∈ xs, ¬e.type = "Commit") →
      (∀ e ∈ xs, eventOK c.state.streams e) →
      (∀ e ∈ xs, chunkKeysOK results e) →
      ∃ c' results' msgs,
        streamToWatermarkAux cfg wm true c results (xs ++ cm :: post) =
          Except.ok (c', results', msgs, post) := by
  intro xs
  induction xs with
  | nil =>
    intro c results _ _ _
    refine ⟨{ c with state := { c.state with currentLSN := cm.lsn } }, results, [], ?_⟩
    simp [streamToWatermarkAux, hcm]
  | cons e xs ih =>
    intro c results hnc hok hck
    obtain ⟨c1, results1, pfx, hstreams, htrans, heq⟩ :=
      drain_step cfg wm true c results e (xs ++ cm :: post)
        (hnc e (List.mem_cons_self e xs)) (hok e (List.mem_cons_self e xs))
        (hck e (List.mem_cons_self e xs))
    rw [ite_self] at heq
    obtain ⟨c', results', msgs, hr⟩ := ih c1 results1
      (fun x hx => hnc x (List.mem_cons_of_mem e hx))
      (fun x hx => hstreams ▸ hok x (List.mem_cons_of_mem e hx))
      (fun x hx => htrans x (hck x (List.mem_cons_of_mem e hx)))
    refine ⟨c', results', pfx ++ msgs, ?_⟩
    rw [List.cons_append, heq, hr]
    rfl

/-- C3: the Phase-1 drain returns successfully exactly at the first Commit
that follows a change event on the configured watermarks table carrying the
expected watermark value: given a well-formed event stream
`pre ++ cm :: post` in which some event of `pre` matches the watermark, no
Commit of `pre` follows a matching event, and `cm` is a Commit, the drain
consumes all of `pre` and `cm` and leaves exactly `post` unconsumed. -/
theorem c3_drain_until_watermark_commit (cfg : Config) (wm : String) :
    ∀ (pre : List changeEvent) (c : Capture) (results : resultSet) (cm : changeEvent)
      (post : List changeEvent),
      cm.type = "Commit" →
      (∃ e ∈ pre, isWatermarkEvt cfg wm e) →
      noCommitSinceWatermark cfg wm pre →
      (∀ e ∈ pre, eventOK c.state.streams e) →
      (∀ e ∈ pre, chunkKeysOK results e) →
      ∃ c' results' msgs,
        streamToWatermark cfg wm c results (pre ++ cm :: post) =
          Except.ok (c', results', msgs, post) := by
  intro pre
  induction pre with
  | nil =>
    intro c results cm post _ hex _ _ _
    simp at hex
  | cons e pre ih =>
    intro c results cm post hcm hex hsince hok hck
    by_cases hec : e.type = "Commit"
    · have hex' : ∃ x ∈ pre, isWatermarkEvt cfg wm x := by
        obtain ⟨e0, hmem, hwm0⟩ := hex
        rcases List.mem_cons.mp hmem with rfl | hmem'
        · exact absurd hec hwm0.1
        · exact ⟨e0, hmem', hwm0⟩
      obtain ⟨c', results', msgs, hr⟩ := ih
        { c with state := { c.state with currentLSN := e.lsn } } results cm post hcm hex'
        hsince.2 (fun x hx => hok x (List.mem_cons_of_mem e hx))
        (fun x hx => hck x (List.mem_cons_of_mem e hx))
      refine ⟨c', results', msgs, ?_⟩
      show streamToWatermarkAux cfg wm false c results ((e :: pre) ++ cm :: post) = _
      rw [List.cons_append]
      simp only [streamToWatermarkAux, if_pos hec]
      exact hr
    · obtain ⟨c1, results1, pfx, hstreams, htrans, heq⟩ :=
        drain_step cfg wm false c results e (pre ++ cm :: post) hec
          (hok e (List.mem_cons_self e pre)) (hck e (List.mem_cons_self e pre))
      by_cases hw : isWatermarkEvt cfg wm e
      · rw [if_pos ⟨hw.2.1, hw.2.2⟩] at heq
        have hnc : ∀ x ∈ pre, ¬x.type = "Commit" := hsince.1 hw
        obtain ⟨c', results', msgs, hr⟩ :=
          drain_reached_consumes cfg wm cm post hcm pre c1 results1
            hnc (fun x hx => hstreams ▸ hok x (List.mem_cons_of_mem e hx))
            (fun x hx => htrans x (hck x (List.mem_cons_of_mem e hx)))
        refine ⟨c', results', pfx ++ msgs, ?_⟩
        show streamToWatermarkAux cfg wm false c results ((e :: pre) ++ cm :: post) = _
        rw [List.cons_append, heq, hr]
        rfl
      · have hcond : ¬(eventStreamID e = cfg.watermarksTable ∧
            getF e.fields "watermark" = some (Value.str wm)) := by
          intro hc
          exact hw ⟨hec, hc.1, hc.2⟩
        rw [if_neg hcond] at heq
        have hex' : ∃ x ∈ pre, isWatermarkEvt cfg wm x := by
          obtain ⟨e0, hmem, hwm0⟩ := hex
          rcases List.mem_cons.mp hmem with rfl | hmem'
          · exact absurd hwm0 hw
          · exact ⟨e0, hmem', hwm0⟩
        obtain ⟨c', results', msgs, hr⟩ := ih c1 results1 cm post hcm hex' hsince.2
          (fun x hx => hstreams ▸ hok x (List.mem_cons_of_mem e hx))
          (fun x hx => htrans x (hck x (List.mem_cons_of_mem e hx)))
        refine ⟨c', results', pfx ++ msgs, ?_⟩
        show streamToWatermarkAux cfg wm false c results ((e :: pre) ++ cm :: post) = _
        rw [List.cons_append, heq]
        rw [show streamToWatermark cfg wm c1 results1 (pre ++ cm :: post) =
          streamToWatermarkAux cfg wm false c1 results1 (pre ++ cm :: post) from rfl] at hr
        rw [hr]
        rfl

/-- Closed witness for `c3_drain_until_watermark_commit`: a drain over an
emitted row event, the watermark event, the commit and one later event
consumes exactly through the commit and leaves the later event pending. -/
theorem c3_drain_until_watermark_commit_witness :
    ∃ c' results' msgs,
      streamToWatermark cfgW "w" capBF []
        ([evtLow, watermarkEvent "public" "wm" "s" "w" 5] ++ commitEvent 6 :: [evtHigh]) =
        Except.ok (c', results', msgs, [evtHigh]) :=
  c3_drain_until_watermark_commit cfgW "w"
    [evtLow, watermarkEvent "public" "wm" "s" "w" 5] capBF [] (commitEvent 6) [evtHigh]
    (by rfl) (by decide) (by decide) (by decide) (by decide)

theorem lookupS_append_some {α : Type} (k : String) (v : α) (l1 l2 : List (String × α))
    (h : lookupS k l1 = some v) : lookupS k (l1 ++ l2) = some v := by
  induction l1 with
  | nil => simp [lookupS] at h
  | cons p rest ih =>
    by_cases hp : p.1 = k
    · simp only [lookupS, if_pos hp] at h ⊢
      exact h
    · simp only [lookupS, if_neg hp] at h ⊢
      exact ih h

theorem lookupS_append_none {α : Type} (k : String) (l1 l2 : List (String × α))
    (h : lookupS k l1 = none) : lookupS k (l1 ++ l2) = lookupS k l2 := by
  induction l1 with
  | nil => rfl
  | cons p rest ih =>
    by_cases hp : p.1 = k
    · simp [lookupS, if_pos hp] at h
    · simp only [lookupS, if_neg hp] at h ⊢
      exact ih h

theorem updateStreams_preserves (dbKeys : List (String × List String)) :
    ∀ (cat : List CatalogStream) (streams : List (String × TableState)) (dirty : Bool)
      (out : List (String × TableState) × Bool),
      updateStreams dbKeys cat streams dirty = Except.ok out →
      ∀ sid ts, lookupS sid streams = some ts → lookupS sid out.1 = some ts := by
  intro cat
  induction cat with
  | nil =>
    intro streams dirty out h sid ts hl
    cases h
    exact hl
  | cons cs rest ih =>
    intro streams dirty out h sid ts hl
    rw [updateStreams] at h
    cases hck : catalogKey cs.primaryKey with
    | error e => rw [hck] at h; cases h
    | ok catKey =>
      rw [hck] at h
      dsimp only at h
      by_cases hpk : (if catKey ≠ [] then catKey
          else (lookupS (joinStreamID cs.ns cs.name) dbKeys).getD []) = []
      · rw [if_pos hpk] at h; cases h
      · rw [if_neg hpk] at h
        cases hlc : lookupS (joinStreamID cs.ns cs.name) streams with
        | none =>
          rw [hlc] at h
          dsimp only at h
          exact ih _ _ _ h sid ts (lookupS_append_some sid ts streams _ hl)
        | some ts0 =>
          rw [hlc] at h
          dsimp only at h
          by_cases hj : joinComma ts0.scanKey ≠ joinComma (if catKey ≠ [] then catKey
              else (lookupS (joinStreamID cs.ns cs.name) dbKeys).getD [])
          · rw [if_pos hj] at h; cases h
          · rw [if_neg hj] at h
            exact ih _ _ _ h sid ts hl

theorem updateStreams_conflict_error (dbKeys : List (String × List String))
    (init : List (String × TableState)) :
    ∀ (cat : List CatalogStream) (streams : List (String × TableState)) (dirty : Bool),
      (∀ sid ts, lookupS sid init = some ts → lookupS sid streams = some ts) →
      (∃ cs ∈ cat, streamConflict dbKeys init cs) →
      ∃ e, updateStreams dbKeys cat streams dirty = Except.error e := by
  intro cat
  induction cat with
  | nil =>
    intro streams dirty _ hex
    simp at hex
  | cons cs0 rest ih =>
    intro streams dirty hinv hex
    rw [updateStreams]
    cases hck : catalogKey cs0.primaryKey with
    | error e => exact ⟨e, rfl⟩
    | ok catKey =>
      dsimp only
      by_cases hpk : (if catKey ≠ [] then catKey
          else (lookupS (joinStreamID cs0.ns cs0.name) dbKeys).getD []) = []
      · rw [if_pos hpk]
        exact ⟨_, rfl⟩
      · rw [if_neg hpk]
        obtain ⟨cs, hmem, hconf⟩ := hex
        rcases List.mem_cons.mp hmem with rfl | hmem'
        · unfold streamConflict at hconf
          rw [hck] at hconf
          cases hli : lookupS (joinStreamID cs.ns cs.name) init with
          | none =>
            rw [hli] at hconf
            exact absurd (show (if catKey ≠ [] then catKey
              else (lookupS (joinStreamID cs.ns cs.name) dbKeys).getD []) = [] from hconf) hpk
          | some ts =>
            rw [hli] at hconf
            have hcur := hinv _ _ hli
            rw [hcur]
            dsimp only
            rcases hconf with hconf | hconf
            · exact absurd (show (if catKey ≠ [] then catKey
                else (lookupS (joinStreamID cs.ns cs.name) dbKeys).getD []) = [] from hconf) hpk
            · rw [if_pos (show joinComma ts.scanKey ≠ joinComma (if catKey ≠ [] then catKey
                else (lookupS (joinStreamID cs.ns cs.name) dbKeys).getD []) from hconf)]
              exact ⟨_, rfl⟩
        · rw [show lookupS (joinStreamID cs0.ns cs0.name) streams =
            lookupS (joinStreamID cs0.ns cs0.name) streams from rfl]
          cases hlc : lookupS (joinStreamID cs0.ns cs0.name) streams with
          | none =>
            dsimp only
            obtain ⟨e, he⟩ := ih (streams ++
              [(joinStreamID cs0.ns cs0.name,
                { mode := tableModeBackfill,
                  scanKey := (if catKey ≠ [] then catKey
                    else (lookupS (joinStreamID cs0.ns cs0.name) dbKeys).getD []),
                  scanned := none })]) true
              (fun sid ts hl => lookupS_append_some sid ts streams _ (hinv sid ts hl))
              ⟨cs, hmem', hconf⟩
            exact ⟨e, he⟩
          | some ts0 =>
            dsimp only
            by_cases hj : joinComma ts0.scanKey ≠ joinComma (if catKey ≠ [] then catKey
                else (lookupS (joinStreamID cs0.ns cs0.name) dbKeys).getD [])
            · rw [if_pos hj]
              exact ⟨_, rfl⟩
            · rw [if_neg hj]
              exact ih streams dirty hinv ⟨cs, hmem', hconf⟩

theorem updateStreams_creates (dbKeys : List (String × List String)) (cs : CatalogStream)
    (catKey : List String) (hck : catalogKey cs.primaryKey = Except.ok catKey) :
    ∀ (cat : List CatalogStream) (streams : List (String × TableState)) (dirty : Bool)
      (out : List (String × TableState) × Bool),
      updateStreams dbKeys cat streams dirty = Except.ok out →
      cs ∈ cat →
      (∀ cs2 ∈ cat, joinStreamID cs2.ns cs2.name = joinStreamID cs.ns cs.name → cs2 = cs) →
      lookupS (joinStreamID cs.ns cs.name) streams = none →
      lookupS (joinStreamID cs.ns cs.name) out.1 =
        some { mode := tableModeBackfill, scanKey := effectiveKey dbKeys cs catKey,
               scanned := none } := by
  intro cat
  induction cat with
  | nil =>
    intro streams dirty out _ hmem
    simp at hmem
  | cons cs0 rest ih =>
    intro streams dirty out h hmem huniq hnone
    rw [updateStreams] at h
    by_cases hcs : cs0 = cs
    · subst hcs
      rw [hck] at h
      dsimp only at h
      by_cases hpk : (if catKey ≠ [] then catKey
          else (lookupS (joinStreamID cs0.ns cs0.name) dbKeys).getD []) = []
      · rw [if_pos hpk] at h; cases h
      · rw [if_neg hpk] at h
        rw [hnone] at h
        dsimp only at h
        refine updateStreams_preserves dbKeys rest _ true out h _ _ ?_
        rw [lookupS_append_none _ _ _ hnone]
        simp [lookupS, effectiveKey]
    · cases hck0 : catalogKey cs0.primaryKey with
      | error e => rw [hck0] at h; cases h
      | ok catKey0 =>
        rw [hck0] at h
        dsimp only at h
        have hmem' : cs ∈ rest := by
          rcases List.mem_cons.mp hmem with rfl | hm
          · exact absurd rfl hcs
          · exact hm
        have huniq' : ∀ cs2 ∈ rest, joinStreamID cs2.ns cs2.name = joinStreamID cs.ns cs.name →
            cs2 = cs := fun cs2 h2 => huniq cs2 (List.mem_cons_of_mem cs0 h2)
        by_cases hpk0 : (if catKey0 ≠ [] then catKey0
            else (lookupS (joinStreamID cs0.ns cs0.name) dbKeys).getD []) = []
        · rw [if_pos hpk0] at h; cases h
        · rw [if_neg hpk0] at h
          have hsid : ¬joinStreamID cs0.ns cs0.name = joinStreamID cs.ns cs.name :=
            fun hsid => hcs (huniq cs0 (List.mem_cons_self cs0 rest) hsid)
          cases hlc : lookupS (joinStreamID cs0.ns cs0.name) streams with
          | none =>
            rw [hlc] at h
            dsimp only at h
            refine ih _ true out h hmem' huniq' ?_
            rw [lookupS_append_none _ _ _ hnone]
            simp [lookupS, hsid]
          | some ts0 =>
            rw [hlc] at h
            dsimp only at h
            by_cases hj : joinComma ts0.scanKey ≠ joinComma (if catKey0 ≠ [] then catKey0
                else (lookupS (joinStreamID cs0.ns cs0.name) dbKeys).getD [])
            · rw [if_pos hj] at h; cases h
            · rw [if_neg hj] at h
              exact ih streams dirty out h hmem' huniq' hnone

theorem lookupS_filter_congr {α : Type} (p : String × α → Bool) (k : String)
    (hk : ∀ v : α, p (k, v) = true) :
    ∀ l : List (String × α), lookupS k (l.filter p) = lookupS k l := by
  intro l
  induction l with
  | nil => rfl
  | cons q rest ih =>
    rcases q with ⟨a, b⟩
    by_cases ha : a = k
    · subst ha
      rw [List.filter_cons, hk b]
      simp [lookupS]
    · cases hq : p (a, b) with
      | true =>
        rw [List.filter_cons, hq]
        simp only [lookupS, if_neg ha]
        exact ih
      | false =>
        rw [List.filter_cons, hq]
        simp only [lookupS, if_neg ha]
        exact ih

/-- C8 counterexample: the source compares primary keys comma-joined, so the
catalog key `[a, b]` and the persisted scan key `["a,b"]` — different column
lists — are conflated and `updateState` succeeds instead of failing. -/
theorem c8_comma_join_cex :
    (["a", "b"] : List String) ≠ ["a,b"] ∧
    catalogKey (catAB.streams.headD { ns := "", name := "", primaryKey := [] }).primaryKey =
      Except.ok ["a", "b"] ∧
    (lookupS "public.t" capComma.state.streams).map TableState.scanKey = some ["a,b"] ∧
    exceptOk (updateState catAB [] capComma) := by
  refine ⟨by decide, by rfl, by rfl, by decide⟩

/-- C8 (amended): `updateState` fails with an error — before emitting any
message — whenever some configured stream's effective primary key (catalog
override else database key, compared comma-joined as in the source) differs
from the persisted scan key, or is empty because neither the catalog nor the
database provides one; and for every configured stream with no prior state
(and a stream id unique in the catalog) a fresh `TableState` in Backfill
mode with the effective primary key as scan key and no `scanned` position is
created.  (Key lists that join to the same comma-string, such as
`["a","b"]` and `["a,b"]`, are treated as equal and do not error.) -/
theorem c8_state_reconciliation (catalog : ConfiguredCatalog)
    (dbKeys : List (String × List String)) (c : Capture) :
    ((∃ cs ∈ catalog.streams, streamConflict dbKeys c.state.streams cs) →
      ∃ err, updateState catalog dbKeys c = Except.error err) ∧
    (∀ cs ∈ catalog.streams, ∀ (c' : Capture) (msgs : List Message) (catKey : List String),
      updateState catalog dbKeys c = Except.ok (c', msgs) →
      (∀ cs2 ∈ catalog.streams, joinStreamID cs2.ns cs2.name = joinStreamID cs.ns cs.name →
        cs2 = cs) →
      lookupS (joinStreamID cs.ns cs.name) c.state.streams = none →
      catalogKey cs.primaryKey = Except.ok catKey →
      lookupS (joinStreamID cs.ns cs.name) c'.state.streams =
        some { mode := tableModeBackfill, scanKey := effectiveKey dbKeys cs catKey,
               scanned := none }) := by
  constructor
  · intro hex
    obtain ⟨e, he⟩ := updateStreams_conflict_error dbKeys c.state.streams catalog.streams
      c.state.streams false (fun _ _ h => h) hex
    refine ⟨e, ?_⟩
    unfold updateState
    rw [he]
  · intro cs hcs c' msgs catKey hok huniq hnone hck
    unfold updateState at hok
    cases hu : updateStreams dbKeys catalog.streams c.state.streams false with
    | error e => rw [hu] at hok; cases hok
    | ok out =>
      rw [hu] at hok
      dsimp only at hok
      have hcreated := updateStreams_creates dbKeys cs catKey hck catalog.streams
        c.state.streams false out hu hcs huniq hnone
      have hkept : lookupS (joinStreamID cs.ns cs.name)
          (out.1.filter (fun p => catalog.streams.any
            (fun cs2 => joinStreamID cs2.ns cs2.name = p.1))) =
          lookupS (joinStreamID cs.ns cs.name) out.1 := by
        refine lookupS_filter_congr _ _ ?_ out.1
        intro v
        simp only [List.any_eq_true]
        exact ⟨cs, hcs, by simp⟩
      by_cases hd : (out.2 || (out.1.filter (fun p => catalog.streams.any
          (fun cs2 => joinStreamID cs2.ns cs2.name = p.1))).length ≠ out.1.length : Bool) = true
      · rw [if_pos hd] at hok
        cases hok
        dsimp only [emitState]
        rw [hkept]
        exact hcreated
      · rw [if_neg hd] at hok
        cases hok
        dsimp only
        rw [hkept]
        exact hcreated

/-- Closed witness for `c8_state_reconciliation`: a catalog key `zz`
conflicting with the persisted scan key `id` makes `updateState` fail, and a
fresh stream gets a Backfill `TableState` carrying the catalog key. -/
theorem c8_state_reconciliation_witness :
    (∃ err, updateState catZZ [] capBF = Except.error err) ∧
    lookupS "public.t"
      (match updateState catAB [] capEmpty with
        | Except.ok (c', _) => c'.state.streams
        | Except.error _ => []) =
      some { mode := tableModeBackfill, scanKey := ["a", "b"], scanned := none } := by
  constructor
  · exact (c8_state_reconciliation catZZ [] capBF).1 (by decide)
  · have h := (c8_state_reconciliation catAB [] capEmpty).2
      { ns := "public", name := "t", primaryKey := [["a"], ["b"]] }
      (by decide)
    have hisok : exceptOk (updateState catAB [] capEmpty) := by decide
    cases hu : updateState catAB [] capEmpty with
    | error e =>
      rw [hu] at hisok
      exact absurd hisok id
    | ok q =>
      have h2 := h q.1 q.2 ["a", "b"] (by rw [hu]) (by decide) (by rfl) (by rfl)
      simpa using h2

theorem lookupS_mem {α : Type} (k : String) (v : α) :
    ∀ l : List (String × α), lookupS k l = some v → k ∈ l.map Prod.fst := by
  intro l
  induction l with
  | nil => intro h; cases h
  | cons p rest ih =>
    intro h
    by_cases hp : p.1 = k
    · simp [hp]
    · simp only [lookupS, if_neg hp] at h
      simp [ih h]

theorem setS_keys_of_mem {α : Type} (k : String) (v : α) :
    ∀ l : List (String × α), k ∈ l.map Prod.fst →
      (setS k v l).map Prod.fst = l.map Prod.fst := by
  intro l
  induction l with
  | nil => intro h; simp at h
  | cons p rest ih =>
    intro h
    by_cases hp : p.1 = k
    · simp [setS, hp]
    · simp only [List.map_cons, List.mem_cons] at h
      rcases h with h | h
      · exact absurd h.symm hp
      · simp [setS, hp, ih h]

theorem rsPatch_streams (results : resultSet) (sid : String) (evt : changeEvent)
    (results' : resultSet) (h : rsPatch results sid evt = Except.ok results') :
    rsStreams results' = rsStreams results := by
  unfold rsPatch at h
  cases hl : lookupS sid results with
  | none => rw [hl] at h; cases h; rfl
  | some ch =>
    rw [hl] at h
    dsimp only at h
    cases hk : encodeRowKey ch.scanKey evt.fields with
    | error e => rw [hk] at h; cases h
    | ok key =>
      rw [hk] at h
      dsimp only at h
      cases hlk : chunkLastKey ch with
      | none => rw [hlk] at h; cases h; rfl
      | some lastKey =>
        rw [hlk] at h
        dsimp only at h
        by_cases hin : compareTuples key lastKey ≤ 0
        · rw [if_pos hin] at h
          cases h
          exact setS_keys_of_mem sid _ results (lookupS_mem sid ch results hl)
        · rw [if_neg hin] at h
          cases h
          rfl

theorem lookupS_mem_pair {α : Type} (k : String) (v : α) :
    ∀ l : List (String × α), lookupS k l = some v → (k, v) ∈ l := by
  intro l
  induction l with
  | nil => intro h; cases h
  | cons p rest ih =>
    intro h
    by_cases hp : p.1 = k
    · simp only [lookupS, if_pos hp] at h
      cases h
      rcases p with ⟨a, b⟩
      cases hp
      exact List.mem_cons_self _ _
    · simp only [lookupS, if_neg hp] at h
      exact List.mem_cons_of_mem _ (ih h)

theorem mem_setS {α : Type} (k : String) (v : α) (q : String × α) :
    ∀ l : List (String × α), q ∈ setS k v l → q = (k, v) ∨ q ∈ l := by
  intro l
  induction l with
  | nil =>
    intro h
    simp [setS] at h
    exact Or.inl h
  | cons p rest ih =>
    intro h
    by_cases hp : p.1 = k
    · simp only [setS, if_pos hp] at h
      rcases List.mem_cons.mp h with rfl | h'
      · exact Or.inl (by rw [hp])
      · exact Or.inr (List.mem_cons_of_mem _ h')
    · simp only [setS, if_neg hp] at h
      rcases List.mem_cons.mp h with rfl | h'
      · exact Or.inr (List.mem_cons_self _ _)
      · rcases ih h' with h2 | h2
        · exact Or.inl h2
        · exact Or.inr (List.mem_cons_of_mem _ h2)

theorem mem_insertRow (key : List Nat) (evt : changeEvent) (q : List Nat × changeEvent) :
    ∀ rows : List (List Nat × changeEvent),
      q ∈ insertRow key evt rows → q = (key, evt) ∨ q ∈ rows := by
  intro rows
  induction rows with
  | nil =>
    intro h
    simp [insertRow] at h
    exact Or.inl h
  | cons r rest ih =>
    intro h
    unfold insertRow at h
    by_cases h1 : compareTuples key r.1 < 0
    · rw [if_pos h1] at h
      rcases List.mem_cons.mp h with rfl | h'
      · exact Or.inl rfl
      · exact Or.inr h'
    · rw [if_neg h1] at h
      by_cases h2 : compareTuples key r.1 = 0
      · rw [if_pos h2] at h
        rcases List.mem_cons.mp h with rfl | h'
        · exact Or.inl rfl
        · exact Or.inr (List.mem_cons_of_mem _ h')
      · rw [if_neg h2] at h
        rcases List.mem_cons.mp h with rfl | h'
        · exact Or.inr (List.mem_cons_self _ _)
        · rcases ih h' with h3 | h3
          · exact Or.inl h3
          · exact Or.inr (List.mem_cons_of_mem _ h3)

theorem mem_removeRow (key : List Nat) (q : List Nat × changeEvent) :
    ∀ rows : List (List Nat × changeEvent), q ∈ removeRow key rows → q ∈ rows := by
  intro rows
  induction rows with
  | nil => intro h; exact h
  | cons r rest ih =>
    intro h
    unfold removeRow at h
    by_cases h1 : compareTuples key r.1 = 0
    · rw [if_pos h1] at h
      exact List.mem_cons_of_mem _ (ih h)
    · rw [if_neg h1] at h
      rcases List.mem_cons.mp h with rfl | h'
      · exact List.mem_cons_self _ _
      · exact List.mem_cons_of_mem _ (ih h')

theorem rsPatch_chunkWF (results : resultSet) (sid : String) (evt : changeEvent)
    (results' : resultSet) (h : rsPatch results sid evt = Except.ok results')
    (hsid : joinStreamID evt.ns evt.table = sid) (hwf : chunkEventsWF results) :
    chunkEventsWF results' := by
  unfold rsPatch at h
  cases hl : lookupS sid results with
  | none => rw [hl] at h; cases h; exact hwf
  | some ch =>
    rw [hl] at h
    dsimp only at h
    cases hk : encodeRowKey ch.scanKey evt.fields with
    | error e => rw [hk] at h; cases h
    | ok key =>
      rw [hk] at h
      dsimp only at h
      cases hlk : chunkLastKey ch with
      | none => rw [hlk] at h; cases h; exact hwf
      | some lastKey =>
        rw [hlk] at h
        dsimp only at h
        by_cases hin : compareTuples key lastKey ≤ 0
        · rw [if_pos hin] at h
          cases h
          intro p hp row hrow
          rcases mem_setS _ _ p results hp with rfl | hp'
          · dsimp only at hrow
            by_cases hdel : evt.type = "Delete"
            · rw [if_pos hdel] at hrow
              exact hwf _ (lookupS_mem_pair sid ch results hl) row (mem_removeRow key row _ hrow)
            · rw [if_neg hdel] at hrow
              rcases mem_insertRow key evt row _ hrow with rfl | hrow'
              · exact hsid
              · exact hwf _ (lookupS_mem_pair sid ch results hl) row hrow'
          · exact hwf p hp' row hrow
        · rw [if_neg hin] at h
          cases h
          exact hwf

/-- Structural invariants of one drain: the capture's streams are unchanged,
the buffered stream ids are unchanged, only Record messages are emitted, and
every emitted record belongs to a stream with an Active or Backfill
`TableState`. -/
theorem drain_invariants (cfg : Config) (wm : String) :
    ∀ (events : List changeEvent) (reached : Bool) (c : Capture) (results : resultSet)
      (c' : Capture) (results' : resultSet) (msgs : List Message) (rem : List changeEvent),
      streamToWatermarkAux cfg wm reached c results events =
        Except.ok (c', results', msgs, rem) →
      c'.state.streams = c.state.streams ∧
      rsStreams results' = rsStreams results ∧
      (∀ m ∈ msgs, isRecord m = true) ∧
      (∀ ns stream data, Message.record ns stream data ∈ msgs →
        ∃ ts, lookupS (joinStreamID ns stream) c.state.streams = some ts ∧
          (ts.mode = tableModeActive ∨ ts.mode = tableModeBackfill)) ∧
      (chunkEventsWF results → chunkEventsWF results') := by
  intro events
  induction events with
  | nil =>
    intro reached c results c' results' msgs rem h
    cases h
    exact ⟨rfl, rfl, by simp, by simp, fun h => h⟩
  | cons evt rest ih =>
    intro reached c results c' results' msgs rem h
    rw [streamToWatermarkAux] at h
    by_cases hc : evt.type = "Commit"
    · rw [if_pos hc] at h
      dsimp only at h
      cases reached with
      | true =>
        rw [if_pos rfl] at h
        cases h
        exact ⟨rfl, rfl, by simp, by simp, fun h => h⟩
      | false =>
        rw [if_neg (by decide)] at h
        obtain ⟨h1, h2, h3, h4, h5⟩ := ih _ _ _ _ _ _ _ h
        exact ⟨h1, h2, h3, h4, h5⟩
    · rw [if_neg hc] at h
      dsimp only at h
      cases hl : lookupS (eventStreamID evt) c.state.streams with
      | none =>
        rw [hl] at h
        exact ih _ _ _ _ _ _ _ h
      | some ts =>
        rw [hl] at h
        dsimp only at h
        by_cases hIgn : ts.mode = tableModeIgnore
        · rw [if_pos hIgn] at h
          exact ih _ _ _ _ _ _ _ h
        · rw [if_neg hIgn] at h
          by_cases hAct : ts.mode = tableModeActive
          · rw [if_pos hAct] at h
            cases hrec : streamToWatermarkAux cfg wm
                (if eventStreamID evt = cfg.watermarksTable ∧
                    getF evt.fields "watermark" = some (Value.str wm) then true else reached)
                (handleChangeEvent c evt).1 results rest with
            | error e => rw [hrec] at h; cases h
            | ok q =>
              rcases q with ⟨c2, r2, ms, rem2⟩
              rw [hrec] at h
              cases h
              obtain ⟨h1, h2, h3, h4, h5⟩ := ih _ _ _ _ _ _ _ hrec
              refine ⟨h1, h2, ?_, ?_, h5⟩
              · intro m hm
                rcases List.mem_cons.mp hm with rfl | hm'
                · rfl
                · exact h3 m hm'
              · intro ns stream data hm
                rcases List.mem_cons.mp hm with heq | hm'
                · have hns : ns = evt.ns ∧ stream = evt.table := by
                    unfold handleChangeEvent emitRecord at heq
                    cases heq
                    exact ⟨rfl, rfl⟩
                  rw [hns.1, hns.2]
                  exact ⟨ts, hl, Or.inl hAct⟩
                · exact h4 ns stream data hm'
          · by_cases hBF : ts.mode = tableModeBackfill
            · rw [if_neg hAct, if_pos hBF] at h
              cases henc : encodeRowKey ts.scanKey evt.fields with
              | error e => rw [henc] at h; cases h
              | ok rowKey =>
                rw [henc] at h
                dsimp only at h
                by_cases hcmp : compareTuples rowKey (ts.scanned.getD []) ≤ 0
                · rw [if_pos hcmp] at h
                  cases hrec : streamToWatermarkAux cfg wm
                      (if eventStreamID evt = cfg.watermarksTable ∧
                          getF evt.fields "watermark" = some (Value.str wm) then true
                       else reached)
                      (handleChangeEvent c evt).1 results rest with
                  | error e => rw [hrec] at h; cases h
                  | ok q =>
                    rcases q with ⟨c2, r2, ms, rem2⟩
                    rw [hrec] at h
                    cases h
                    obtain ⟨h1, h2, h3, h4, h5⟩ := ih _ _ _ _ _ _ _ hrec
                    refine ⟨h1, h2, ?_, ?_, h5⟩
                    · intro m hm
                      rcases List.mem_cons.mp hm with rfl | hm'
                      · rfl
                      · exact h3 m hm'
                    · intro ns stream data hm
                      rcases List.mem_cons.mp hm with heq | hm'
                      · have hns : ns = evt.ns ∧ stream = evt.table := by
                          unfold handleChangeEvent emitRecord at heq
                          cases heq
                          exact ⟨rfl, rfl⟩
                        rw [hns.1, hns.2]
                        exact ⟨ts, hl, Or.inr hBF⟩
                      · exact h4 ns stream data hm'
                · rw [if_neg hcmp] at h
                  cases hp : rsPatch results (eventStreamID evt) evt with
                  | error e => rw [hp] at h; cases h
                  | ok results1 =>
                    rw [hp] at h
                    obtain ⟨h1, h2, h3, h4, h5⟩ := ih _ _ _ _ _ _ _ h
                    exact ⟨h1, by rw [h2, rsPatch_streams results _ evt results1 hp], h3, h4,
                      fun hwf => h5 (rsPatch_chunkWF results _ evt results1 hp rfl hwf)⟩
            · rw [if_neg hAct, if_neg hBF] at h
              cases h

theorem updateTS_map_fst (streams : List (String × TableState)) (sid : String)
    (f : TableState → TableState) :
    (updateTS streams sid f).map Prod.fst = streams.map Prod.fst := by
  induction streams with
  | nil => rfl
  | cons p rest ih =>
    by_cases hp : p.1 = sid
    · simp [updateTS, hp] at ih ⊢
      exact ih
    · simp [updateTS, hp] at ih ⊢
      exact ih

theorem updateTS_mem (streams : List (String × TableState)) (sid : String)
    (f : TableState → TableState) (p : String × TableState) (hp : p ∈ updateTS streams sid f) :
    ∃ q ∈ streams, p.1 = q.1 ∧ (p.2 = q.2 ∨ (p.1 = sid ∧ p.2 = f q.2)) := by
  unfold updateTS at hp
  rw [List.mem_map] at hp
  obtain ⟨q, hq, heq⟩ := hp
  by_cases hqs : q.1 = sid
  · rw [if_pos hqs] at heq
    exact ⟨q, hq, by rw [← heq], Or.inr ⟨by rw [← heq]; exact hqs, by rw [← heq]⟩⟩
  · rw [if_neg hqs] at heq
    exact ⟨q, hq, by rw [← heq], Or.inl (by rw [← heq])⟩

theorem updateTS_lookup_eq (sid : String) (f : TableState → TableState) :
    ∀ streams : List (String × TableState),
      lookupS sid (updateTS streams sid f) = (lookupS sid streams).map f := by
  intro streams
  induction streams with
  | nil => rfl
  | cons p rest ih =>
    rcases p with ⟨a, b⟩
    unfold updateTS
    simp only [List.map_cons]
    by_cases hp : a = sid
    · rw [if_pos hp]
      simp only [lookupS]
      rw [if_pos hp, if_pos hp]
      rfl
    · rw [if_neg hp]
      simp only [lookupS]
      rw [if_neg hp, if_neg hp]
      exact ih

theorem updateTS_lookup_ne (sid k : String) (f : TableState → TableState) (hne : ¬sid = k) :
    ∀ streams : List (String × TableState),
      lookupS k (updateTS streams sid f) = lookupS k streams := by
  intro streams
  induction streams with
  | nil => rfl
  | cons p rest ih =>
    rcases p with ⟨a, b⟩
    unfold updateTS
    simp only [List.map_cons]
    by_cases hp : a = sid
    · have hak : ¬a = k := fun h => hne (hp.symm.trans h)
      rw [if_pos hp]
      simp only [lookupS]
      rw [if_neg hak, if_neg hak]
      exact ih
    · rw [if_neg hp]
      simp only [lookupS]
      by_cases hak : a = k
      · rw [if_pos hak, if_pos hak]
      · rw [if_neg hak, if_neg hak]
        exact ih

theorem flushRule_idem (results : resultSet) (sid : String) (ts : TableState) :
    flushRule results sid (flushRule results sid ts) = flushRule results sid ts := by
  unfold flushRule
  by_cases h : rsComplete results sid <;> simp [h]

theorem emitEvents_spec :
    ∀ (evts : List changeEvent) (acc : Capture × List Message),
      (emitEvents acc evts).1.state = acc.1.state ∧
      (∀ m ∈ (emitEvents acc evts).2, m ∈ acc.2 ∨
        (isRecord m = true ∧ ∃ e ∈ evts, ∃ data, m = Message.record e.ns e.table data)) := by
  intro evts
  induction evts with
  | nil => intro acc; exact ⟨rfl, fun m hm => Or.inl hm⟩
  | cons evt rest ih =>
    intro acc
    unfold emitEvents
    obtain ⟨ih1, ih2⟩ := ih ((handleChangeEvent acc.1 evt).1, acc.2 ++ [(handleChangeEvent acc.1 evt).2])
    refine ⟨ih1.trans rfl, ?_⟩
    intro m hm
    rcases ih2 m hm with hm' | ⟨hr, e, he, data, hmd⟩
    · rcases List.mem_append.mp hm' with hm2 | hm2
      · exact Or.inl hm2
      · rcases List.mem_singleton.mp hm2 with rfl
        exact Or.inr ⟨rfl, evt, List.mem_cons_self _ _,
          (setF evt.fields "_change_type" (Value.str evt.type)).map
            (fun p : String × Value => (p.1, translateRecordField p.2)), rfl⟩
    · exact Or.inr ⟨hr, e, List.mem_cons_of_mem _ he, data, hmd⟩

theorem flushStream_state (results : resultSet) (acc : Capture × List Message) (sid : String) :
    (flushStream results acc sid).1.state.streams =
      updateTS acc.1.state.streams sid (flushRule results sid) ∧
    (flushStream results acc sid).1.state.currentLSN = acc.1.state.currentLSN := by
  obtain ⟨h1, _⟩ := emitEvents_spec (rsChanges results sid) acc
  simp only [flushStream]
  constructor
  · by_cases hc : rsComplete results sid
    · rw [if_pos hc, h1]
      have : flushRule results sid = fun ts => { ts with mode := tableModeActive, scanned := none } := by
        funext ts
        unfold flushRule
        rw [if_pos hc]
      rw [this]
    · rw [if_neg hc, h1]
      have : flushRule results sid = fun ts => { ts with scanned := rsScanned results sid } := by
        funext ts
        unfold flushRule
        rw [if_neg hc]
      rw [this]
  · rw [h1]

theorem flushStream_msgs (results : resultSet) (acc : Capture × List Message) (sid : String) :
    ∀ m ∈ (flushStream results acc sid).2, m ∈ acc.2 ∨
      (isRecord m = true ∧ ∃ e ∈ rsChanges results sid, ∃ data,
        m = Message.record e.ns e.table data) := by
  obtain ⟨_, h2⟩ := emitEvents_spec (rsChanges results sid) acc
  intro m hm
  exact h2 m hm

theorem flushAll_spec (results : resultSet) :
    ∀ (sids : List String) (acc : Capture × List Message),
      ((flushAll results acc sids).1.state.streams.map Prod.fst =
        acc.1.state.streams.map Prod.fst) ∧
      (flushAll results acc sids).1.state.currentLSN = acc.1.state.currentLSN ∧
      (∀ p ∈ (flushAll results acc sids).1.state.streams,
        ∃ q ∈ acc.1.state.streams, p.1 = q.1 ∧
          (p.2 = q.2 ∨ (p.1 ∈ sids ∧ p.2 = flushRule results p.1 q.2))) ∧
      (∀ m ∈ (flushAll results acc sids).2, m ∈ acc.2 ∨
        (isRecord m = true ∧ ∃ sid ∈ sids, ∃ e ∈ rsChanges results sid, ∃ data,
          m = Message.record e.ns e.table data)) := by
  intro sids
  induction sids with
  | nil =>
    intro acc
    exact ⟨rfl, rfl, fun p hp => ⟨p, hp, rfl, Or.inl rfl⟩, fun m hm => Or.inl hm⟩
  | cons sid rest ih =>
    intro acc
    obtain ⟨ih1, ihL, ih2, ih3⟩ := ih (flushStream results acc sid)
    obtain ⟨hs, hLSN⟩ := flushStream_state results acc sid
    refine ⟨?_, ?_, ?_, ?_⟩
    · rw [show flushAll results acc (sid :: rest) = flushAll results (flushStream results acc sid) rest from rfl]
      rw [ih1, hs, updateTS_map_fst]
    · rw [show flushAll results acc (sid :: rest) = flushAll results (flushStream results acc sid) rest from rfl]
      rw [ihL, hLSN]
    · intro p hp
      rw [show flushAll results acc (sid :: rest) = flushAll results (flushStream results acc sid) rest from rfl] at hp
      obtain ⟨q1, hq1, hpq1, hcase1⟩ := ih2 p hp
      rw [hs] at hq1
      obtain ⟨q, hq, hq1q, hcase0⟩ := updateTS_mem _ _ _ q1 hq1
      refine ⟨q, hq, hpq1.trans hq1q, ?_⟩
      rcases hcase1 with h1 | ⟨hmem1, h1⟩
      · rcases hcase0 with h0 | ⟨hsid0, h0⟩
        · exact Or.inl (h1.trans h0)
        · have hp1 : p.1 = sid := hpq1.trans hsid0
          refine Or.inr ⟨?_, ?_⟩
          · rw [hp1]
            exact List.mem_cons_self _ _
          · rw [hp1]
            exact h1.trans h0
      · rcases hcase0 with h0 | ⟨hsid0, h0⟩
        · exact Or.inr ⟨List.mem_cons_of_mem _ hmem1, by rw [h1, h0]⟩
        · have hp1 : p.1 = sid := hpq1.trans hsid0
          refine Or.inr ⟨List.mem_cons_of_mem _ hmem1, ?_⟩
          rw [h1, h0, hp1]
          exact flushRule_idem results sid q.2
    · intro m hm
      rw [show flushAll results acc (sid :: rest) = flushAll results (flushStream results acc sid) rest from rfl] at hm
      rcases ih3 m hm with hm1 | ⟨hr, sid2, hsid2, e, he, data, hmd⟩
      · rcases flushStream_msgs results acc sid m hm1 with hm2 | ⟨hr, e, he, data, hmd⟩
        · exact Or.inl hm2
        · exact Or.inr ⟨hr, sid, List.mem_cons_self _ _, e, he, data, hmd⟩
      · exact Or.inr ⟨hr, sid2, List.mem_cons_of_mem _ hsid2, e, he, data, hmd⟩

theorem mem_insertSorted (s x : String) :
    ∀ l : List String, x ∈ insertSorted s l → x = s ∨ x ∈ l := by
  intro l
  induction l with
  | nil =>
    intro h
    simp [insertSorted] at h
    exact Or.inl h
  | cons y rest ih =>
    intro h
    unfold insertSorted at h
    by_cases hle : s ≤ y
    · rw [if_pos hle] at h
      rcases List.mem_cons.mp h with rfl | h'
      · exact Or.inl rfl
      · exact Or.inr h'
    · rw [if_neg hle] at h
      rcases List.mem_cons.mp h with rfl | h'
      · exact Or.inr (List.mem_cons_self _ _)
      · rcases ih h' with h2 | h2
        · exact Or.inl h2
        · exact Or.inr (List.mem_cons_of_mem _ h2)

theorem mem_sortStrings (x : String) :
    ∀ l : List String, x ∈ sortStrings l → x ∈ l := by
  intro l
  induction l with
  | nil => intro h; exact h
  | cons y rest ih =>
    intro h
    unfold sortStrings at h
    rcases mem_insertSorted y x _ h with rfl | h'
    · exact List.mem_cons_self _ _
    · exact List.mem_cons_of_mem _ (ih h')

theorem pendingStreams_mem (ps : PersistentState) (sid : String)
    (h : sid ∈ pendingStreams ps) :
    ∃ ts, (sid, ts) ∈ ps.streams ∧ ts.mode = tableModeBackfill := by
  unfold pendingStreams at h
  have h2 := mem_sortStrings sid _ h
  rw [List.mem_map] at h2
  obtain ⟨p, hp, hfst⟩ := h2
  rw [List.mem_filter] at hp
  refine ⟨p.2, ?_, by simpa using hp.2⟩
  rw [← hfst]
  exact hp.1

theorem nodup_key_eq {α : Type} (k : String) (a b : α) :
    ∀ l : List (String × α), (l.map Prod.fst).Nodup → (k, a) ∈ l → (k, b) ∈ l → a = b := by
  intro l
  induction l with
  | nil => intro _ ha; cases ha
  | cons p rest ih =>
    intro hnd ha hb
    simp only [List.map_cons, List.nodup_cons] at hnd
    rcases List.mem_cons.mp ha with rfl | ha'
    · rcases List.mem_cons.mp hb with heq | hb'
      · exact congrArg Prod.snd heq.symm
      · exact absurd (List.mem_map.mpr ⟨(k, b), hb', rfl⟩) hnd.1
    · rcases List.mem_cons.mp hb with rfl | hb'
      · exact absurd (List.mem_map.mpr ⟨(k, a), ha', rfl⟩) hnd.1
      · exact ih hnd.2 ha' hb'

theorem lookupS_none_not_mem {α : Type} (k : String) :
    ∀ l : List (String × α), lookupS k l = none → k ∉ l.map Prod.fst := by
  intro l
  induction l with
  | nil => intro _ h; simp at h
  | cons p rest ih =>
    intro h hmem
    by_cases hp : p.1 = k
    · simp [lookupS, hp] at h
    · simp only [lookupS, if_neg hp] at h
      rcases List.mem_cons.mp hmem with heq | hmem'
      · exact hp heq.symm
      · exact ih h hmem'

theorem rsStreams_setS (sid : String) (ch : backfillChunk) (rs : resultSet) :
    ∀ s ∈ rsStreams (setS sid ch rs), s = sid ∨ s ∈ rsStreams rs := by
  intro s hs
  unfold rsStreams at hs
  rw [List.mem_map] at hs
  obtain ⟨p, hp, hfst⟩ := hs
  rcases mem_setS sid ch p rs hp with rfl | hp'
  · exact Or.inl hfst.symm
  · exact Or.inr (by rw [← hfst]; exact List.mem_map.mpr ⟨p, hp', rfl⟩)

theorem bufferRows_mem (scanKey : List String) :
    ∀ (evts : List changeEvent) (rows : List (List Nat × changeEvent)),
      bufferRows scanKey evts = Except.ok rows → ∀ q ∈ rows, q.2 ∈ evts := by
  intro evts
  induction evts with
  | nil =>
    intro rows h q hq
    cases h
    cases hq
  | cons e rest ih =>
    intro rows h q hq
    unfold bufferRows at h
    cases hk : encodeRowKey scanKey e.fields with
    | error err => rw [hk] at h; cases h
    | ok key =>
      rw [hk] at h
      cases hr : bufferRows scanKey rest with
      | error err => rw [hr] at h; cases h
      | ok rows0 =>
        rw [hr] at h
        cases h
        rcases mem_insertRow key e q rows0 hq with rfl | hq'
        · exact List.mem_cons_self _ _
        · exact List.mem_cons_of_mem _ (ih rows0 hr q hq')

theorem rsChanges_mem (results : resultSet) (sid : String) (e : changeEvent)
    (he : e ∈ rsChanges results sid) :
    ∃ ch, lookupS sid results = some ch ∧ ∃ row ∈ ch.rows, row.2 = e := by
  unfold rsChanges at he
  cases hl : lookupS sid results with
  | none => rw [hl] at he; cases he
  | some ch =>
    rw [hl] at he
    dsimp only at he
    rw [List.mem_map] at he
    obtain ⟨row, hrow, hre⟩ := he
    exact ⟨ch, rfl, row, hrow, hre⟩

theorem emitBuffered_spec (c : Capture) (results : resultSet) :
    ((emitBuffered c results).1.state.streams.map Prod.fst = c.state.streams.map Prod.fst) ∧
    (emitBuffered c results).1.state.currentLSN = c.state.currentLSN ∧
    (∀ p ∈ (emitBuffered c results).1.state.streams,
      ∃ q ∈ c.state.streams, p.1 = q.1 ∧
        (p.2 = q.2 ∨ (p.1 ∈ rsStreams results ∧ p.2 = flushRule results p.1 q.2))) ∧
    (∀ m ∈ (emitBuffered c results).2,
      m = Message.state (emitBuffered c results).1.state ∨
      (isRecord m = true ∧ ∃ sid ∈ rsStreams results, ∃ e ∈ rsChanges results sid, ∃ data,
        m = Message.record e.ns e.table data)) := by
  obtain ⟨h1, hL, h2, h3⟩ := flushAll_spec results (rsStreams results) (c, [])
  refine ⟨h1, hL, h2, ?_⟩
  intro m hm
  simp only [emitBuffered, emitState] at hm
  rcases List.mem_append.mp hm with hm1 | hm2
  · rcases h3 m hm1 with hm0 | hrec
    · cases hm0
    · exact Or.inr hrec
  · rcases List.mem_singleton.mp hm2 with rfl
    exact Or.inl rfl

theorem flushAll_lookup_notin (results : resultSet) (sid : String) :
    ∀ (sids : List String) (acc : Capture × List Message), sid ∉ sids →
      lookupS sid (flushAll results acc sids).1.state.streams =
        lookupS sid acc.1.state.streams := by
  intro sids
  induction sids with
  | nil => intro acc _; rfl
  | cons sid0 rest ih =>
    intro acc hnotin
    have hne : ¬sid0 = sid := fun h => hnotin (h ▸ List.mem_cons_self sid0 rest)
    rw [show flushAll results acc (sid0 :: rest) =
      flushAll results (flushStream results acc sid0) rest from rfl]
    rw [ih _ (fun h => hnotin (List.mem_cons_of_mem _ h))]
    rw [(flushStream_state results acc sid0).1]
    exact updateTS_lookup_ne sid0 sid _ hne _

theorem flushAll_lookup_in (results : resultSet) (sid : String) :
    ∀ (sids : List String) (acc : Capture × List Message), sids.Nodup → sid ∈ sids →
      lookupS sid (flushAll results acc sids).1.state.streams =
        (lookupS sid acc.1.state.streams).map (flushRule results sid) := by
  intro sids
  induction sids with
  | nil => intro acc _ h; cases h
  | cons sid0 rest ih =>
    intro acc hnd hmem
    rw [List.nodup_cons] at hnd
    rw [show flushAll results acc (sid0 :: rest) =
      flushAll results (flushStream results acc sid0) rest from rfl]
    by_cases heq : sid0 = sid
    · subst heq
      rw [flushAll_lookup_notin results sid0 rest _ hnd.1]
      rw [(flushStream_state results acc sid0).1]
      exact updateTS_lookup_eq sid0 _ _
    · have hmem' : sid ∈ rest := by
        rcases List.mem_cons.mp hmem with rfl | h'
        · exact absurd rfl heq
        · exact h'
      rw [ih _ hnd.2 hmem']
      rw [(flushStream_state results acc sid0).1]
      rw [updateTS_lookup_ne sid0 sid _ heq]

/-- C4 part 1, at `emitBuffered` level: the flushed stream's `TableState`
after the flush. -/
theorem emitBuffered_lookup (c : Capture) (results : resultSet) (sid : String)
    (ts : TableState) (hnd : (rsStreams results).Nodup) (hmem : sid ∈ rsStreams results)
    (hts : lookupS sid c.state.streams = some ts) :
    lookupS sid (emitBuffered c results).1.state.streams =
      some (if rsComplete results sid then { ts with mode := tableModeActive, scanned := none }
            else { ts with scanned := rsScanned results sid }) := by
  have h := flushAll_lookup_in results sid (rsStreams results) (c, []) hnd hmem
  simp only [emitBuffered, emitState]
  rw [h, hts]
  rfl

theorem backfillStreams_spec (oracle : ScanOracle) (n : Nat) (c : Capture)
    (how : oracleWF oracle) :
    ∀ (sids : List String) (results0 results' : resultSet),
      backfillStreams oracle n c sids results0 = Except.ok results' →
      (∀ sid ∈ rsStreams results', sid ∈ rsStreams results0 ∨ sid ∈ sids) ∧
      (chunkEventsWF results0 → chunkEventsWF results') := by
  intro sids
  induction sids with
  | nil =>
    intro results0 results' h
    cases h
    exact ⟨fun sid hs => Or.inl hs, fun h => h⟩
  | cons sid0 rest ih =>
    intro results0 results' h
    unfold backfillStreams at h
    cases hl : lookupS sid0 c.state.streams with
    | none => rw [hl] at h; cases h
    | some ts =>
      rw [hl] at h
      dsimp only at h
      cases hb : rsBuffer n results0 sid0 ts.scanKey (oracle sid0 ts.scanKey ts.scanned) with
      | error e => rw [hb] at h; cases h
      | ok results1 =>
        rw [hb] at h
        obtain ⟨ih1, ih2⟩ := ih results1 results' h
        unfold rsBuffer at hb
        cases hbr : bufferRows ts.scanKey (oracle sid0 ts.scanKey ts.scanned) with
        | error e => rw [hbr] at hb; cases hb
        | ok rows =>
          rw [hbr] at hb
          cases hb
          constructor
          · intro sid hs
            rcases ih1 sid hs with hs1 | hs1
            · rcases rsStreams_setS sid0 _ results0 sid hs1 with rfl | hs2
              · exact Or.inr (List.mem_cons_self _ _)
              · exact Or.inl hs2
            · exact Or.inr (List.mem_cons_of_mem _ hs1)
          · intro hwf0
            refine ih2 ?_
            intro p hp row hrow
            rcases mem_setS sid0 _ p results0 hp with rfl | hp'
            · exact how sid0 ts.scanKey ts.scanned row.2
                (bufferRows_mem ts.scanKey _ rows hbr row hrow)
            · exact hwf0 p hp' row hrow

theorem phase2_spec (cfg : Config) :
    ∀ (events : List changeEvent) (c : Capture),
      (phase2 cfg c events).1.state.streams = c.state.streams ∧
      (∀ m ∈ (phase2 cfg c events).2,
        (∃ ps2, m = Message.state ps2 ∧ ps2.streams = c.state.streams) ∨
        (∃ ns stream data, m = Message.record ns stream data ∧
          ∃ ts, lookupS (joinStreamID ns stream) c.state.streams = some ts ∧
            ts.mode = tableModeActive)) := by
  intro events
  induction events with
  | nil => intro c; exact ⟨rfl, fun m hm => (List.not_mem_nil m hm).elim⟩
  | cons evt rest ih =>
    intro c
    unfold phase2
    by_cases hc : evt.type = "Commit"
    · rw [if_pos hc]
      by_cases hch : 0 < c.changesSinceLastCheckpoint
      · rw [if_pos hch]
        dsimp only
        obtain ⟨ih1, ih2⟩ := ih
          ((emitState { c with state := { c.state with currentLSN := evt.lsn } }
            { c with state := { c.state with currentLSN := evt.lsn } }.state).1)
        refine ⟨ih1.trans rfl, ?_⟩
        intro m hm
        rcases List.mem_cons.mp hm with rfl | hm'
        · exact Or.inl ⟨_, rfl, rfl⟩
        · rcases ih2 m hm' with ⟨ps2, hms, hps⟩ | ⟨ns, stream, data, hmr, ts, hts, hmode⟩
          · exact Or.inl ⟨ps2, hms, hps.trans rfl⟩
          · exact Or.inr ⟨ns, stream, data, hmr, ts, hts, hmode⟩
      · rw [if_neg hch]
        exact ih c
    · rw [if_neg hc]
      cases hl : lookupS (eventStreamID evt) c.state.streams with
      | none => exact ih c
      | some ts =>
        dsimp only
        by_cases hAct : ts.mode = tableModeActive
        · rw [if_pos hAct]
          dsimp only
          obtain ⟨ih1, ih2⟩ := ih (handleChangeEvent c evt).1
          refine ⟨ih1.trans rfl, ?_⟩
          intro m hm
          rcases List.mem_cons.mp hm with rfl | hm'
          · exact Or.inr ⟨evt.ns, evt.table, _, rfl, ts, hl, hAct⟩
          · rcases ih2 m hm' with ⟨ps2, hms, hps⟩ | ⟨ns, stream, data, hmr, ts2, hts, hmode⟩
            · exact Or.inl ⟨ps2, hms, hps.trans rfl⟩
            · exact Or.inr ⟨ns, stream, data, hmr, ts2, hts, hmode⟩
        · rw [if_neg hAct]
          exact ih c

theorem invA_congr (ps1 ps2 : PersistentState) (h : ps1.streams = ps2.streams)
    (h2 : invA ps2) : invA ps1 := by
  unfold invA at h2 ⊢
  rw [h]
  exact h2

theorem keysNodup_congr (ps1 ps2 : PersistentState) (h : ps1.streams = ps2.streams)
    (h2 : keysNodup ps2) : keysNodup ps1 := by
  unfold keysNodup at h2 ⊢
  rw [h]
  exact h2

theorem wtNotTracked_congr (cfg : Config) (ps1 ps2 : PersistentState)
    (h : ps1.streams = ps2.streams) (h2 : wtNotTracked cfg ps2) : wtNotTracked cfg ps1 := by
  unfold wtNotTracked at h2 ⊢
  rw [h]
  exact h2

theorem updateStreams_entries (dbKeys : List (String × List String)) :
    ∀ (cat : List CatalogStream) (streams : List (String × TableState)) (dirty : Bool)
      (out : List (String × TableState) × Bool),
      updateStreams dbKeys cat streams dirty = Except.ok out →
      ∀ p ∈ out.1, p ∈ streams ∨
        (∃ cs ∈ cat, p.1 = joinStreamID cs.ns cs.name ∧ p.2.mode = tableModeBackfill ∧
          p.2.scanned = none) := by
  intro cat
  induction cat with
  | nil =>
    intro streams dirty out h p hp
    cases h
    exact Or.inl hp
  | cons cs rest ih =>
    intro streams dirty out h p hp
    rw [updateStreams] at h
    cases hck : catalogKey cs.primaryKey with
    | error e => rw [hck] at h; cases h
    | ok catKey =>
      rw [hck] at h
      dsimp only at h
      by_cases hpk : (if catKey ≠ [] then catKey
          else (lookupS (joinStreamID cs.ns cs.name) dbKeys).getD []) = []
      · rw [if_pos hpk] at h; cases h
      · rw [if_neg hpk] at h
        cases hlc : lookupS (joinStreamID cs.ns cs.name) streams with
        | none =>
          rw [hlc] at h
          dsimp only at h
          rcases ih _ _ _ h p hp with hin | ⟨cs2, hcs2, hrest⟩
          · rcases List.mem_append.mp hin with hin1 | hin2
            · exact Or.inl hin1
            · rcases List.mem_singleton.mp hin2 with rfl
              exact Or.inr ⟨cs, List.mem_cons_self _ _, rfl, rfl, rfl⟩
          · exact Or.inr ⟨cs2, List.mem_cons_of_mem _ hcs2, hrest⟩
        | some ts0 =>
          rw [hlc] at h
          dsimp only at h
          by_cases hj : joinComma ts0.scanKey ≠ joinComma (if catKey ≠ [] then catKey
              else (lookupS (joinStreamID cs.ns cs.name) dbKeys).getD [])
          · rw [if_pos hj] at h; cases h
          · rw [if_neg hj] at h
            rcases ih _ _ _ h p hp with hin | ⟨cs2, hcs2, hrest⟩
            · exact Or.inl hin
            · exact Or.inr ⟨cs2, List.mem_cons_of_mem _ hcs2, hrest⟩

theorem updateStreams_nodup (dbKeys : List (String × List String)) :
    ∀ (cat : List CatalogStream) (streams : List (String × TableState)) (dirty : Bool)
      (out : List (String × TableState) × Bool),
      updateStreams dbKeys cat streams dirty = Except.ok out →
      (streams.map Prod.fst).Nodup → (out.1.map Prod.fst).Nodup := by
  intro cat
  induction cat with
  | nil =>
    intro streams dirty out h hnd
    cases h
    exact hnd
  | cons cs rest ih =>
    intro streams dirty out h hnd
    rw [updateStreams] at h
    cases hck : catalogKey cs.primaryKey with
    | error e => rw [hck] at h; cases h
    | ok catKey =>
      rw [hck] at h
      dsimp only at h
      by_cases hpk : (if catKey ≠ [] then catKey
          else (lookupS (joinStreamID cs.ns cs.name) dbKeys).getD []) = []
      · rw [if_pos hpk] at h; cases h
      · rw [if_neg hpk] at h
        cases hlc : lookupS (joinStreamID cs.ns cs.name) streams with
        | none =>
          rw [hlc] at h
          dsimp only at h
          refine ih _ _ _ h ?_
          rw [List.map_append]
          rw [List.nodup_append]
          refine ⟨hnd, List.nodup_singleton _, ?_⟩
          intro x hx hx2
          rcases List.mem_singleton.mp (by simpa using hx2) with rfl
          exact lookupS_none_not_mem _ streams hlc hx
        | some ts0 =>
          rw [hlc] at h
          dsimp only at h
          by_cases hj : joinComma ts0.scanKey ≠ joinComma (if catKey ≠ [] then catKey
              else (lookupS (joinStreamID cs.ns cs.name) dbKeys).getD [])
          · rw [if_pos hj] at h; cases h
          · rw [if_neg hj] at h
            exact ih _ _ _ h hnd

theorem updateState_spec (catalog : ConfiguredCatalog) (dbKeys : List (String × List String))
    (c c' : Capture) (msgs : List Message)
    (h : updateState catalog dbKeys c = Except.ok (c', msgs)) :
    (∀ p ∈ c'.state.streams, p ∈ c.state.streams ∨
      (∃ cs ∈ catalog.streams, p.1 = joinStreamID cs.ns cs.name ∧
        p.2.mode = tableModeBackfill ∧ p.2.scanned = none)) ∧
    (keysNodup c.state → keysNodup c'.state) ∧
    (∀ m ∈ msgs, m = Message.state c'.state) := by
  unfold updateState at h
  cases hu : updateStreams dbKeys catalog.streams c.state.streams false with
  | error e => rw [hu] at h; cases h
  | ok out =>
    rw [hu] at h
    dsimp only at h
    have hentry := updateStreams_entries dbKeys catalog.streams c.state.streams false out hu
    have hnodup := updateStreams_nodup dbKeys catalog.streams c.state.streams false out hu
    by_cases hd : (out.2 || (out.1.filter (fun p => catalog.streams.any
        (fun cs2 => joinStreamID cs2.ns cs2.name = p.1))).length ≠ out.1.length : Bool) = true
    · rw [if_pos hd] at h
      cases h
      refine ⟨?_, ?_, ?_⟩
      · intro p hp
        exact hentry p (List.mem_filter.mp hp).1
      · intro hnd
        unfold keysNodup at hnd ⊢
        exact List.Nodup.sublist (List.Sublist.map Prod.fst (List.filter_sublist out.1))
          (hnodup hnd)
      · intro m hm
        rcases List.mem_singleton.mp hm with rfl
        rfl
    · rw [if_neg hd] at h
      cases h
      refine ⟨?_, ?_, ?_⟩
      · intro p hp
        exact hentry p (List.mem_filter.mp hp).1
      · intro hnd
        unfold keysNodup at hnd ⊢
        exact List.Nodup.sublist (List.Sublist.map Prod.fst (List.filter_sublist out.1))
          (hnodup hnd)
      · intro m hm
        cases hm

/-- Invariants of the Phase-1 loop: every emitted State checkpoint satisfies
the Active-implies-no-scanned invariant, the final state keeps the
invariants, and — when the watermarks table is untracked — no emitted record
belongs to the watermarks table and the table stays untracked. -/
theorem streamLoop_invariants (cfg : Config) (oracle : ScanOracle) (n : Nat)
    (wms : Nat → String) (how : oracleWF oracle) :
    ∀ (fuel : Nat) (c : Capture) (results : resultSet) (wmIdx : Nat) (wm : String)
      (events : List changeEvent) (c' : Capture) (msgs : List Message)
      (evts' : List changeEvent),
      streamLoop cfg oracle n wms fuel c results wmIdx wm events =
        Except.ok (c', msgs, evts') →
      chunkEventsWF results →
      invA c.state → keysNodup c.state →
      (∀ p ∈ c.state.streams, p.1 ∈ rsStreams results → p.2.mode = tableModeBackfill) →
      ((∀ ps2, Message.state ps2 ∈ msgs → invA ps2) ∧
        invA c'.state ∧ keysNodup c'.state ∧
        (wtNotTracked cfg c.state →
          (∀ sid ∈ rsStreams results, ¬sid = cfg.watermarksTable) →
          ((∀ ns stream data, Message.record ns stream data ∈ msgs →
            ¬joinStreamID ns stream = cfg.watermarksTable) ∧
            wtNotTracked cfg c'.state))) := by
  intro fuel
  induction fuel with
  | zero =>
    intro c results wmIdx wm events c' msgs evts' h hchunk hA hnd hflush
    rw [streamLoop] at h
    by_cases hp : pendingStreams c.state = []
    · rw [if_pos hp] at h
      cases h
      exact ⟨fun ps2 hps2 => (List.not_mem_nil _ hps2).elim, hA, hnd,
        fun hwt _ => ⟨fun ns stream data hm => (List.not_mem_nil _ hm).elim, hwt⟩⟩
    · rw [if_neg hp] at h
      cases h
  | succ fuel ih =>
    intro c results wmIdx wm events c' msgs evts' h hchunk hA hnd hflush
    rw [streamLoop] at h
    by_cases hp : pendingStreams c.state = []
    · rw [if_pos hp] at h
      cases h
      exact ⟨fun ps2 hps2 => (List.not_mem_nil _ hps2).elim, hA, hnd,
        fun hwt _ => ⟨fun ns stream data hm => (List.not_mem_nil _ hm).elim, hwt⟩⟩
    · rw [if_neg hp] at h
      cases hdrain : streamToWatermark cfg wm c results events with
      | error e => rw [hdrain] at h; cases h
      | ok q1 =>
        rcases q1 with ⟨c1, results1, msgs1, events1⟩
        rw [hdrain] at h
        dsimp only at h
        obtain ⟨d1, d2, d3, d4, d5⟩ := drain_invariants cfg wm events false c results
          c1 results1 msgs1 events1 hdrain
        obtain ⟨e1, e2, e3, e4⟩ := emitBuffered_spec c1 results1
        have hA1 : invA c1.state := invA_congr _ _ d1 hA
        have hnd1 : keysNodup c1.state := keysNodup_congr _ _ d1 hnd
        have hflush1 : ∀ p ∈ c1.state.streams, p.1 ∈ rsStreams results1 →
            p.2.mode = tableModeBackfill := by
          intro p hp2 hmem
          rw [d1] at hp2
          rw [d2] at hmem
          exact hflush p hp2 hmem
        have hA2 : invA (emitBuffered c1 results1).1.state := by
          intro p hp2 hmode
          rcases e3 p hp2 with ⟨q, hq, hpq, hcase⟩
          rcases hcase with hcase | ⟨hmem, hcase⟩
          · exact hcase ▸ hA1 q hq (by rw [← hcase]; exact hmode)
          · have hqBF : q.2.mode = tableModeBackfill := hflush1 q hq (hpq ▸ hmem)
            unfold flushRule at hcase
            by_cases hcomp : rsComplete results1 p.1
            · rw [if_pos hcomp] at hcase
              rw [hcase]
            · rw [if_neg hcomp] at hcase
              rw [hcase] at hmode
              dsimp only at hmode
              rw [hqBF] at hmode
              exact absurd hmode (by decide)
        have hnd2 : keysNodup (emitBuffered c1 results1).1.state := by
          unfold keysNodup at hnd1 ⊢
          rw [e1]
          exact hnd1
        cases hscan : backfillStreams oracle n (emitBuffered c1 results1).1
            (pendingStreams (emitBuffered c1 results1).1.state) [] with
        | error e => rw [hscan] at h; cases h
        | ok results2 =>
          rw [hscan] at h
          dsimp only at h
          obtain ⟨s1, s2⟩ := backfillStreams_spec oracle n (emitBuffered c1 results1).1 how
            (pendingStreams (emitBuffered c1 results1).1.state) [] results2 hscan
          have hflush2 : ∀ p ∈ (emitBuffered c1 results1).1.state.streams,
              p.1 ∈ rsStreams results2 → p.2.mode = tableModeBackfill := by
            intro p hp2 hmem
            rcases s1 p.1 hmem with hmem0 | hmem0
            · cases hmem0
            · obtain ⟨ts, hts, htsBF⟩ := pendingStreams_mem _ _ hmem0
              have : ts = p.2 := nodup_key_eq p.1 ts p.2 _ hnd2 hts hp2
              rw [← this]
              exact htsBF
          have hchunk2 : chunkEventsWF results2 :=
            s2 (fun p hp2 => (List.not_mem_nil _ hp2).elim)
          cases hrec : streamLoop cfg oracle n wms fuel (emitBuffered c1 results1).1 results2
              (wmIdx + 1) (wms wmIdx) events1 with
          | error e => rw [hrec] at h; cases h
          | ok q3 =>
            rcases q3 with ⟨c3, msgs3, events3⟩
            rw [hrec] at h
            cases h
            obtain ⟨r1, r2, r3, r4⟩ := ih _ _ _ _ _ _ _ _ hrec hchunk2 hA2 hnd2 hflush2
            refine ⟨?_, r2, r3, ?_⟩
            · intro ps2 hps2
              rcases List.mem_append.mp hps2 with hm | hm
              rcases List.mem_append.mp hm with hm | hm
              · exact absurd (d3 _ hm) (by simp [isRecord])
              · rcases e4 _ hm with hms | ⟨hr, _⟩
                · cases hms
                  exact hA2
                · simp [isRecord] at hr
              · exact r1 ps2 hm
            · intro hwt hwtr
              have hwt1 : wtNotTracked cfg c1.state := wtNotTracked_congr cfg _ _ d1 hwt
              have hwtr1 : ∀ sid ∈ rsStreams results1, ¬sid = cfg.watermarksTable := by
                intro sid hs
                rw [d2] at hs
                exact hwtr sid hs
              have hwt2 : wtNotTracked cfg (emitBuffered c1 results1).1.state := by
                intro p hp2 hpwt
                rcases e3 p hp2 with ⟨q, hq, hpq, hcase⟩
                rcases hcase with hcase | ⟨hmem, _⟩
                · rw [hcase]
                  exact hwt1 q hq (hpq ▸ hpwt)
                · exact absurd hpwt (hwtr1 p.1 hmem)
              have hwtr2 : ∀ sid ∈ rsStreams results2, ¬sid = cfg.watermarksTable := by
                intro sid hs hswt
                rcases s1 sid hs with hs0 | hs0
                · cases hs0
                · obtain ⟨ts, hts, htsBF⟩ := pendingStreams_mem _ _ hs0
                  have := hwt2 (sid, ts) hts hswt
                  rw [htsBF] at this
                  exact absurd this (by decide)
              obtain ⟨rw1, rw2⟩ := r4 hwt2 hwtr2
              refine ⟨?_, rw2⟩
              intro ns stream data hm
              rcases List.mem_append.mp hm with hm | hm
              rcases List.mem_append.mp hm with hm | hm
              · obtain ⟨ts, hts, hmode⟩ := d4 ns stream data hm
                intro hjwt
                have := hwt ((joinStreamID ns stream), ts)
                  (lookupS_mem_pair _ _ _ hts) hjwt
                rcases hmode with hmode | hmode <;> rw [this] at hmode <;>
                  exact absurd hmode (by decide)
              · rcases e4 _ hm with hms | ⟨_, sid, hsid, ev, hev, data2, hmd⟩
                · cases hms
                · cases hmd
                  obtain ⟨ch, hch, row, hrow, hrowe⟩ := rsChanges_mem results1 sid ev hev
                  have hwf1 : chunkEventsWF results1 := d5 hchunk
                  have := hwf1 (sid, ch) (lookupS_mem_pair _ _ _ hch) row hrow
                  rw [hrowe] at this
                  rw [this]
                  exact hwtr1 sid hsid
              · exact rw1 ns stream data hm

/-- Invariants of the full change-streaming core (Phase 1 followed by
Phase 2). -/
theorem streamChanges_invariants (cfg : Config) (oracle : ScanOracle) (n : Nat)
    (wms : Nat → String) (how : oracleWF oracle) (fuel : Nat) (c : Capture)
    (events : List changeEvent) (c' : Capture) (msgs : List Message)
    (h : streamChanges cfg oracle n wms fuel c events = Except.ok (c', msgs))
    (hA : invA c.state) (hnd : keysNodup c.state) :
    ((∀ ps2, Message.state ps2 ∈ msgs → invA ps2) ∧ invA c'.state ∧ keysNodup c'.state ∧
      (wtNotTracked cfg c.state →
        ((∀ ns stream data, Message.record ns stream data ∈ msgs →
          ¬joinStreamID ns stream = cfg.watermarksTable) ∧ wtNotTracked cfg c'.state))) := by
  unfold streamChanges at h
  have hloop : ∀ (c1 : Capture) (msgs1 : List Message) (events1 : List changeEvent),
      (if pendingStreams c.state = [] then Except.ok (c, [], events)
       else streamLoop cfg oracle n wms fuel c [] 1 (wms 0) events) =
        Except.ok (c1, msgs1, events1) →
      ((∀ ps2, Message.state ps2 ∈ msgs1 → invA ps2) ∧ invA c1.state ∧ keysNodup c1.state ∧
        (wtNotTracked cfg c.state →
          ((∀ ns stream data, Message.record ns stream data ∈ msgs1 →
            ¬joinStreamID ns stream = cfg.watermarksTable) ∧ wtNotTracked cfg c1.state))) := by
    intro c1 msgs1 events1 hq
    by_cases hp : pendingStreams c.state = []
    · rw [if_pos hp] at hq
      cases hq
      exact ⟨fun ps2 hps2 => (List.not_mem_nil _ hps2).elim, hA, hnd,
        fun hwt => ⟨fun ns stream data hm => (List.not_mem_nil _ hm).elim, hwt⟩⟩
    · rw [if_neg hp] at hq
      obtain ⟨r1, r2, r3, r4⟩ := streamLoop_invariants cfg oracle n wms how fuel c [] 1
        (wms 0) events c1 msgs1 events1 hq
        (fun p hp2 => (List.not_mem_nil _ hp2).elim) hA hnd
        (fun p _ hmem => (List.not_mem_nil _ hmem).elim)
      exact ⟨r1, r2, r3, fun hwt =>
        r4 hwt (fun sid hs => (List.not_mem_nil _ hs).elim)⟩
  cases hq : (if pendingStreams c.state = [] then Except.ok (c, [], events)
      else streamLoop cfg oracle n wms fuel c [] 1 (wms 0) events) with
  | error e => rw [hq] at h; cases h
  | ok q1 =>
    rcases q1 with ⟨c1, msgs1, events1⟩
    rw [hq] at h
    cases h
    obtain ⟨r1, r2, r3, r4⟩ := hloop c1 msgs1 events1 hq
    obtain ⟨p1, p2⟩ := phase2_spec cfg events1 c1
    refine ⟨?_, ?_, ?_, ?_⟩
    · intro ps2 hps2
      rcases List.mem_append.mp hps2 with hm | hm
      · exact r1 ps2 hm
      · rcases p2 _ hm with ⟨ps3, hmsg, hstreams⟩ | ⟨ns, stream, data, hmr, _⟩
        · cases hmsg
          exact invA_congr _ _ hstreams r2
        · cases hmr
    · exact invA_congr _ _ p1 r2
    · exact keysNodup_congr _ _ p1 r3
    · intro hwt
      obtain ⟨rw1, rw2⟩ := r4 hwt
      refine ⟨?_, wtNotTracked_congr cfg _ _ p1 rw2⟩
      intro ns stream data hm
      rcases List.mem_append.mp hm with hm | hm
      · exact rw1 ns stream data hm
      · rcases p2 _ hm with ⟨ps3, hmsg, _⟩ | ⟨ns2, stream2, data2, hmr, ts, hts, hmode⟩
        · cases hmsg
        · cases hmr
          intro hjwt
          have := rw2 ((joinStreamID ns stream), ts) (lookupS_mem_pair _ _ _ hts) hjwt
          rw [this] at hmode
          exact absurd hmode (by decide)

/-- Invariants of the whole capture run (`updateState` then
`streamChanges`). -/
theorem runCapture_invariants (catalog : ConfiguredCatalog)
    (dbKeys : List (String × List String)) (cfg : Config) (oracle : ScanOracle) (n : Nat)
    (wms : Nat → String) (fuel : Nat) (ps : PersistentState) (events : List changeEvent)
    (c' : Capture) (msgs : List Message) (how : oracleWF oracle) (hA : invA ps)
    (hnd : keysNodup ps)
    (h : runCapture catalog dbKeys cfg oracle n wms fuel ps events = Except.ok (c', msgs)) :
    (∀ ps2, Message.state ps2 ∈ msgs → invA ps2) ∧
    ((wtNotTracked cfg ps ∧
      (∀ cs ∈ catalog.streams, ¬joinStreamID cs.ns cs.name = cfg.watermarksTable)) →
      ∀ ns stream data, Message.record ns stream data ∈ msgs →
        ¬joinStreamID ns stream = cfg.watermarksTable) := by
  unfold runCapture at h
  cases hu : updateState catalog dbKeys { state := ps, changesSinceLastCheckpoint := 0 } with
  | error e => rw [hu] at h; cases h
  | ok q1 =>
    rcases q1 with ⟨c1, msgs1⟩
    rw [hu] at h
    dsimp only at h
    obtain ⟨u1, u2, u3⟩ := updateState_spec catalog dbKeys _ c1 msgs1 hu
    have hA1 : invA c1.state := by
      intro p hp hmode
      rcases u1 p hp with hold | ⟨cs, _, _, hBF, hsc⟩
      · exact hA p hold hmode
      · rw [hBF] at hmode
        exact absurd hmode (by decide)
    have hnd1 : keysNodup c1.state := u2 hnd
    cases hs : streamChanges cfg oracle n wms fuel c1 events with
    | error e => rw [hs] at h; cases h
    | ok q2 =>
      rcases q2 with ⟨c2, msgs2⟩
      rw [hs] at h
      cases h
      obtain ⟨s1, s2, s3, s4⟩ := streamChanges_invariants cfg oracle n wms how fuel c1
        events c' msgs2 hs hA1 hnd1
      constructor
      · intro ps2 hps2
        rcases List.mem_append.mp hps2 with hm | hm
        · have h3 := u3 _ hm
          injection h3 with h3
          rw [h3]
          exact hA1
        · exact s1 ps2 hm
      · rintro ⟨hwt, hcat⟩
        have hwt1 : wtNotTracked cfg c1.state := by
          intro p hp hpwt
          rcases u1 p hp with hold | ⟨cs, hcs, hid, _, _⟩
          · exact hwt p hold hpwt
          · exact absurd (hid ▸ hpwt) (hcat cs hcs)
        obtain ⟨w1, _⟩ := s4 hwt1
        intro ns stream data hm
        rcases List.mem_append.mp hm with hm | hm
        · cases u3 _ hm
        · exact w1 ns stream data hm

/-- C4: flushing a buffered stream sets its `TableState` to Active with
`scanned` cleared when the chunk was complete and otherwise advances
`scanned` to the last emitted row key; consequently, in every State
checkpoint the capture emits (from a well-formed resumed state), a
`TableState` in Active mode carries no `scanned` position. -/
theorem c4_flush_rule_and_active_invariant :
    (∀ (c : Capture) (results : resultSet) (sid : String) (ts : TableState),
      (rsStreams results).Nodup → sid ∈ rsStreams results →
      lookupS sid c.state.streams = some ts →
      lookupS sid (emitBuffered c results).1.state.streams =
        some (if rsComplete results sid then { ts with mode := tableModeActive, scanned := none }
              else { ts with scanned := rsScanned results sid })) ∧
    (∀ (catalog : ConfiguredCatalog) (dbKeys : List (String × List String)) (cfg : Config)
      (oracle : ScanOracle) (n : Nat) (wms : Nat → String) (fuel : Nat)
      (ps : PersistentState) (events : List changeEvent) (c' : Capture)
      (msgs : List Message),
      oracleWF oracle → invA ps → keysNodup ps →
      runCapture catalog dbKeys cfg oracle n wms fuel ps events = Except.ok (c', msgs) →
      ∀ ps2, Message.state ps2 ∈ msgs → invA ps2) := by
  constructor
  · intro c results sid ts hnd hmem hts
    exact emitBuffered_lookup c results sid ts hnd hmem hts
  · intro catalog dbKeys cfg oracle n wms fuel ps events c' msgs how hA hnd h
    exact (runCapture_invariants catalog dbKeys cfg oracle n wms fuel ps events c' msgs
      how hA hnd h).1

/-- C7 (amended): provided the watermarks table is not a configured stream
(no catalog stream maps to it and any persisted entry for it is in Ignore
mode), no change event of the watermarks table is ever emitted downstream as
a record, neither by the Phase-1 drain nor by flushes nor in Phase-2
streaming. -/
theorem c7_watermark_never_emitted (catalog : ConfiguredCatalog)
    (dbKeys : List (String × List String)) (cfg : Config) (oracle : ScanOracle) (n : Nat)
    (wms : Nat → String) (fuel : Nat) (ps : PersistentState) (events : List changeEvent)
    (c' : Capture) (msgs : List Message)
    (how : oracleWF oracle) (hA : invA ps) (hnd : keysNodup ps)
    (hwt : wtNotTracked cfg ps)
    (hcat : ∀ cs ∈ catalog.streams, ¬joinStreamID cs.ns cs.name = cfg.watermarksTable)
    (h : runCapture catalog dbKeys cfg oracle n wms fuel ps events = Except.ok (c', msgs)) :
    ∀ ns stream data, Message.record ns stream data ∈ msgs →
      ¬joinStreamID ns stream = cfg.watermarksTable :=
  (runCapture_invariants catalog dbKeys cfg oracle n wms fuel ps events c' msgs
    how hA hnd h).2 ⟨hwt, hcat⟩

/-- The concrete scan oracle `oracleT` is faithful to `ScanTableChunk`. -/
theorem oracleT_wf : oracleWF oracleT := by
  intro sid key resume e he
  unfold oracleT at he
  by_cases h : sid = "public.t" ∧ resume = none
  · rw [if_pos h] at he
    have he2 := List.mem_singleton.mp he
    rw [he2, h.1]
    decide
  · rw [if_neg h] at he
    cases he

theorem c4_flush_rule_and_active_invariant_witness :
    oracleWF oracleT ∧ invA psT3 :=
  ⟨oracleT_wf,
    (c4_flush_rule_and_active_invariant.2 catT [] cfgW oracleT 2 wmsT 3 psEmpty eventsT
      capTEnd msgsT oracleT_wf (by intro p hp h; cases hp) (by exact List.nodup_nil)
      (by rfl) psT3 (by decide))⟩

/-- When the watermarks table is itself configured as a captured stream, the
capture does emit Record messages on the watermarks table: the backfill scans
it and the flush publishes its rows (including patched-in watermark writes)
downstream, contradicting the claim that watermark events are never emitted. -/
theorem c7_watermark_emitted_cex :
    (match runCapture catWT [] cfgW oracleWT 2 wmsT 4 psEmpty eventsWT with
     | Except.ok (_, msgs) => msgs.any (recordOn cfgW.watermarksTable)
     | Except.error _ => false) = true := by decide

theorem c7_watermark_never_emitted_witness :
    wtNotTracked cfgW psEmpty ∧ ¬joinStreamID "public" "t" = cfgW.watermarksTable :=
  ⟨(by intro p hp h; cases hp),
    c7_watermark_never_emitted catT [] cfgW oracleT 2 wmsT 3 psEmpty eventsT capTEnd msgsT
      oracleT_wf (by intro p hp h; cases hp) (by exact List.nodup_nil)
      (by intro p hp h; cases hp) (by decide) (by rfl)
      "public" "t" rowT (by decide)⟩

/-- The message `handleChangeEvent` produces does not depend on the capture
state. -/
theorem handleChangeEvent_snd (c : Capture) (evt : changeEvent) :
    (handleChangeEvent c evt).2 = Message.record evt.ns evt.table (recordData evt) := rfl

/-- The exact messages the emission loop appends: one record per event. -/
theorem emitEvents_msgs :
    ∀ (evts : List changeEvent) (acc : Capture × List Message),
      (emitEvents acc evts).2 = acc.2 ++ recordMsgs evts := by
  intro evts
  induction evts with
  | nil => intro acc; simp [emitEvents, recordMsgs]
  | cons evt rest ih =>
    intro acc
    unfold emitEvents
    rw [ih ((handleChangeEvent acc.1 evt).1, acc.2 ++ [(handleChangeEvent acc.1 evt).2])]
    rw [handleChangeEvent_snd, List.append_assoc]
    simp [recordMsgs]

/-- The exact messages one stream flush appends. -/
theorem flushStream_msgs_exact (results : resultSet) (acc : Capture × List Message)
    (sid : String) :
    (flushStream results acc sid).2 = acc.2 ++ recordMsgs (rsChanges results sid) := by
  show (emitEvents acc (rsChanges results sid)).2 = _
  exact emitEvents_msgs _ _

/-- Exact characterization of the `emitBuffered` flush loop: the appended
messages and the stream-table updates are pure functions of the result
set. -/
theorem flushAll_exact (results : resultSet) :
    ∀ (sids : List String) (acc : Capture × List Message),
      (flushAll results acc sids).2 = acc.2 ++ flushMsgs results sids ∧
      (flushAll results acc sids).1.state.streams =
        flushStreams results acc.1.state.streams sids ∧
      (flushAll results acc sids).1.state.currentLSN = acc.1.state.currentLSN := by
  intro sids
  induction sids with
  | nil => intro acc; exact ⟨by simp [flushAll, flushMsgs], rfl, rfl⟩
  | cons sid rest ih =>
    intro acc
    obtain ⟨ih1, ih2, ih3⟩ := ih (flushStream results acc sid)
    obtain ⟨hs, hLSN⟩ := flushStream_state results acc sid
    refine ⟨?_, ?_, ?_⟩
    · rw [show flushAll results acc (sid :: rest) =
        flushAll results (flushStream results acc sid) rest from rfl,
        ih1, flushStream_msgs_exact, List.append_assoc]
      rfl
    · rw [show flushAll results acc (sid :: rest) =
        flushAll results (flushStream results acc sid) rest from rfl, ih2, hs]
      rfl
    · rw [show flushAll results acc (sid :: rest) =
        flushAll results (flushStream results acc sid) rest from rfl, ih3, hLSN]

/-- The capture state after `emitBuffered`: the log position is untouched
and the stream tables are updated per `flushStreams`. -/
theorem emitBuffered_fst_state (c : Capture) (results : resultSet) :
    (emitBuffered c results).1.state =
      { currentLSN := c.state.currentLSN,
        streams := flushStreams results c.state.streams (rsStreams results) } := by
  obtain ⟨-, h2, h3⟩ := flushAll_exact results (rsStreams results) (c, [])
  show (flushAll results (c, []) (rsStreams results)).1.state = _
  have he : (flushAll results (c, []) (rsStreams results)).1.state =
      ⟨(flushAll results (c, []) (rsStreams results)).1.state.currentLSN,
       (flushAll results (c, []) (rsStreams results)).1.state.streams⟩ := rfl
  rw [he, h2, h3]

theorem emitBuffered_fst_changes (c : Capture) (results : resultSet) :
    (emitBuffered c results).1.changesSinceLastCheckpoint = 0 := rfl

/-- The exact messages `emitBuffered` emits: the flushed records followed by
one State checkpoint carrying the updated state. -/
theorem emitBuffered_snd (c : Capture) (results : resultSet) :
    (emitBuffered c results).2 =
      flushMsgs results (rsStreams results) ++
        [Message.state (emitBuffered c results).1.state] := by
  obtain ⟨h1, -, -⟩ := flushAll_exact results (rsStreams results) (c, [])
  show (flushAll results (c, []) (rsStreams results)).2 ++
      [Message.state (flushAll results (c, []) (rsStreams results)).1.state] = _
  rw [h1]
  rfl

/-- Every flushed message is a Record. -/
theorem flushMsgs_records (results : resultSet) :
    ∀ sids, ∀ m ∈ flushMsgs results sids, isRecord m = true := by
  intro sids
  induction sids with
  | nil => intro m hm; cases hm
  | cons sid rest ih =>
    intro m hm
    rw [show flushMsgs results (sid :: rest) =
      recordMsgs (rsChanges results sid) ++ flushMsgs results rest from rfl] at hm
    rcases List.mem_append.mp hm with hm | hm
    · unfold recordMsgs at hm
      rw [List.mem_map] at hm
      obtain ⟨e, -, rfl⟩ := hm
      rfl
    · exact ih m hm

theorem recordsOf_append (a b : List Message) :
    recordsOf (a ++ b) = recordsOf a ++ recordsOf b := List.filter_append a b

theorem recordsOf_state (ps : PersistentState) (l : List Message) :
    recordsOf (Message.state ps :: l) = recordsOf l := rfl

theorem recordsOf_all (l : List Message) (h : ∀ m ∈ l, isRecord m = true) :
    recordsOf l = l := List.filter_eq_self.mpr h

theorem recordsOf_eq_nil (l : List Message) (h : ∀ m ∈ l, ∃ ps, m = Message.state ps) :
    recordsOf l = [] := by
  induction l with
  | nil => rfl
  | cons m rest ih =>
    obtain ⟨ps, rfl⟩ := h m (List.mem_cons_self _ _)
    rw [recordsOf_state]
    exact ih (fun m2 hm2 => h m2 (List.mem_cons_of_mem _ hm2))

theorem scanShapeEq_refl (a : List (String × TableState)) : scanShapeEq a a :=
  ⟨rfl, fun _ ts h => ⟨ts, h, rfl⟩⟩

theorem scanShapeEq_trans (a b c : List (String × TableState))
    (h1 : scanShapeEq a b) (h2 : scanShapeEq b c) : scanShapeEq a c := by
  refine ⟨h1.1.trans h2.1, ?_⟩
  intro sid ts h
  obtain ⟨ts2, hb, hk2⟩ := h1.2 sid ts h
  obtain ⟨ts3, hcl, hk3⟩ := h2.2 sid ts2 hb
  exact ⟨ts3, hcl, hk3.trans hk2⟩

theorem scanShapeEq_updateTS (b : List (String × TableState)) (sid : String)
    (f : TableState → TableState) (hf : ∀ ts, (f ts).scanKey = ts.scanKey) :
    scanShapeEq b (updateTS b sid f) := by
  refine ⟨(updateTS_map_fst b sid f).symm, ?_⟩
  intro k ts h
  by_cases hk : sid = k
  · subst hk
    rw [updateTS_lookup_eq sid f b, h]
    exact ⟨f ts, rfl, hf ts⟩
  · rw [updateTS_lookup_ne sid k f hk b]
    exact ⟨ts, h, rfl⟩

/-- Flushing never changes a stream's scan key. -/
theorem flushRule_scanKey (results : resultSet) (sid : String) (ts : TableState) :
    (flushRule results sid ts).scanKey = ts.scanKey := by
  unfold flushRule
  by_cases h : rsComplete results sid <;> simp [h]

theorem flushStreams_shape (results : resultSet) :
    ∀ (sids : List String) (streams : List (String × TableState)),
      scanShapeEq streams (flushStreams results streams sids) := by
  intro sids
  induction sids with
  | nil => intro streams; exact scanShapeEq_refl streams
  | cons sid rest ih =>
    intro streams
    exact scanShapeEq_trans _ _ _
      (scanShapeEq_updateTS streams sid (flushRule results sid) (flushRule_scanKey results sid))
      (ih _)

theorem wtUntracked_updateTS (cfg : Config) (streams : List (String × TableState))
    (sid : String) (f : TableState → TableState) (hw : wtUntracked cfg streams)
    (hne : ¬sid = cfg.watermarksTable) : wtUntracked cfg (updateTS streams sid f) := by
  intro p hp hpwt
  obtain ⟨q, hq, hq1, hcase⟩ := updateTS_mem streams sid f p hp
  rcases hcase with h | ⟨hps, -⟩
  · rw [h]
    exact hw q hq (hq1.symm.trans hpwt)
  · exact absurd (hps.symm.trans hpwt) hne

theorem wtUntracked_flushStreams (cfg : Config) (results : resultSet) :
    ∀ (sids : List String) (streams : List (String × TableState)),
      wtUntracked cfg streams → (∀ sid ∈ sids, ¬sid = cfg.watermarksTable) →
      wtUntracked cfg (flushStreams results streams sids) := by
  intro sids
  induction sids with
  | nil => intro streams hw _; exact hw
  | cons sid rest ih =>
    intro streams hw hns
    exact ih _ (wtUntracked_updateTS cfg streams sid _ hw (hns sid (List.mem_cons_self _ _)))
      (fun s hs => hns s (List.mem_cons_of_mem _ hs))

/-- Pending (Backfill) streams never include the watermarks table when it is
untracked. -/
theorem pending_not_wt (cfg : Config) (ps : PersistentState)
    (hw : wtUntracked cfg ps.streams) :
    ∀ sid ∈ pendingStreams ps, ¬sid = cfg.watermarksTable := by
  intro sid hsid heq
  obtain ⟨ts, hmem, hmode⟩ := pendingStreams_mem ps sid hsid
  have h2 := hw (sid, ts) hmem heq
  rw [hmode] at h2
  exact absurd h2 (by decide)

theorem pendingStreams_congr (ps1 ps2 : PersistentState) (h : ps1.streams = ps2.streams) :
    pendingStreams ps1 = pendingStreams ps2 := by
  unfold pendingStreams
  rw [h]

/-- `backfillStreams` depends on the capture only through its streams map. -/
theorem backfillStreams_congr (oracle : ScanOracle) (n : Nat) (cA cB : Capture)
    (h : cA.state.streams = cB.state.streams) :
    ∀ (sids : List String) (results : resultSet),
      backfillStreams oracle n cA sids results = backfillStreams oracle n cB sids results := by
  intro sids
  induction sids with
  | nil => intro results; rfl
  | cons sid rest ih =>
    intro results
    unfold backfillStreams
    rw [h]
    cases hl : lookupS sid cB.state.streams with
    | none => rfl
    | some ts =>
      dsimp only
      cases hb : rsBuffer n results sid ts.scanKey (oracle sid ts.scanKey ts.scanned) with
      | error e => rfl
      | ok results1 => exact ih results1

theorem rsBuffer_ok (n : Nat) (rs : resultSet) (sid : String) (key : List String)
    (evts : List changeEvent) (out : resultSet)
    (h : rsBuffer n rs sid key evts = Except.ok out) :
    ∃ ch, out = setS sid ch rs := by
  unfold rsBuffer at h
  cases hb : bufferRows key evts with
  | error e => rw [hb] at h; cases h
  | ok rows =>
    rw [hb] at h
    cases h
    exact ⟨_, rfl⟩

/-- The streams a chunk-scan buffers all come from the scanned list (or were
already buffered). -/
theorem backfillStreams_streams (oracle : ScanOracle) (n : Nat) (c : Capture) :
    ∀ (sids : List String) (results0 results : resultSet),
      backfillStreams oracle n c sids results0 = Except.ok results →
      ∀ sid ∈ rsStreams results, sid ∈ rsStreams results0 ∨ sid ∈ sids := by
  intro sids
  induction sids with
  | nil =>
    intro results0 results h sid hsid
    cases h
    exact Or.inl hsid
  | cons s rest ih =>
    intro results0 results h sid hsid
    unfold backfillStreams at h
    cases hl : lookupS s c.state.streams with
    | none => rw [hl] at h; cases h
    | some ts =>
      rw [hl] at h
      dsimp only at h
      cases hb : rsBuffer n results0 s ts.scanKey (oracle s ts.scanKey ts.scanned) with
      | error e => rw [hb] at h; cases h
      | ok results1 =>
        rw [hb] at h
        dsimp only at h
        obtain ⟨ch, rfl⟩ := rsBuffer_ok n results0 s ts.scanKey _ results1 hb
        rcases ih _ _ h sid hsid with hmem | hmem
        · rcases rsStreams_setS s ch results0 sid hmem with rfl | hmem0
          · exact Or.inr (List.mem_cons_self _ _)
          · exact Or.inl hmem0
        · exact Or.inr (List.mem_cons_of_mem _ hmem)

/-- Draining quiescent traffic (Commits and watermark-table events only,
with the watermarks table untracked) succeeds, emits nothing, leaves the
result set and the streams map untouched, and leaves a quiescent suffix. -/
theorem drain_wtOnly (cfg : Config) (wm : String) :
    ∀ (events : List changeEvent) (reached : Bool) (c : Capture) (results : resultSet),
      wtOnly cfg events → wtUntracked cfg c.state.streams →
      ∃ c1 events1,
        streamToWatermarkAux cfg wm reached c results events =
          Except.ok (c1, results, [], events1) ∧
        c1.state.streams = c.state.streams ∧
        c1.changesSinceLastCheckpoint = c.changesSinceLastCheckpoint ∧
        wtOnly cfg events1 := by
  intro events
  induction events with
  | nil =>
    intro reached c results _ _
    exact ⟨c, [], rfl, rfl, rfl, fun e he => absurd he (List.not_mem_nil e)⟩
  | cons evt rest ih =>
    intro reached c results hq hw
    have hqrest : wtOnly cfg rest := fun e he => hq e (List.mem_cons_of_mem _ he)
    by_cases ht : evt.type = "Commit"
    · cases reached with
      | true =>
        refine ⟨{ c with state := { c.state with currentLSN := evt.lsn } }, rest, ?_, rfl, rfl,
          hqrest⟩
        unfold streamToWatermarkAux
        rw [if_pos ht]
        dsimp only
        rw [if_pos rfl]
      | false =>
        obtain ⟨c1, ev1, heq, hs, hch, hq1⟩ :=
          ih false { c with state := { c.state with currentLSN := evt.lsn } } results hqrest hw
        refine ⟨c1, ev1, ?_, hs, hch, hq1⟩
        unfold streamToWatermarkAux
        rw [if_pos ht]
        dsimp only
        rw [if_neg (by decide : ¬false = true)]
        exact heq
    · have hsid : eventStreamID evt = cfg.watermarksTable :=
        (hq evt (List.mem_cons_self _ _)).resolve_left ht
      have hlw : ∀ ts, lookupS cfg.watermarksTable c.state.streams = some ts →
          ts.mode = tableModeIgnore :=
        fun ts hl => hw (cfg.watermarksTable, ts) (lookupS_mem_pair _ _ _ hl) rfl
      unfold streamToWatermarkAux
      rw [if_neg ht]
      dsimp only
      rw [hsid]
      cases hl : lookupS cfg.watermarksTable c.state.streams with
      | none =>
        dsimp only
        exact ih _ c results hqrest hw
      | some ts =>
        dsimp only
        rw [if_pos (hlw ts hl)]
        exact ih _ c results hqrest hw

/-- Phase 2 over quiescent traffic emits nothing when no record is pending a
checkpoint. -/
theorem phase2_wtOnly (cfg : Config) :
    ∀ (events : List changeEvent) (c : Capture),
      wtOnly cfg events → wtUntracked cfg c.state.streams →
      c.changesSinceLastCheckpoint = 0 →
      (phase2 cfg c events).2 = [] := by
  intro events
  induction events with
  | nil => intro c _ _ _; rfl
  | cons evt rest ih =>
    intro c hq hw hc
    have hqrest : wtOnly cfg rest := fun e he => hq e (List.mem_cons_of_mem _ he)
    by_cases ht : evt.type = "Commit"
    · unfold phase2
      rw [if_pos ht]
      have hz : ¬0 < c.changesSinceLastCheckpoint := by
        rw [hc]
        exact Nat.lt_irrefl 0
      rw [if_neg hz]
      exact ih c hqrest hw hc
    · have hsid : eventStreamID evt = cfg.watermarksTable :=
        (hq evt (List.mem_cons_self _ _)).resolve_left ht
      unfold phase2
      rw [if_neg ht, hsid]
      cases hl : lookupS cfg.watermarksTable c.state.streams with
      | none =>
        dsimp only
        exact ih c hqrest hw hc
      | some ts =>
        dsimp only
        have hmode := hw (cfg.watermarksTable, ts) (lookupS_mem_pair _ _ _ hl) rfl
        have hna : ¬ts.mode = tableModeActive := by
          rw [hmode]
          decide
        rw [if_neg hna]
        exact ih c hqrest hw hc

/-- Quiescent replication traffic consists of watermark-table events and
Commits only. -/
theorem quiescentEvents_wtOnly (cfg : Config) (ns tbl slot : String) (wms : Nat → String)
    (hid : joinStreamID ns tbl = cfg.watermarksTable) :
    ∀ (k start : Nat), wtOnly cfg (quiescentEvents ns tbl slot wms start k) := by
  intro k
  induction k with
  | zero => intro start e he; cases he
  | succ k2 ih =>
    intro start e he
    rcases List.mem_cons.mp he with rfl | he2
    · exact Or.inr hid
    · rcases List.mem_cons.mp he2 with rfl | he3
      · exact Or.inl rfl
      · exact ih (start + 1) e he3

/-- Reconciledness only depends on keys and scan keys. -/
theorem reconciled_shape (catalog : ConfiguredCatalog) (dbKeys : List (String × List String))
    (a b : List (String × TableState)) (hr : reconciled catalog dbKeys a)
    (hs : scanShapeEq a b) : reconciled catalog dbKeys b := by
  constructor
  · intro cs hcs
    obtain ⟨catKey, h1, h2, ts, h3, h4⟩ := hr.1 cs hcs
    obtain ⟨ts2, h5, h6⟩ := hs.2 _ ts h3
    exact ⟨catKey, h1, h2, ts2, h5, by rw [h6, h4]⟩
  · intro p hp
    have hpf : p.1 ∈ b.map Prod.fst := List.mem_map.mpr ⟨p, hp, rfl⟩
    rw [← hs.1] at hpf
    rw [List.mem_map] at hpf
    obtain ⟨q, hq, hq1⟩ := hpf
    obtain ⟨cs, hcs, hj⟩ := hr.2 q hq
    exact ⟨cs, hcs, by rw [hj, hq1]⟩

/-- `updateStreams` is the identity on a streams map against which every
configured stream is already reconciled. -/
theorem updateStreams_reconciled (dbKeys : List (String × List String)) :
    ∀ (csl : List CatalogStream) (streams : List (String × TableState)) (dirty : Bool),
      (∀ cs ∈ csl, streamReconciled dbKeys streams cs) →
      updateStreams dbKeys csl streams dirty = Except.ok (streams, dirty) := by
  intro csl
  induction csl with
  | nil => intro streams dirty _; rfl
  | cons cs rest ih =>
    intro streams dirty h
    obtain ⟨catKey, h1, h2, ts, h3, h4⟩ := h cs (List.mem_cons_self _ _)
    unfold effectiveKey at h2 h4
    unfold updateStreams
    rw [h1]
    dsimp only
    rw [if_neg h2, h3]
    dsimp only
    rw [if_neg (fun hne => hne h4)]
    exact ih streams dirty (fun cs2 hcs2 => h cs2 (List.mem_cons_of_mem _ hcs2))

/-- `updateState` is a no-op (and emits nothing) on a reconciled state. -/
theorem updateState_reconciled (catalog : ConfiguredCatalog)
    (dbKeys : List (String × List String)) (c : Capture)
    (h : reconciled catalog dbKeys c.state.streams) :
    updateState catalog dbKeys c = Except.ok (c, []) := by
  unfold updateState
  rw [updateStreams_reconciled dbKeys catalog.streams c.state.streams false h.1]
  dsimp only
  have hkept : c.state.streams.filter
      (fun p => catalog.streams.any (fun cs => joinStreamID cs.ns cs.name = p.1)) =
      c.state.streams := by
    apply List.filter_eq_self.mpr
    intro p hp
    obtain ⟨cs, hcs, hj⟩ := h.2 p hp
    exact List.any_eq_true.mpr ⟨cs, hcs, decide_eq_true hj⟩
  rw [hkept]
  rw [if_neg (by simp)]

/-- Successful `updateStreams` runs only extend the map and leave every
configured stream reconciled against the result. -/
theorem updateStreams_ok_sound (dbKeys : List (String × List String)) :
    ∀ (csl : List CatalogStream) (streams : List (String × TableState)) (dirty : Bool)
      (out : List (String × TableState) × Bool),
      updateStreams dbKeys csl streams dirty = Except.ok out →
      (∀ sid ts, lookupS sid streams = some ts → lookupS sid out.1 = some ts) ∧
      (∀ cs ∈ csl, streamReconciled dbKeys out.1 cs) := by
  intro csl
  induction csl with
  | nil =>
    intro streams dirty out h
    cases h
    exact ⟨fun _ _ h2 => h2, fun cs hcs => absurd hcs (List.not_mem_nil cs)⟩
  | cons cs rest ih =>
    intro streams dirty out h
    unfold updateStreams at h
    cases hck : catalogKey cs.primaryKey with
    | error e => rw [hck] at h; cases h
    | ok catKey =>
      rw [hck] at h
      dsimp only at h
      have hek : effectiveKey dbKeys cs catKey =
          (if catKey ≠ [] then catKey
           else (lookupS (joinStreamID cs.ns cs.name) dbKeys).getD []) := rfl
      rw [← hek] at h
      by_cases hpk : effectiveKey dbKeys cs catKey = []
      · rw [if_pos hpk] at h
        cases h
      · rw [if_neg hpk] at h
        cases hl : lookupS (joinStreamID cs.ns cs.name) streams with
        | none =>
          rw [hl] at h
          dsimp only at h
          obtain ⟨mono, hrest⟩ := ih _ _ _ h
          have hfresh0 : lookupS (joinStreamID cs.ns cs.name)
              (streams ++ [(joinStreamID cs.ns cs.name, { mode := tableModeBackfill, scanKey := effectiveKey dbKeys cs catKey, scanned := none })]) =
              some { mode := tableModeBackfill, scanKey := effectiveKey dbKeys cs catKey, scanned := none } := by
            rw [lookupS_append_none _ _ _ hl]
            simp [lookupS]
          refine ⟨?_, ?_⟩
          · intro sid ts hlk
            exact mono sid ts (lookupS_append_some _ _ _ _ hlk)
          · intro cs2 hcs2
            rcases List.mem_cons.mp hcs2 with rfl | hcs3
            · exact ⟨catKey, hck, hpk, _, mono _ _ hfresh0, rfl⟩
            · exact hrest cs2 hcs3
        | some ts =>
          rw [hl] at h
          dsimp only at h
          by_cases hje : joinComma ts.scanKey ≠ joinComma (effectiveKey dbKeys cs catKey)
          · rw [if_pos hje] at h
            cases h
          · rw [if_neg hje] at h
            obtain ⟨mono, hrest⟩ := ih _ _ _ h
            refine ⟨mono, ?_⟩
            intro cs2 hcs2
            rcases List.mem_cons.mp hcs2 with rfl | hcs3
            · exact ⟨catKey, hck, hpk, ts, mono _ ts hl, not_not.mp hje⟩
            · exact hrest cs2 hcs3

/-- A successful `updateState` leaves a reconciled state behind. -/
theorem updateState_ok_reconciled (catalog : ConfiguredCatalog)
    (dbKeys : List (String × List String)) (c c' : Capture) (msgs : List Message)
    (h : updateState catalog dbKeys c = Except.ok (c', msgs)) :
    reconciled catalog dbKeys c'.state.streams := by
  unfold updateState at h
  cases hu : updateStreams dbKeys catalog.streams c.state.streams false with
  | error e => rw [hu] at h; cases h
  | ok out =>
    rw [hu] at h
    dsimp only at h
    obtain ⟨mono, hok⟩ := updateStreams_ok_sound dbKeys catalog.streams c.state.streams false
      out hu
    have hstreams : c'.state.streams = out.1.filter
        (fun p => catalog.streams.any (fun cs => joinStreamID cs.ns cs.name = p.1)) := by
      by_cases hd : (out.2 || (out.1.filter (fun p => catalog.streams.any
          (fun cs2 => joinStreamID cs2.ns cs2.name = p.1))).length ≠ out.1.length : Bool) = true
      · rw [if_pos hd] at h
        cases h
        rfl
      · rw [if_neg hd] at h
        cases h
        rfl
    rw [hstreams]
    constructor
    · intro cs hcs
      obtain ⟨catKey, h1, h2, ts, h3, h4⟩ := hok cs hcs
      refine ⟨catKey, h1, h2, ts, ?_, h4⟩
      rw [lookupS_filter_congr _ _ ?_ out.1]
      · exact h3
      · intro v
        exact List.any_eq_true.mpr ⟨cs, hcs, decide_eq_true rfl⟩
    · intro p hp
      rw [List.mem_filter] at hp
      obtain ⟨cs, hcs, hdec⟩ := List.any_eq_true.mp hp.2
      exact ⟨cs, hcs, of_decide_eq_true hdec⟩

/-- `updateState` either keeps or resets the changes-since-checkpoint
counter. -/
theorem updateState_changes (catalog : ConfiguredCatalog)
    (dbKeys : List (String × List String)) (c c' : Capture) (msgs : List Message)
    (h : updateState catalog dbKeys c = Except.ok (c', msgs)) :
    c'.changesSinceLastCheckpoint = c.changesSinceLastCheckpoint ∨
      c'.changesSinceLastCheckpoint = 0 := by
  unfold updateState at h
  cases hu : updateStreams dbKeys catalog.streams c.state.streams false with
  | error e => rw [hu] at h; cases h
  | ok out =>
    rw [hu] at h
    dsimp only at h
    by_cases hd : (out.2 || (out.1.filter (fun p => catalog.streams.any
        (fun cs2 => joinStreamID cs2.ns cs2.name = p.1))).length ≠ out.1.length : Bool) = true
    · rw [if_pos hd] at h
      cases h
      exact Or.inr rfl
    · rw [if_neg hd] at h
      cases h
      exact Or.inl rfl

/-- `updateState` keeps the watermarks table untracked when the catalog does
not configure it. -/
theorem updateState_wtUntracked (catalog : ConfiguredCatalog)
    (dbKeys : List (String × List String)) (cfg : Config) (c c' : Capture)
    (msgs : List Message) (h : updateState catalog dbKeys c = Except.ok (c', msgs))
    (hwt : wtUntracked cfg c.state.streams)
    (hcat : ∀ cs ∈ catalog.streams, ¬joinStreamID cs.ns cs.name = cfg.watermarksTable) :
    wtUntracked cfg c'.state.streams := by
  intro p hp hpwt
  obtain ⟨u1, -, -⟩ := updateState_spec catalog dbKeys c c' msgs h
  rcases u1 p hp with hold | ⟨cs, hcs, hid, -, -⟩
  · exact hwt p hold hpwt
  · exact absurd (hid.symm.trans hpwt) (hcat cs hcs)

/-- The Phase-1 loop exits immediately when nothing is pending. -/
theorem streamLoop_nil (cfg : Config) (oracle : ScanOracle) (n : Nat) (wms : Nat → String)
    (fuel : Nat) (c : Capture) (results : resultSet) (wmIdx : Nat) (wm : String)
    (events : List changeEvent) (hp : pendingStreams c.state = []) :
    streamLoop cfg oracle n wms fuel c results wmIdx wm events = Except.ok (c, [], events) := by
  rw [streamLoop.eq_def]
  dsimp only
  rw [if_pos hp]

/-- One full iteration of the Phase-1 loop, assembled from its three
sub-steps. -/
theorem streamLoop_cons (cfg : Config) (oracle : ScanOracle) (n : Nat) (wms : Nat → String)
    (fuel : Nat) (c : Capture) (results : resultSet) (wmIdx : Nat) (wm : String)
    (events : List changeEvent) (c1 : Capture) (results1 : resultSet)
    (msgs1 : List Message) (events1 : List changeEvent) (results2 : resultSet)
    (c3 : Capture) (msgs3 : List Message) (events3 : List changeEvent)
    (hp : ¬pendingStreams c.state = [])
    (h1 : streamToWatermark cfg wm c results events = Except.ok (c1, results1, msgs1, events1))
    (h2 : backfillStreams oracle n (emitBuffered c1 results1).1
      (pendingStreams (emitBuffered c1 results1).1.state) [] = Except.ok results2)
    (h3 : streamLoop cfg oracle n wms fuel (emitBuffered c1 results1).1 results2 (wmIdx + 1)
      (wms wmIdx) events1 = Except.ok (c3, msgs3, events3)) :
    streamLoop cfg oracle n wms (fuel + 1) c results wmIdx wm events =
      Except.ok (c3, msgs1 ++ (emitBuffered c1 results1).2 ++ msgs3, events3) := by
  rw [streamLoop.eq_def]
  dsimp only
  rw [if_neg hp]
  rw [h1]
  try dsimp only
  rw [h2]
  try dsimp only
  rw [h3]
  try dsimp only

/-- `streamChanges` when nothing is pending: straight to Phase 2. -/
theorem streamChanges_nil (cfg : Config) (oracle : ScanOracle) (n : Nat) (wms : Nat → String)
    (fuel : Nat) (c : Capture) (events : List changeEvent)
    (hp : pendingStreams c.state = []) :
    streamChanges cfg oracle n wms fuel c events =
      Except.ok ((phase2 cfg c events).1, (phase2 cfg c events).2) := by
  unfold streamChanges
  rw [if_pos hp]
  dsimp only
  rw [List.nil_append]

/-- `streamChanges` assembled from a successful Phase-1 loop run. -/
theorem streamChanges_go (cfg : Config) (oracle : ScanOracle) (n : Nat) (wms : Nat → String)
    (fuel : Nat) (c : Capture) (events : List changeEvent) (c1 : Capture)
    (msgs1 : List Message) (events1 : List changeEvent)
    (hp : ¬pendingStreams c.state = [])
    (h1 : streamLoop cfg oracle n wms fuel c [] 1 (wms 0) events =
      Except.ok (c1, msgs1, events1)) :
    streamChanges cfg oracle n wms fuel c events =
      Except.ok ((phase2 cfg c1 events1).1, msgs1 ++ (phase2 cfg c1 events1).2) := by
  unfold streamChanges
  rw [if_neg hp, h1]

/-- `runCapture` assembled from its two phases. -/
theorem runCapture_go (catalog : ConfiguredCatalog) (dbKeys : List (String × List String))
    (cfg : Config) (oracle : ScanOracle) (n : Nat) (wms : Nat → String) (fuel : Nat)
    (ps : PersistentState) (events : List changeEvent) (c1 : Capture)
    (msgs1 : List Message) (c2 : Capture) (msgs2 : List Message)
    (h1 : updateState catalog dbKeys { state := ps, changesSinceLastCheckpoint := 0 } =
      Except.ok (c1, msgs1))
    (h2 : streamChanges cfg oracle n wms fuel c1 events = Except.ok (c2, msgs2)) :
    runCapture catalog dbKeys cfg oracle n wms fuel ps events =
      Except.ok (c2, msgs1 ++ msgs2) := by
  unfold runCapture
  rw [h1]
  dsimp only
  rw [h2]

/-- A State checkpoint inside a concatenation whose first part is all
Records must sit in the second part, with the same tail after it. -/
theorem split_state_after_records (ps : PersistentState) :
    ∀ (la lb pre post : List Message),
      la ++ lb = pre ++ Message.state ps :: post →
      (∀ m ∈ la, isRecord m = true) →
      ∃ pre2, lb = pre2 ++ Message.state ps :: post := by
  intro la
  induction la with
  | nil =>
    intro lb pre post h _
    rw [List.nil_append] at h
    exact ⟨pre, h⟩
  | cons a la2 ih =>
    intro lb pre post h hrec
    cases pre with
    | nil =>
      simp only [List.cons_append, List.nil_append] at h
      injection h with h1 h2
      have ha := hrec a (List.mem_cons_self _ _)
      rw [h1] at ha
      exact Bool.noConfusion ha
    | cons p pre2 =>
      simp only [List.cons_append] at h
      injection h with h1 h2
      exact ih lb pre2 post h2 (fun m hm => hrec m (List.mem_cons_of_mem _ hm))

/-- A State checkpoint inside a concatenation sits either in the first part
(and the tail extends over the whole second part) or in the second part. -/
theorem split_checkpoint (ps : PersistentState) :
    ∀ (la lb pre post : List Message),
      la ++ lb = pre ++ Message.state ps :: post →
      (∃ pre1 post1, la = pre1 ++ Message.state ps :: post1 ∧ post = post1 ++ lb) ∨
      (∃ pre2, lb = pre2 ++ Message.state ps :: post) := by
  intro la
  induction la with
  | nil =>
    intro lb pre post h
    rw [List.nil_append] at h
    exact Or.inr ⟨pre, h⟩
  | cons a la2 ih =>
    intro lb pre post h
    cases pre with
    | nil =>
      simp only [List.cons_append, List.nil_append] at h
      injection h with h1 h2
      exact Or.inl ⟨[], la2, by rw [h1, List.nil_append], h2.symm⟩
    | cons p pre2 =>
      simp only [List.cons_append] at h
      injection h with h1 h2
      rcases ih lb pre2 post h2 with ⟨pre1, post1, hla, hpost⟩ | ⟨pre3, hlb⟩
      · exact Or.inl ⟨a :: pre1, post1, by rw [hla, List.cons_append], hpost⟩
      · exact Or.inr ⟨pre3, hlb⟩

/-- Post-facts of a Phase-1 loop run over quiescent traffic: the leftover
traffic is quiescent, the watermarks table stays untracked, the
changes-since-checkpoint counter is reset (or untouched when nothing was
pending), and keys and scan keys survive. -/
theorem streamLoop_post (cfg : Config) (oracle : ScanOracle) (n : Nat) (wms : Nat → String) :
    ∀ (fuel : Nat) (c : Capture) (results : resultSet) (wmIdx : Nat) (wm : String)
      (events : List changeEvent) (cK : Capture) (msgsK : List Message)
      (eventsK : List changeEvent),
      streamLoop cfg oracle n wms fuel c results wmIdx wm events =
        Except.ok (cK, msgsK, eventsK) →
      wtOnly cfg events → wtUntracked cfg c.state.streams →
      (∀ sid ∈ rsStreams results, ¬sid = cfg.watermarksTable) →
      wtOnly cfg eventsK ∧ wtUntracked cfg cK.state.streams ∧
        (cK.changesSinceLastCheckpoint = c.changesSinceLastCheckpoint ∨
          cK.changesSinceLastCheckpoint = 0) ∧
        scanShapeEq c.state.streams cK.state.streams := by
  intro fuel
  induction fuel with
  | zero =>
    intro c results wmIdx wm events cK msgsK eventsK h hq hw hres
    rw [streamLoop] at h
    by_cases hp : pendingStreams c.state = []
    · rw [if_pos hp] at h
      cases h
      exact ⟨hq, hw, Or.inl rfl, scanShapeEq_refl _⟩
    · rw [if_neg hp] at h
      cases h
  | succ fuel ih =>
    intro c results wmIdx wm events cK msgsK eventsK h hq hw hres
    rw [streamLoop] at h
    by_cases hp : pendingStreams c.state = []
    · rw [if_pos hp] at h
      cases h
      exact ⟨hq, hw, Or.inl rfl, scanShapeEq_refl _⟩
    · rw [if_neg hp] at h
      obtain ⟨c1, ev1, hdrain, hs1, hch1, hq1⟩ := drain_wtOnly cfg wm events false c results hq hw
      have hdrain2 : streamToWatermark cfg wm c results events =
          Except.ok (c1, results, [], ev1) := hdrain
      rw [hdrain2] at h
      dsimp only at h
      have hw1 : wtUntracked cfg c1.state.streams := by
        rw [hs1]
        exact hw
      have hst2 : (emitBuffered c1 results).1.state.streams =
          flushStreams results c1.state.streams (rsStreams results) := by
        rw [emitBuffered_fst_state]
      have hw2 : wtUntracked cfg (emitBuffered c1 results).1.state.streams := by
        rw [hst2]
        exact wtUntracked_flushStreams cfg results (rsStreams results) c1.state.streams hw1 hres
      cases hscan : backfillStreams oracle n (emitBuffered c1 results).1
          (pendingStreams (emitBuffered c1 results).1.state) [] with
      | error e => rw [hscan] at h; cases h
      | ok results2 =>
        rw [hscan] at h
        dsimp only at h
        have hres2 : ∀ sid ∈ rsStreams results2, ¬sid = cfg.watermarksTable := by
          intro sid hsid
          rcases backfillStreams_streams oracle n _ _ [] results2 hscan sid hsid with h0 | h0
          · cases h0
          · exact pending_not_wt cfg _ hw2 sid h0
        cases hrec : streamLoop cfg oracle n wms fuel (emitBuffered c1 results).1 results2
            (wmIdx + 1) (wms wmIdx) ev1 with
        | error e => rw [hrec] at h; cases h
        | ok q3 =>
          rcases q3 with ⟨c3, msgs3, events3⟩
          rw [hrec] at h
          cases h
          obtain ⟨p1, p2, p3, p4⟩ := ih _ _ _ _ _ _ _ _ hrec hq1 hw2 hres2
          refine ⟨p1, p2, ?_, ?_⟩
          · rcases p3 with p3 | p3
            · exact Or.inr (p3.trans (emitBuffered_fst_changes c1 results))
            · exact Or.inr p3
          · apply scanShapeEq_trans _ ((emitBuffered c1 results).1.state.streams) _ _ p4
            rw [hst2, ← hs1]
            exact flushStreams_shape results (rsStreams results) c1.state.streams

/-- The records `emitBuffered` emits are exactly the flushed rows. -/
theorem recordsOf_emitBuffered (cx : Capture) (results : resultSet) :
    recordsOf (emitBuffered cx results).2 = flushMsgs results (rsStreams results) := by
  rw [emitBuffered_snd, recordsOf_append, recordsOf_all _ (flushMsgs_records results _)]
  rw [show recordsOf [Message.state (emitBuffered cx results).1.state] = [] from rfl]
  rw [List.append_nil]

/-- Bisimulation of two Phase-1 loop runs over quiescent traffic from the
same streams map and result set: the second run succeeds with the same fuel,
emits the same records, and ends in the same streams map, independently of
log positions, watermark values and the particular quiescent traffic. -/
theorem streamLoop_bisim (cfg : Config) (oracle : ScanOracle) (n : Nat)
    (wmsA wmsB : Nat → String) :
    ∀ (fuel : Nat) (cA cB : Capture) (results : resultSet) (idxA idxB : Nat)
      (wmA wmB : String) (eventsA eventsB : List changeEvent)
      (cK : Capture) (msgsK : List Message) (eventsK : List changeEvent),
      streamLoop cfg oracle n wmsA fuel cA results idxA wmA eventsA =
        Except.ok (cK, msgsK, eventsK) →
      cB.state.streams = cA.state.streams →
      wtOnly cfg eventsA → wtOnly cfg eventsB →
      wtUntracked cfg cA.state.streams →
      (∀ sid ∈ rsStreams results, ¬sid = cfg.watermarksTable) →
      ∃ cB2 msgsB eventsB2,
        streamLoop cfg oracle n wmsB fuel cB results idxB wmB eventsB =
          Except.ok (cB2, msgsB, eventsB2) ∧
        recordsOf msgsB = recordsOf msgsK ∧
        cB2.state.streams = cK.state.streams := by
  intro fuel
  induction fuel with
  | zero =>
    intro cA cB results idxA idxB wmA wmB eventsA eventsB cK msgsK eventsK h hBA hqA hqB hw hres
    rw [streamLoop] at h
    by_cases hp : pendingStreams cA.state = []
    · rw [if_pos hp] at h
      cases h
      have hpB : pendingStreams cB.state = [] := by
        rw [pendingStreams_congr cB.state cA.state hBA]
        exact hp
      exact ⟨cB, [], eventsB,
        streamLoop_nil cfg oracle n wmsB 0 cB results idxB wmB eventsB hpB, rfl, hBA⟩
    · rw [if_neg hp] at h
      cases h
  | succ fuel ih =>
    intro cA cB results idxA idxB wmA wmB eventsA eventsB cK msgsK eventsK h hBA hqA hqB hw hres
    rw [streamLoop] at h
    by_cases hp : pendingStreams cA.state = []
    · rw [if_pos hp] at h
      cases h
      have hpB : pendingStreams cB.state = [] := by
        rw [pendingStreams_congr cB.state cA.state hBA]
        exact hp
      exact ⟨cB, [], eventsB,
        streamLoop_nil cfg oracle n wmsB (fuel + 1) cB results idxB wmB eventsB hpB, rfl, hBA⟩
    · rw [if_neg hp] at h
      have hpB : ¬pendingStreams cB.state = [] := by
        rw [pendingStreams_congr cB.state cA.state hBA]
        exact hp
      obtain ⟨cA1, evA1, hdrA, hsA1, hchA1, hqA1⟩ :=
        drain_wtOnly cfg wmA eventsA false cA results hqA hw
      have hdrA2 : streamToWatermark cfg wmA cA results eventsA =
          Except.ok (cA1, results, [], evA1) := hdrA
      rw [hdrA2] at h
      dsimp only at h
      have hwB : wtUntracked cfg cB.state.streams := by
        rw [hBA]
        exact hw
      obtain ⟨cB1, evB1, hdrB, hsB1, hchB1, hqB1⟩ :=
        drain_wtOnly cfg wmB eventsB false cB results hqB hwB
      have hdrB2 : streamToWatermark cfg wmB cB results eventsB =
          Except.ok (cB1, results, [], evB1) := hdrB
      have hsB1A : cB1.state.streams = cA.state.streams := hsB1.trans hBA
      have hstA : (emitBuffered cA1 results).1.state.streams =
          flushStreams results cA1.state.streams (rsStreams results) := by
        rw [emitBuffered_fst_state]
      have hstB : (emitBuffered cB1 results).1.state.streams =
          flushStreams results cB1.state.streams (rsStreams results) := by
        rw [emitBuffered_fst_state]
      have hBA2 : (emitBuffered cB1 results).1.state.streams =
          (emitBuffered cA1 results).1.state.streams := by
        rw [hstB, hstA, hsB1A, hsA1]
      have hw1 : wtUntracked cfg cA1.state.streams := by
        rw [hsA1]
        exact hw
      have hw2 : wtUntracked cfg (emitBuffered cA1 results).1.state.streams := by
        rw [hstA]
        exact wtUntracked_flushStreams cfg results (rsStreams results) cA1.state.streams hw1 hres
      cases hscan : backfillStreams oracle n (emitBuffered cA1 results).1
          (pendingStreams (emitBuffered cA1 results).1.state) [] with
      | error e => rw [hscan] at h; cases h
      | ok results2 =>
        rw [hscan] at h
        dsimp only at h
        have hscanB : backfillStreams oracle n (emitBuffered cB1 results).1
            (pendingStreams (emitBuffered cB1 results).1.state) [] = Except.ok results2 := by
          rw [pendingStreams_congr _ _ hBA2]
          rw [backfillStreams_congr oracle n (emitBuffered cB1 results).1
            (emitBuffered cA1 results).1 hBA2]
          exact hscan
        have hres2 : ∀ sid ∈ rsStreams results2, ¬sid = cfg.watermarksTable := by
          intro sid hsid
          rcases backfillStreams_streams oracle n _ _ [] results2 hscan sid hsid with h0 | h0
          · cases h0
          · exact pending_not_wt cfg _ hw2 sid h0
        cases hrec : streamLoop cfg oracle n wmsA fuel (emitBuffered cA1 results).1 results2
            (idxA + 1) (wmsA idxA) evA1 with
        | error e => rw [hrec] at h; cases h
        | ok q3 =>
          rcases q3 with ⟨c3, msgs3, events3⟩
          rw [hrec] at h
          cases h
          obtain ⟨cB3, mB3, evB3, hloopB, hrecEq, hstr3⟩ :=
            ih (emitBuffered cA1 results).1 (emitBuffered cB1 results).1 results2
              (idxA + 1) (idxB + 1) (wmsA idxA) (wmsB idxB) evA1 evB1 _ _ _
              hrec hBA2 hqA1 hqB1 hw2 hres2
          refine ⟨cB3, [] ++ (emitBuffered cB1 results).2 ++ mB3, evB3, ?_, ?_, hstr3⟩
          · exact streamLoop_cons cfg oracle n wmsB fuel cB results idxB wmB eventsB cB1
              results [] evB1 results2 cB3 mB3 evB3 hpB hdrB2 hscanB hloopB
          · rw [List.nil_append, List.nil_append, recordsOf_append, recordsOf_append,
              recordsOf_emitBuffered, recordsOf_emitBuffered, hrecEq]

/-- Bisimulation of two whole `streamChanges` runs over quiescent traffic
from the same streams map: same records emitted. -/
theorem streamChanges_bisim (cfg : Config) (oracle : ScanOracle) (n : Nat)
    (wmsA wmsB : Nat → String) (fuel : Nat) (cA cB : Capture)
    (eventsA eventsB : List changeEvent) (cK : Capture) (msgsK : List Message)
    (h : streamChanges cfg oracle n wmsA fuel cA eventsA = Except.ok (cK, msgsK))
    (hBA : cB.state.streams = cA.state.streams)
    (hchA : cA.changesSinceLastCheckpoint = 0)
    (hchB : cB.changesSinceLastCheckpoint = 0)
    (hqA : wtOnly cfg eventsA) (hqB : wtOnly cfg eventsB)
    (hw : wtUntracked cfg cA.state.streams) :
    ∃ cB2 msgsB, streamChanges cfg oracle n wmsB fuel cB eventsB = Except.ok (cB2, msgsB) ∧
      recordsOf msgsB = recordsOf msgsK := by
  have hwB : wtUntracked cfg cB.state.streams := by
    rw [hBA]
    exact hw
  by_cases hp : pendingStreams cA.state = []
  · have hpB : pendingStreams cB.state = [] := by
      rw [pendingStreams_congr cB.state cA.state hBA]
      exact hp
    rw [streamChanges_nil cfg oracle n wmsA fuel cA eventsA hp] at h
    cases h
    refine ⟨_, _, streamChanges_nil cfg oracle n wmsB fuel cB eventsB hpB, ?_⟩
    rw [phase2_wtOnly cfg eventsB cB hqB hwB hchB, phase2_wtOnly cfg eventsA cA hqA hw hchA]
  · have hpB : ¬pendingStreams cB.state = [] := by
      rw [pendingStreams_congr cB.state cA.state hBA]
      exact hp
    unfold streamChanges at h
    rw [if_neg hp] at h
    cases hloop : streamLoop cfg oracle n wmsA fuel cA [] 1 (wmsA 0) eventsA with
    | error e => rw [hloop] at h; cases h
    | ok q =>
      rcases q with ⟨c1, m1, e1⟩
      rw [hloop] at h
      dsimp only at h
      cases h
      obtain ⟨hq1, hw1, hch1, -⟩ := streamLoop_post cfg oracle n wmsA fuel cA [] 1 (wmsA 0)
        eventsA c1 m1 e1 hloop hqA hw (fun sid hsid => absurd hsid (List.not_mem_nil sid))
      have hch1z : c1.changesSinceLastCheckpoint = 0 := by
        rcases hch1 with h2 | h2
        · exact h2.trans hchA
        · exact h2
      have hph1 : (phase2 cfg c1 e1).2 = [] := phase2_wtOnly cfg e1 c1 hq1 hw1 hch1z
      obtain ⟨cB1, mB1, eB1, hloopB, hrecEq, hstrB⟩ :=
        streamLoop_bisim cfg oracle n wmsA wmsB fuel cA cB [] 1 1 (wmsA 0) (wmsB 0)
          eventsA eventsB _ _ _ hloop hBA hqA hqB hw
          (fun sid hsid => absurd hsid (List.not_mem_nil sid))
      obtain ⟨hqB1, hwB1, hchB1, -⟩ := streamLoop_post cfg oracle n wmsB fuel cB [] 1 (wmsB 0)
        eventsB cB1 mB1 eB1 hloopB hqB hwB (fun sid hsid => absurd hsid (List.not_mem_nil sid))
      have hchB1z : cB1.changesSinceLastCheckpoint = 0 := by
        rcases hchB1 with h2 | h2
        · exact h2.trans hchB
        · exact h2
      have hphB : (phase2 cfg cB1 eB1).2 = [] := phase2_wtOnly cfg eB1 cB1 hqB1 hwB1 hchB1z
      refine ⟨_, _, streamChanges_go cfg oracle n wmsB fuel cB eventsB cB1 mB1 eB1 hpB hloopB, ?_⟩
      rw [hphB, hph1, List.append_nil, List.append_nil]
      exact hrecEq

/-- Resuming from any State checkpoint a Phase-1 loop run over quiescent
traffic emits: restarting the whole capture from the checkpointed state,
with fresh watermarks and fresh quiescent traffic, succeeds and emits
exactly the records that followed the checkpoint in the original run. -/
theorem streamLoop_resume (catalog : ConfiguredCatalog) (dbKeys : List (String × List String))
    (cfg : Config) (oracle : ScanOracle) (n : Nat) (wmsA : Nat → String) :
    ∀ (fuel : Nat) (cA : Capture) (results : resultSet) (idxA : Nat) (wmA : String)
      (eventsA : List changeEvent) (cK : Capture) (msgsK : List Message)
      (eventsK : List changeEvent),
      streamLoop cfg oracle n wmsA fuel cA results idxA wmA eventsA =
        Except.ok (cK, msgsK, eventsK) →
      wtOnly cfg eventsA → wtUntracked cfg cA.state.streams →
      (∀ sid ∈ rsStreams results, ¬sid = cfg.watermarksTable) →
      reconciled catalog dbKeys cA.state.streams →
      ∀ (pre post : List Message) (ps : PersistentState),
        msgsK = pre ++ Message.state ps :: post →
        ∀ (wmsB : Nat → String) (eventsB : List changeEvent), wtOnly cfg eventsB →
        ∃ fuelB cB2 msgsB,
          runCapture catalog dbKeys cfg oracle n wmsB fuelB ps eventsB =
            Except.ok (cB2, msgsB) ∧
          recordsOf msgsB = recordsOf post := by
  intro fuel
  induction fuel with
  | zero =>
    intro cA results idxA wmA eventsA cK msgsK eventsK h hq hw hres hrc pre post ps hsplit
      wmsB eventsB hqB
    rw [streamLoop] at h
    by_cases hp : pendingStreams cA.state = []
    · rw [if_pos hp] at h
      cases h
      have hlen := congrArg List.length hsplit
      rw [List.length_append, List.length_cons] at hlen
      simp only [List.length_nil] at hlen
      omega
    · rw [if_neg hp] at h
      cases h
  | succ fuel ih =>
    intro cA results idxA wmA eventsA cK msgsK eventsK h hq hw hres hrc pre post ps hsplit
      wmsB eventsB hqB
    rw [streamLoop] at h
    by_cases hp : pendingStreams cA.state = []
    · rw [if_pos hp] at h
      cases h
      have hlen := congrArg List.length hsplit
      rw [List.length_append, List.length_cons] at hlen
      simp only [List.length_nil] at hlen
      omega
    · rw [if_neg hp] at h
      obtain ⟨cA1, evA1, hdrA, hsA1, hchA1, hqA1⟩ :=
        drain_wtOnly cfg wmA eventsA false cA results hq hw
      have hdrA2 : streamToWatermark cfg wmA cA results eventsA =
          Except.ok (cA1, results, [], evA1) := hdrA
      rw [hdrA2] at h
      dsimp only at h
      have hw1 : wtUntracked cfg cA1.state.streams := by
        rw [hsA1]
        exact hw
      have hstA : (emitBuffered cA1 results).1.state.streams =
          flushStreams results cA1.state.streams (rsStreams results) := by
        rw [emitBuffered_fst_state]
      have hw2 : wtUntracked cfg (emitBuffered cA1 results).1.state.streams := by
        rw [hstA]
        exact wtUntracked_flushStreams cfg results (rsStreams results) cA1.state.streams hw1 hres
      have hrc2 : reconciled catalog dbKeys (emitBuffered cA1 results).1.state.streams := by
        rw [hstA]
        refine reconciled_shape catalog dbKeys cA1.state.streams _ ?_
          (flushStreams_shape results (rsStreams results) cA1.state.streams)
        rw [hsA1]
        exact hrc
      cases hscan : backfillStreams oracle n (emitBuffered cA1 results).1
          (pendingStreams (emitBuffered cA1 results).1.state) [] with
      | error e => rw [hscan] at h; cases h
      | ok results2 =>
        rw [hscan] at h
        dsimp only at h
        have hres2 : ∀ sid ∈ rsStreams results2, ¬sid = cfg.watermarksTable := by
          intro sid hsid
          rcases backfillStreams_streams oracle n _ _ [] results2 hscan sid hsid with h0 | h0
          · cases h0
          · exact pending_not_wt cfg _ hw2 sid h0
        cases hrec : streamLoop cfg oracle n wmsA fuel (emitBuffered cA1 results).1 results2
            (idxA + 1) (wmsA idxA) evA1 with
        | error e => rw [hrec] at h; cases h
        | ok q3 =>
          rcases q3 with ⟨c3, msgs3, events3⟩
          rw [hrec] at h
          cases h
          rw [List.nil_append, emitBuffered_snd cA1 results, List.append_assoc,
            List.singleton_append] at hsplit
          obtain ⟨pre2, hsplit2⟩ := split_state_after_records ps
            (flushMsgs results (rsStreams results))
            (Message.state (emitBuffered cA1 results).1.state :: msgs3) pre post hsplit
            (flushMsgs_records results _)
          cases pre2 with
          | cons x pre3 =>
            rw [List.cons_append] at hsplit2
            injection hsplit2 with hx hrest
            exact ih _ results2 (idxA + 1) (wmsA idxA) evA1 _ _ _ hrec hqA1 hw2 hres2 hrc2
              pre3 post ps hrest wmsB eventsB hqB
          | nil =>
            rw [List.nil_append] at hsplit2
            injection hsplit2 with hEb hpost
            injection hEb with hps
            have hrcps : reconciled catalog dbKeys ps.streams := by
              rw [← hps]
              exact hrc2
            have hwps : wtUntracked cfg ps.streams := by
              rw [← hps]
              exact hw2
            have hu : updateState catalog dbKeys
                { state := ps, changesSinceLastCheckpoint := 0 } =
                Except.ok ({ state := ps, changesSinceLastCheckpoint := 0 }, []) :=
              updateState_reconciled catalog dbKeys _ hrcps
            by_cases hp2 : pendingStreams ps = []
            · have hp2A : pendingStreams (emitBuffered cA1 results).1.state = [] := by
                rw [hps]
                exact hp2
              rw [streamLoop_nil cfg oracle n wmsA fuel (emitBuffered cA1 results).1 results2
                (idxA + 1) (wmsA idxA) evA1 hp2A] at hrec
              cases hrec
              have hph : (phase2 cfg { state := ps, changesSinceLastCheckpoint := 0 }
                  eventsB).2 = [] :=
                phase2_wtOnly cfg eventsB _ hqB hwps rfl
              refine ⟨1, _, _, runCapture_go catalog dbKeys cfg oracle n wmsB 1 ps eventsB
                _ [] _ _ hu (streamChanges_nil cfg oracle n wmsB 1 _ eventsB hp2), ?_⟩
              rw [List.nil_append, hph, ← hpost]
            · obtain ⟨cB1, evB1, hdrB, hsB1, hchB1, hqB1⟩ :=
                drain_wtOnly cfg (wmsB 0) eventsB false
                  { state := ps, changesSinceLastCheckpoint := 0 } [] hqB hwps
              have hdrB2 : streamToWatermark cfg (wmsB 0)
                  { state := ps, changesSinceLastCheckpoint := 0 } [] eventsB =
                  Except.ok (cB1, [], [], evB1) := hdrB
              have hstB : (emitBuffered cB1 []).1.state.streams = cB1.state.streams := by
                rw [emitBuffered_fst_state]
                rfl
              have hBA2 : (emitBuffered cB1 []).1.state.streams =
                  (emitBuffered cA1 results).1.state.streams := by
                rw [hstB, hsB1, hps]
              have hscanB : backfillStreams oracle n (emitBuffered cB1 []).1
                  (pendingStreams (emitBuffered cB1 []).1.state) [] =
                  Except.ok results2 := by
                rw [pendingStreams_congr _ _ hBA2,
                  backfillStreams_congr oracle n _ (emitBuffered cA1 results).1 hBA2]
                exact hscan
              obtain ⟨cB3, mB3, evB3, hloopB3, hrecs3, hstr3⟩ :=
                streamLoop_bisim cfg oracle n wmsA wmsB fuel (emitBuffered cA1 results).1
                  (emitBuffered cB1 []).1 results2 (idxA + 1) (1 + 1) (wmsA idxA) (wmsB 1)
                  evA1 evB1 _ _ _ hrec hBA2 hqA1 hqB1 hw2 hres2
              have hloopB : streamLoop cfg oracle n wmsB (fuel + 1)
                  { state := ps, changesSinceLastCheckpoint := 0 } [] 1 (wmsB 0) eventsB =
                  Except.ok (cB3, [] ++ (emitBuffered cB1 []).2 ++ mB3, evB3) :=
                streamLoop_cons cfg oracle n wmsB fuel _ [] 1 (wmsB 0) eventsB cB1 [] []
                  evB1 results2 cB3 mB3 evB3 hp2 hdrB2 hscanB hloopB3
              obtain ⟨hqB3, hwB3, hchB3, -⟩ := streamLoop_post cfg oracle n wmsB (fuel + 1)
                { state := ps, changesSinceLastCheckpoint := 0 } [] 1 (wmsB 0) eventsB
                cB3 _ evB3 hloopB hqB hwps
                (fun sid hsid => absurd hsid (List.not_mem_nil sid))
              have hchB3z : cB3.changesSinceLastCheckpoint = 0 := by
                rcases hchB3 with h2 | h2 <;> exact h2
              have hphB : (phase2 cfg cB3 evB3).2 = [] :=
                phase2_wtOnly cfg evB3 cB3 hqB3 hwB3 hchB3z
              refine ⟨fuel + 1, _, _, runCapture_go catalog dbKeys cfg oracle n wmsB
                (fuel + 1) ps eventsB _ [] _ _ hu
                (streamChanges_go cfg oracle n wmsB (fuel + 1) _ eventsB cB3 _ evB3 hp2
                  hloopB), ?_⟩
              rw [List.nil_append, hphB, List.append_nil, List.nil_append, recordsOf_append,
                recordsOf_emitBuffered]
              rw [show flushMsgs [] (rsStreams []) = ([] : List Message) from rfl,
                List.nil_append, hrecs3, hpost]

/-- Resuming from any State checkpoint a whole `streamChanges` run over
quiescent traffic emits. -/
theorem streamChanges_resume (catalog : ConfiguredCatalog)
    (dbKeys : List (String × List String)) (cfg : Config) (oracle : ScanOracle) (n : Nat)
    (wmsA : Nat → String) (fuel : Nat) (cA : Capture) (eventsA : List changeEvent)
    (cK : Capture) (msgsK : List Message)
    (h : streamChanges cfg oracle n wmsA fuel cA eventsA = Except.ok (cK, msgsK))
    (hch : cA.changesSinceLastCheckpoint = 0)
    (hq : wtOnly cfg eventsA) (hw : wtUntracked cfg cA.state.streams)
    (hrc : reconciled catalog dbKeys cA.state.streams)
    (pre post : List Message) (ps : PersistentState)
    (hsplit : msgsK = pre ++ Message.state ps :: post)
    (wmsB : Nat → String) (eventsB : List changeEvent) (hqB : wtOnly cfg eventsB) :
    ∃ fuelB cB2 msgsB,
      runCapture catalog dbKeys cfg oracle n wmsB fuelB ps eventsB = Except.ok (cB2, msgsB) ∧
      recordsOf msgsB = recordsOf post := by
  by_cases hp : pendingStreams cA.state = []
  · rw [streamChanges_nil cfg oracle n wmsA fuel cA eventsA hp] at h
    cases h
    rw [phase2_wtOnly cfg eventsA cA hq hw hch] at hsplit
    have hlen := congrArg List.length hsplit
    rw [List.length_append, List.length_cons] at hlen
    simp only [List.length_nil] at hlen
    omega
  · unfold streamChanges at h
    rw [if_neg hp] at h
    cases hloop : streamLoop cfg oracle n wmsA fuel cA [] 1 (wmsA 0) eventsA with
    | error e => rw [hloop] at h; cases h
    | ok q =>
      rcases q with ⟨c1, m1, e1⟩
      rw [hloop] at h
      dsimp only at h
      cases h
      obtain ⟨hq1, hw1, hch1, -⟩ := streamLoop_post cfg oracle n wmsA fuel cA [] 1 (wmsA 0)
        eventsA c1 m1 e1 hloop hq hw (fun sid hsid => absurd hsid (List.not_mem_nil sid))
      have hch1z : c1.changesSinceLastCheckpoint = 0 := by
        rcases hch1 with h2 | h2
        · exact h2.trans hch
        · exact h2
      rw [phase2_wtOnly cfg e1 c1 hq1 hw1 hch1z, List.append_nil] at hsplit
      exact streamLoop_resume catalog dbKeys cfg oracle n wmsA fuel cA [] 1 (wmsA 0) eventsA
        c1 m1 e1 hloop hq hw (fun sid hsid => absurd hsid (List.not_mem_nil sid)) hrc
        pre post ps hsplit wmsB eventsB hqB

/-- C1: checkpoint consistency / resumability — for a capture run against an
unchanged database (quiescent replication traffic: only the capture's own
watermark writes and their commits) with the watermarks table untracked,
every prefix of the emitted messages ending in a State checkpoint can be
resumed: restarting the capture with the checkpointed state, fresh
watermarks and fresh quiescent traffic succeeds and emits exactly the
records that followed the checkpoint in the original run — no row is
duplicated and none is skipped. -/
theorem c1_checkpoint_resumability (catalog : ConfiguredCatalog)
    (dbKeys : List (String × List String)) (cfg : Config) (oracle : ScanOracle) (n : Nat)
    (wms : Nat → String) (fuel : Nat) (ps0 : PersistentState)
    (ns tbl slot : String) (start k : Nat) (c' : Capture) (msgs : List Message)
    (hwtid : joinStreamID ns tbl = cfg.watermarksTable)
    (hwt : wtUntracked cfg ps0.streams)
    (hcat : ∀ cs ∈ catalog.streams, ¬joinStreamID cs.ns cs.name = cfg.watermarksTable)
    (hrun : runCapture catalog dbKeys cfg oracle n wms fuel ps0
      (quiescentEvents ns tbl slot wms start k) = Except.ok (c', msgs)) :
    ∀ (pre post : List Message) (ps : PersistentState),
      msgs = pre ++ Message.state ps :: post →
      ∀ (wms2 : Nat → String) (start2 k2 : Nat),
      ∃ fuel2 c2 msgs2,
        runCapture catalog dbKeys cfg oracle n wms2 fuel2 ps
          (quiescentEvents ns tbl slot wms2 start2 k2) = Except.ok (c2, msgs2) ∧
        recordsOf msgs2 = recordsOf post := by
  intro pre post ps hsplit wms2 start2 k2
  have hqA : wtOnly cfg (quiescentEvents ns tbl slot wms start k) :=
    quiescentEvents_wtOnly cfg ns tbl slot wms hwtid k start
  have hqB : wtOnly cfg (quiescentEvents ns tbl slot wms2 start2 k2) :=
    quiescentEvents_wtOnly cfg ns tbl slot wms2 hwtid k2 start2
  unfold runCapture at hrun
  cases hu : updateState catalog dbKeys { state := ps0, changesSinceLastCheckpoint := 0 } with
  | error e => rw [hu] at hrun; cases hrun
  | ok q1 =>
    rcases q1 with ⟨c1, msgs1⟩
    rw [hu] at hrun
    dsimp only at hrun
    cases hs : streamChanges cfg oracle n wms fuel c1
        (quiescentEvents ns tbl slot wms start k) with
    | error e => rw [hs] at hrun; cases hrun
    | ok q2 =>
      rcases q2 with ⟨cK, msgsK⟩
      rw [hs] at hrun
      cases hrun
      have hrc1 : reconciled catalog dbKeys c1.state.streams :=
        updateState_ok_reconciled catalog dbKeys _ c1 msgs1 hu
      have hw1 : wtUntracked cfg c1.state.streams :=
        updateState_wtUntracked catalog dbKeys cfg _ c1 msgs1 hu hwt hcat
      have hch1 : c1.changesSinceLastCheckpoint = 0 := by
        rcases updateState_changes catalog dbKeys _ c1 msgs1 hu with h2 | h2
        · exact h2
        · exact h2
      rcases split_checkpoint ps msgs1 msgsK pre post hsplit with
        ⟨pre1, post1, hla, hpost⟩ | ⟨pre2, hlb⟩
      · obtain ⟨-, -, u3⟩ := updateState_spec catalog dbKeys _ c1 msgs1 hu
        have hpsm : Message.state ps ∈ msgs1 := by
          rw [hla]
          exact List.mem_append.mpr (Or.inr (List.mem_cons_self _ _))
        have hps : ps = c1.state := by
          have h2 := u3 _ hpsm
          injection h2 with h3
        have hrecpost1 : recordsOf post1 = [] := by
          apply recordsOf_eq_nil
          intro m hm
          have hmm : m ∈ msgs1 := by
            rw [hla]
            exact List.mem_append.mpr (Or.inr (List.mem_cons_of_mem _ hm))
          exact ⟨c1.state, u3 m hmm⟩
        obtain ⟨cB2, msgsB, hscB, hrecB⟩ := streamChanges_bisim cfg oracle n wms wms2 fuel c1
          { state := ps, changesSinceLastCheckpoint := 0 }
          (quiescentEvents ns tbl slot wms start k)
          (quiescentEvents ns tbl slot wms2 start2 k2) _ _ hs (by rw [hps]) hch1 rfl
          hqA hqB hw1
        have hrcps : reconciled catalog dbKeys ps.streams := by
          rw [hps]
          exact hrc1
        have hu2 : updateState catalog dbKeys
            { state := ps, changesSinceLastCheckpoint := 0 } =
            Except.ok ({ state := ps, changesSinceLastCheckpoint := 0 }, []) :=
          updateState_reconciled catalog dbKeys _ hrcps
        refine ⟨fuel, _, _, runCapture_go catalog dbKeys cfg oracle n wms2 fuel ps _ _ [] _ _
          hu2 hscB, ?_⟩
        rw [List.nil_append, hrecB, hpost, recordsOf_append, hrecpost1, List.nil_append]
      · exact streamChanges_resume catalog dbKeys cfg oracle n wms fuel c1 _ _ _ hs hch1
          hqA hw1 hrc1 pre2 post ps hlb wms2 _ hqB

theorem c1_checkpoint_resumability_witness :
    joinStreamID "public" "wm" = cfgW.watermarksTable ∧
    (∃ fuel2 c2 msgs2,
      runCapture catT [] cfgW oracleT 2 wmsT fuel2 psT3
        (quiescentEvents "public" "wm" "s" wmsT 0 2) = Except.ok (c2, msgs2) ∧
      recordsOf msgs2 = recordsOf ([] : List Message)) :=
  ⟨by decide,
    c1_checkpoint_resumability catT [] cfgW oracleT 2 wmsT 3 psEmpty "public" "wm" "s" 0 2
      capTEnd msgsT (by decide) (by intro p hp h; cases hp) (by decide) (by rfl)
      [Message.state psT1, Message.state psT2, Message.record "public" "t" rowT] [] psT3
      (by rfl) wmsT 0 2⟩

end SourcePostgres
